import Mathlib

/-!
# edyht: request-line parser and connection loop

Shallow embedding of `src/edyht.c`.

* A C `char`/`unsigned char` is a `Nat` (the byte value); buffers are lists of bytes.
* The file-scope variables `filename`, `queryList`, `urlState`, `cntChar`, `cntElements`
  form the record `State`, passed explicitly.
* `cntChar` and `cntElements` are `int` in C. They are only ever set to `0` or incremented
  behind a capacity test, so they are modelled as `Nat`.
* A store `a[i] = v` is `List.set`; every store a call performs is also reported in the
  `wr` field of the result, so that index bounds can be stated.
-/

namespace Edyht

/-! ## Wire constants (edyht.c 68-150) -/

/-- The array `http_200ok`. -/
def http_200ok : List Nat :=
  [0x48, 0x54, 0x54, 0x50, 0x2f, 0x31, 0x2e, 0x30, 0x20, 0x32, 0x30, 0x30,
   0x20, 0x4f, 0x4b, 0x0d, 0x0a]
def http_200ok_len : Nat := 17

/-- The array `http_400bad`. -/
def http_400bad : List Nat :=
  [0x48,0x54,0x54,0x50,0x2f,0x31,0x2e,0x30,0x20,0x34,0x30,0x30,0x20,0x42,
   0x61,0x64,0x20,0x52,0x65,0x71,0x75,0x65,0x73,0x74,0x0d,0x0a]
def http_400bad_len : Nat := 26

/-- The array `http_404fnf`. -/
def http_404fnf : List Nat :=
  [0x48, 0x54, 0x54, 0x50, 0x2f, 0x31, 0x2e, 0x30, 0x20, 0x34, 0x30, 0x34,
   0x20, 0x46, 0x69, 0x6c, 0x65, 0x20, 0x6e, 0x6f, 0x74, 0x20, 0x66, 0x6f,
   0x75, 0x6e, 0x64, 0x0d, 0x0a]
def http_404fnf_len : Nat := 29

/-- The array `http_server`. -/
def http_server : List Nat :=
  [0x53, 0x65, 0x72, 0x76, 0x65, 0x72, 0x3a, 0x20, 0x65, 0x64, 0x79, 0x68,
   0x74, 0x20, 0x2d, 0x20, 0x62, 0x61, 0x73, 0x65, 0x64, 0x20, 0x6f, 0x6e,
   0x20, 0x6c, 0x77, 0x49, 0x50, 0x0d, 0x0a]
def http_server_len : Nat := 31

/-- The array `http_content_html`. -/
def http_content_html : List Nat :=
  [0x43, 0x6f, 0x6e, 0x74, 0x65, 0x6e, 0x74, 0x2d, 0x74, 0x79, 0x70, 0x65,
   0x3a, 0x20, 0x74, 0x65, 0x78, 0x74, 0x2f, 0x68, 0x74, 0x6d, 0x6c, 0x0d,
   0x0a, 0x0d, 0x0a]
def http_content_html_len : Nat := 27

/-- The array `http_content_csv`. -/
def http_content_csv : List Nat :=
  [0x43, 0x6f, 0x6e, 0x74, 0x65, 0x6e, 0x74, 0x2d, 0x74, 0x79, 0x70, 0x65,
   0x3a, 0x20, 0x74, 0x65, 0x78, 0x74, 0x2f, 0x63, 0x73, 0x76, 0x0d, 0x0a,
   0x0d, 0x0a]
def http_content_csv_len : Nat := 26

/-- The array `http_content_png`. -/
def http_content_png : List Nat :=
  [0x43, 0x6f, 0x6e, 0x74, 0x65, 0x6e, 0x74, 0x2d, 0x74, 0x79, 0x70, 0x65,
   0x3a, 0x20, 0x69, 0x6d, 0x61, 0x67, 0x65, 0x2f, 0x70, 0x6e, 0x67, 0x0d,
   0x0a, 0x0d, 0x0a]
def http_content_png_len : Nat := 27

/-- The array `http_content_json`. -/
def http_content_json : List Nat :=
  [0x43, 0x6f, 0x6e, 0x74, 0x65, 0x6e, 0x74, 0x2d, 0x74, 0x79, 0x70, 0x65,
   0x3a, 0x20, 0x61, 0x70, 0x70, 0x6c, 0x69, 0x63, 0x61, 0x74, 0x69, 0x6F,
   0x6e, 0x2f, 0x6a, 0x73, 0x6f, 0x6e, 0x0d, 0x0a, 0x0d, 0x0a]
def http_content_json_len : Nat := 34

/-- The array `http_content_js`. -/
def http_content_js : List Nat :=
  [0x43, 0x6f, 0x6e, 0x74, 0x65, 0x6e, 0x74, 0x2d, 0x74, 0x79, 0x70, 0x65,
   0x3a, 0x20, 0x74, 0x65, 0x78, 0x74, 0x2f, 0x6a, 0x61, 0x76, 0x61, 0x73,
   0x63, 0x72, 0x69, 0x70, 0x74, 0x0d, 0x0a, 0x0d, 0x0a]
def http_content_js_len : Nat := 33

/-- The array `http_content_plain`. -/
def http_content_plain : List Nat :=
  [0x43,0x6f,0x6e,0x74,0x65,0x6e,0x74,0x2d,0x74,0x79,0x70,0x65,0x3a,0x20,
   0x74,0x65,0x78,0x74,0x2f,0x70,0x6c,0x61,0x69,0x6e,0x0d,0x0a,0x0d,0x0a]
def http_content_plain_len : Nat := 28

/-! ## Parser storage (edyht.c 152-178) -/

def ENTRY_LEN : Nat := 16
def LIST_LEN : Nat := 10

/-- The struct `nameVal_t`: two arrays of `ENTRY_LEN+1` chars. -/
structure nameVal_t where
  name : List Nat
  value : List Nat
deriving DecidableEq, Repr

/-- The anonymous enum of `urlState`. -/
inductive UrlState where
  | urlState_GET
  | urlState_filename
  | urlState_queryName
  | urlState_queryVal
deriving DecidableEq, Repr

open UrlState

/-- The file-scope variables of the parser. -/
structure State where
  filename : List Nat
  queryList : List nameVal_t
  urlState : UrlState
  cntChar : Nat
  cntElements : Nat
deriving DecidableEq, Repr

/-- The storage has its declared shape: `char filename[17]`, `nameVal_t queryList[10]`,
each entry holding `char name[17]` and `char value[17]`. -/
def State.Shaped (s : State) : Prop :=
  s.filename.length = ENTRY_LEN + 1 ∧ s.queryList.length = LIST_LEN ∧
    ∀ e ∈ s.queryList, e.name.length = ENTRY_LEN + 1 ∧ e.value.length = ENTRY_LEN + 1

instance (s : State) : Decidable s.Shaped := by
  unfold State.Shaped; infer_instance

/-- Static storage at program start: all bytes zero, `urlState` the first enumerator. -/
def State.zero : State where
  filename := List.replicate 17 0
  queryList := List.replicate 10 ⟨List.replicate 17 0, List.replicate 17 0⟩
  urlState := urlState_GET
  cntChar := 0
  cntElements := 0

/-- The function `charProcessInit`. -/
def charProcessInit (s : State) : State :=
  { s with cntChar := 0, cntElements := 0, urlState := urlState_GET }

def CHARPROC_OK : Int := 0
def CHARPROC_FINISHED : Int := 1
def CHARPROC_ERR_REQUEST : Int := -1
def CHARPROC_ERR_OWFL : Int := -2
def CHARPROC_ERR_WRONGCHAR : Int := -3

/-- The array a store goes to. -/
inductive Buf where
  | filename
  | name (elem : Nat)
  | value (elem : Nat)
deriving DecidableEq, Repr

/-- One store `buf[idx] = val`. -/
structure Write where
  buf : Buf
  idx : Nat
  val : Nat
deriving DecidableEq, Repr

/-- The store `queryList[e].name[i] = v`. -/
def setName (q : List nameVal_t) (e i v : Nat) : List nameVal_t :=
  match q[e]? with
  | some x => q.set e { x with name := x.name.set i v }
  | none => q

/-- The store `queryList[e].value[i] = v`. -/
def setValue (q : List nameVal_t) (e i v : Nat) : List nameVal_t :=
  match q[e]? with
  | some x => q.set e { x with value := x.value.set i v }
  | none => q

/-- What one call of `charProcess` leaves: the variables, the returned code and the
store it performed, if any. -/
structure Result where
  st : State
  ret : Int
  wr : Option Write
deriving DecidableEq, Repr

/-- The literal `"GET /"` with its terminating NUL. -/
def getStr : List Nat := [0x47, 0x45, 0x54, 0x20, 0x2f, 0]

/-- The function `charProcess` (edyht.c 186-284). Character constants are written as their
codes: `'0'..'9'` = `0x30..0x39`, `'A'..'Z'` = `0x41..0x5a`, `'a'..'z'` = `0x61..0x7a`,
`'.'` = `0x2e`, `'_'` = `0x5f`, `'-'` = `0x2d`. In the model a read of `getStr` past its NUL
yields `0` and a store past the end of an array changes nothing. -/
def charProcess (s : State) (inChar : Nat) : Result :=
  if 0x20 ≤ inChar ∧ inChar ≤ 0x7e then
    match s.urlState with
    | urlState_GET =>
      if inChar ≠ getStr.getD s.cntChar 0 then ⟨s, CHARPROC_ERR_REQUEST, none⟩
      else if s.cntChar + 1 = 5 then
        ⟨{ s with cntChar := 0, urlState := urlState_filename }, CHARPROC_OK, none⟩
      else ⟨{ s with cntChar := s.cntChar + 1 }, CHARPROC_OK, none⟩
    | urlState_filename =>
      if inChar = 0x20 /- ' ' -/ then
        ⟨{ s with filename := s.filename.set s.cntChar 0 }, CHARPROC_FINISHED,
          some ⟨Buf.filename, s.cntChar, 0⟩⟩
      else if inChar = 0x3f /- '?' -/ then
        ⟨{ s with filename := s.filename.set s.cntChar 0, cntChar := 0,
                  urlState := urlState_queryName }, CHARPROC_OK,
          some ⟨Buf.filename, s.cntChar, 0⟩⟩
      else if s.cntChar ≥ ENTRY_LEN then ⟨s, CHARPROC_ERR_OWFL, none⟩
      else if (0x30 ≤ inChar ∧ inChar ≤ 0x39) ∨ (0x41 ≤ inChar ∧ inChar ≤ 0x5a)
          ∨ (0x61 ≤ inChar ∧ inChar ≤ 0x7a) ∨ inChar = 0x2e then
        ⟨{ s with filename := s.filename.set s.cntChar inChar, cntChar := s.cntChar + 1 },
          CHARPROC_OK, some ⟨Buf.filename, s.cntChar, inChar⟩⟩
      else ⟨s, CHARPROC_ERR_WRONGCHAR, none⟩
    | urlState_queryName =>
      if s.cntElements ≥ LIST_LEN then ⟨s, CHARPROC_ERR_OWFL, none⟩
      else if inChar = 0x3d /- '=' -/ then
        ⟨{ s with queryList := setName s.queryList s.cntElements s.cntChar 0, cntChar := 0,
                  urlState := urlState_queryVal }, CHARPROC_OK,
          some ⟨Buf.name s.cntElements, s.cntChar, 0⟩⟩
      else if s.cntChar ≥ ENTRY_LEN then ⟨s, CHARPROC_ERR_OWFL, none⟩
      else if (0x30 ≤ inChar ∧ inChar ≤ 0x39) ∨ (0x41 ≤ inChar ∧ inChar ≤ 0x5a)
          ∨ (0x61 ≤ inChar ∧ inChar ≤ 0x7a) ∨ inChar = 0x2e ∨ inChar = 0x5f then
        ⟨{ s with queryList := setName s.queryList s.cntElements s.cntChar inChar,
                  cntChar := s.cntChar + 1 }, CHARPROC_OK,
          some ⟨Buf.name s.cntElements, s.cntChar, inChar⟩⟩
      else ⟨s, CHARPROC_ERR_WRONGCHAR, none⟩
    | urlState_queryVal =>
      if inChar = 0x20 /- ' ' -/ then
        ⟨{ s with queryList := setValue s.queryList s.cntElements s.cntChar 0,
                  cntElements := s.cntElements + 1 }, CHARPROC_FINISHED,
          some ⟨Buf.value s.cntElements, s.cntChar, 0⟩⟩
      else if inChar = 0x26 /- '&' -/ then
        ⟨{ s with queryList := setValue s.queryList s.cntElements s.cntChar 0, cntChar := 0,
                  cntElements := s.cntElements + 1, urlState := urlState_queryName },
          CHARPROC_OK, some ⟨Buf.value s.cntElements, s.cntChar, 0⟩⟩
      else if s.cntChar ≥ ENTRY_LEN then ⟨s, CHARPROC_ERR_OWFL, none⟩
      else if (0x30 ≤ inChar ∧ inChar ≤ 0x39) ∨ (0x41 ≤ inChar ∧ inChar ≤ 0x5a)
          ∨ (0x61 ≤ inChar ∧ inChar ≤ 0x7a) ∨ inChar = 0x2e ∨ inChar = 0x2d then
        ⟨{ s with queryList := setValue s.queryList s.cntElements s.cntChar inChar,
                  cntChar := s.cntChar + 1 }, CHARPROC_OK,
          some ⟨Buf.value s.cntElements, s.cntChar, inChar⟩⟩
      else if inChar = 0x2b /- '+' -/ then
        ⟨{ s with queryList := setValue s.queryList s.cntElements s.cntChar 0x20,
                  cntChar := s.cntChar + 1 }, CHARPROC_OK,
          some ⟨Buf.value s.cntElements, s.cntChar, 0x20⟩⟩
      else ⟨s, CHARPROC_ERR_WRONGCHAR, none⟩
  else ⟨s, CHARPROC_OK, none⟩

/-- Feeding a byte sequence to `charProcess`, one call per byte: the variables left after
the last call and the codes returned, in order. -/
def charProcessAll : State → List Nat → State × List Int
  | s, [] => (s, [])
  | s, c :: cs =>
    let r := charProcess s c
    let t := charProcessAll r.st cs
    (t.1, r.ret :: t.2)

/-- The bytes of a string literal, without terminator. -/
def bytes (str : String) : List Nat := str.toList.map Char.toNat

/-- A string literal as the array C makes of it: its bytes and the terminating NUL. -/
def lit (str : String) : List Nat := bytes str ++ [0]

/-- The C string held in a buffer: the bytes before the first NUL. -/
def cstr (buf : List Nat) : List Nat := buf.takeWhile (· ≠ 0)

/-- The library function `strlen`. -/
def strlen (buf : List Nat) : Nat := (cstr buf).length

/-- The library function `strncmp`: compares at most `n` characters, stopping after a NUL. -/
def strncmp : List Nat → List Nat → Nat → Int
  | _, _, 0 => 0
  | s1, s2, n + 1 =>
    if s1.headD 0 ≠ s2.headD 0 then (s1.headD 0 : Int) - (s2.headD 0 : Int)
    else if s1.headD 0 = 0 then 0
    else strncmp s1.tail s2.tail n

/-- The conversion `%d` of `sprintf`, for a value that is not negative. -/
def fmtDec (n : Nat) : List Nat := (Nat.toDigits 10 n).map Char.toNat

/-! ## Responses (edyht.c 286-405) -/

/-- A call on the connection that the client can observe. -/
inductive ConnOp where
  | write (data : List Nat)
  | close
deriving DecidableEq, Repr

/-- The call `netconn_write(conn, data, len, _)`: sends the first `len` bytes of `data`. -/
def netconn_write (data : List Nat) (len : Nat) : ConnOp := ConnOp.write (data.take len)

/-- What the build and the platform supply: the arrays of the included `htdocs/*.htmi`
files (`xxd -i` declares each `_len` as the size of its array) and the texts that
`vTaskList` and `ctime_r` leave in `buffer`. -/
structure Htdocs where
  htdocs_index_htm : List Nat
  htdocs_err404_htm : List Nat
  htdocs_credits_htm : List Nat
  htdocs_testform_begin_htm : List Nat
  htdocs_testform_end_htm : List Nat
  htdocs_tasks_begin_htm : List Nat
  htdocs_tasks_end_htm : List Nat
  htdocs_lwip_begin_htm : List Nat
  htdocs_lwip_end_htm : List Nat
  vTaskList : List Nat
  ctime_r : List Nat
deriving DecidableEq, Repr

/-- The body of the loop of `arrayProcess` for positions `pos, pos+1, ..` (`k` of them):
`array[pos] = pos/2 + 1 + pos/3`, formatted into `val` and sent up to its NUL. -/
def arrayLoop : Nat → Nat → List ConnOp
  | _, 0 => []
  | pos, k + 1 =>
    let val := if pos = 0 then fmtDec (pos / 2 + 1 + pos / 3) ++ [0]
               else bytes "," ++ fmtDec (pos / 2 + 1 + pos / 3) ++ [0]
    netconn_write val (strlen val) :: arrayLoop (pos + 1) k

/-- The function `arrayProcess`. -/
def arrayProcess : List ConnOp := arrayLoop 0 1000

/-- The loop of `queryShow` for entries `i, i+1, ..` (`k` of them). -/
def queryLoop (s : State) : Nat → Nat → List ConnOp
  | _, 0 => []
  | i, k + 1 =>
    let e := s.queryList.getD i ⟨[], []⟩
    let line := bytes "<tr><td>" ++ cstr e.name ++ bytes " <td>" ++ cstr e.value
                  ++ bytes "\n" ++ [0]
    netconn_write line (strlen line) :: queryLoop s (i + 1) k

/-- The function `queryShow`. -/
def queryShow (s : State) : List ConnOp :=
  let line1 := bytes "Number of elements: " ++ fmtDec s.cntElements ++ bytes "\n" ++ [0]
  let line2 := lit "<table>\n"
  let line3 := lit "</table>\n"
  [netconn_write line1 (strlen line1), netconn_write line2 (strlen line2)]
    ++ queryLoop s 0 s.cntElements ++ [netconn_write line3 (strlen line3)]

/-- The function `page_FreeRTOS_Tasks`. -/
def page_FreeRTOS_Tasks (hd : Htdocs) : List ConnOp :=
  [netconn_write (lit "<pre>\r\n") 7,
   netconn_write (lit "Name          State  Priority  Stack   Num\r\n") 44,
   netconn_write (lit "------------------------------------------\r\n") 44,
   netconn_write hd.vTaskList (strlen hd.vTaskList),
   netconn_write (lit "------------------------------------------\r\n") 44,
   netconn_write (lit "System Time: ") 13,
   netconn_write hd.ctime_r (strlen hd.ctime_r),
   netconn_write (lit "</pre>\r\n") 8]

/-- The function `webpageProcess`. -/
def webpageProcess (hd : Htdocs) (s : State) : List ConnOp :=
  if strncmp s.filename (lit "") ENTRY_LEN = 0
      ∨ strncmp s.filename (lit "index.htm") ENTRY_LEN = 0 then
    [netconn_write http_200ok http_200ok_len,
     netconn_write http_server http_server_len,
     netconn_write http_content_html http_content_html_len,
     netconn_write hd.htdocs_index_htm hd.htdocs_index_htm.length]
  else if strncmp s.filename (lit "credits.htm") ENTRY_LEN = 0 then
    [netconn_write http_200ok http_200ok_len,
     netconn_write http_server http_server_len,
     netconn_write http_content_html http_content_html_len,
     netconn_write hd.htdocs_credits_htm hd.htdocs_credits_htm.length]
  else if strncmp s.filename (lit "tasks.htm") ENTRY_LEN = 0 then
    [netconn_write http_200ok http_200ok_len,
     netconn_write http_server http_server_len,
     netconn_write http_content_html http_content_html_len,
     netconn_write hd.htdocs_tasks_begin_htm hd.htdocs_tasks_begin_htm.length]
    ++ page_FreeRTOS_Tasks hd
    ++ [netconn_write hd.htdocs_tasks_end_htm hd.htdocs_tasks_end_htm.length]
  else if strncmp s.filename (lit "lwip.htm") ENTRY_LEN = 0 then
    [netconn_write http_200ok http_200ok_len,
     netconn_write http_server http_server_len,
     netconn_write http_content_html http_content_html_len,
     netconn_write hd.htdocs_lwip_begin_htm hd.htdocs_lwip_begin_htm.length,
     netconn_write hd.htdocs_lwip_end_htm hd.htdocs_lwip_end_htm.length]
  else if strncmp s.filename (lit "testform.htm") ENTRY_LEN = 0 then
    [netconn_write http_200ok http_200ok_len,
     netconn_write http_server http_server_len,
     netconn_write http_content_html http_content_html_len,
     netconn_write hd.htdocs_testform_begin_htm hd.htdocs_testform_begin_htm.length]
    ++ queryShow s
    ++ [netconn_write hd.htdocs_testform_end_htm hd.htdocs_testform_end_htm.length]
  else if strncmp s.filename (lit "test.json") ENTRY_LEN = 0 then
    [netconn_write http_200ok http_200ok_len,
     netconn_write http_server http_server_len,
     netconn_write http_content_json http_content_json_len,
     netconn_write (lit "\x7b\n\"val\":[") (strlen (lit "\x7b\n\"val\":["))]
    ++ arrayProcess
    ++ [netconn_write (lit "]\n\x7d") (strlen (lit "]\n\x7d"))]
  else
    [netconn_write http_404fnf http_404fnf_len,
     netconn_write http_server http_server_len,
     netconn_write http_content_html http_content_html_len,
     netconn_write hd.htdocs_err404_htm hd.htdocs_err404_htm.length]

/-- The function `webpageBadProcess`. -/
def webpageBadProcess : List ConnOp :=
  [netconn_write http_400bad http_400bad_len,
   netconn_write http_server http_server_len,
   netconn_write http_content_plain http_content_plain_len,
   netconn_write (lit "ERR\n") 4]

/-! ## The connection loop (edyht.c 407-472) -/

/-- A received `netbuf`: a chain of at least one data segment. -/
structure Netbuf where
  first : List Nat
  rest : List (List Nat)
deriving DecidableEq, Repr

/-- What one round of the receive loop gets from the transport: `netconn_recv` fails
(time-out included), or it delivers a netbuf and `netconn_err` is `ERR_OK` or not. -/
inductive Recv where
  | recvErr
  | connErr (inbuf : Netbuf)
  | data (inbuf : Netbuf)
deriving DecidableEq, Repr

/-- The variables of `serve_get_request`, with the calls made so far on the connection
(`conn`) and on `charProcess` (`calls`: argument and returned code). -/
structure Serve where
  st : State
  conn : List ConnOp
  calls : List (Nat × Int)
  doexit : Nat
deriving DecidableEq, Repr

/-- The loop `for(i=0; i<buflen; i++)` over the bytes of one segment. -/
def forLoop (hd : Htdocs) : Serve → List Nat → Serve
  | v, [] => v
  | v, myChar :: buf =>
    let r := charProcess v.st myChar
    let v1 : Serve := { v with st := r.st, calls := v.calls ++ [(myChar, r.ret)] }
    if r.ret < 0 then
      { v1 with conn := v1.conn ++ webpageBadProcess, doexit := 4 }
    else if r.ret = 1 then
      { v1 with conn := v1.conn ++ webpageProcess hd v1.st, doexit := 100 }
    else forLoop hd v1 buf

/-- The loop `do .. while((netbuf_next(inbuf) >= 0) && (doexit==0))` over the segments
of one netbuf. -/
def segLoop (hd : Htdocs) : Serve → List Nat → List (List Nat) → Serve
  | v, buf, [] => forLoop hd v buf
  | v, buf, next :: more =>
    if (forLoop hd v buf).doexit = 0 then segLoop hd (forLoop hd v buf) next more
    else forLoop hd v buf

/-- The loop `do .. while(doexit == 0)` and the `netconn_close` after it. The transport
results are consumed in order; when they run out while `doexit` is still `0` the function
is blocked in `netconn_recv` and the variables are returned as they stand. -/
def recvLoop (hd : Htdocs) : Serve → List Recv → Serve
  | v, [] => v
  | v, r :: rs =>
    let v1 : Serve :=
      match r with
      | Recv.recvErr => { v with doexit := 2 }
      | Recv.connErr _ => { v with doexit := 3 }
      | Recv.data inbuf => segLoop hd v inbuf.first inbuf.rest
    if v1.doexit = 0 then recvLoop hd v1 rs
    else { v1 with conn := v1.conn ++ [ConnOp.close] }

/-- The function `serve_get_request`, entered with the parser variables `s`. -/
def serve_get_request (hd : Htdocs) (s : State) (rs : List Recv) : Serve :=
  recvLoop hd { st := charProcessInit s, conn := [], calls := [], doexit := 0 } rs

/-- Page data used when a run is evaluated. -/
def Htdocs.sample : Htdocs where
  htdocs_index_htm := bytes "<html>index</html>"
  htdocs_err404_htm := bytes "<html>404</html>"
  htdocs_credits_htm := bytes "<html>credits</html>"
  htdocs_testform_begin_htm := bytes "<html>form"
  htdocs_testform_end_htm := bytes "</html>"
  htdocs_tasks_begin_htm := bytes "<html>tasks"
  htdocs_tasks_end_htm := bytes "</html>"
  htdocs_lwip_begin_htm := bytes "<html>lwip"
  htdocs_lwip_end_htm := bytes "</html>"
  vTaskList := lit "IDLE R 0 100 1\r\n"
  ctime_r := lit "Thu Jan  1 00:00:00 1970\n"

/-! ## Vocabulary of the specification -/

/-- The range `0x20..0x7E` of bytes the parser looks at. -/
def Printable (c : Nat) : Prop := 0x20 ≤ c ∧ c ≤ 0x7e

instance : DecidablePred Printable := fun c => by
  unfold Printable; infer_instance

/-- The characters `[0-9A-Za-z]`. -/
def AlphaNum (c : Nat) : Prop :=
  ('0'.toNat ≤ c ∧ c ≤ '9'.toNat) ∨ ('A'.toNat ≤ c ∧ c ≤ 'Z'.toNat)
    ∨ ('a'.toNat ≤ c ∧ c ≤ 'z'.toNat)

/-- The class `[0-9A-Za-z.]` of a filename. -/
def FilenameChar (c : Nat) : Prop := AlphaNum c ∨ c = '.'.toNat

/-- The class `[0-9A-Za-z._]` of a query name. -/
def NameChar (c : Nat) : Prop := AlphaNum c ∨ c = '.'.toNat ∨ c = '_'.toNat

/-- The class `[0-9A-Za-z.+-]` of a query value as sent. -/
def ValueChar (c : Nat) : Prop := AlphaNum c ∨ c = '.'.toNat ∨ c = '+'.toNat ∨ c = '-'.toNat

instance : DecidablePred AlphaNum := fun c => by
  unfold AlphaNum; infer_instance

instance : DecidablePred FilenameChar := fun c => by
  unfold FilenameChar; infer_instance

instance : DecidablePred NameChar := fun c => by
  unfold NameChar; infer_instance

instance : DecidablePred ValueChar := fun c => by
  unfold ValueChar; infer_instance

/-- A field of at most 16 characters of a class. -/
def Field (cls : Nat → Prop) (f : List Nat) : Prop := f.length ≤ 16 ∧ ∀ c ∈ f, cls c

instance (cls : Nat → Prop) [DecidablePred cls] (f : List Nat) : Decidable (Field cls f) := by
  unfold Field; infer_instance

/-- A pair `name=value` as sent. -/
def pairBytes (p : List Nat × List Nat) : List Nat := p.1 ++ bytes "=" ++ p.2

/-- The request line of the grammar
`"GET /" filename ( '?' name '=' value ( '&' name '=' value )* )? ' '`. -/
def requestLine (f : List Nat) (ps : List (List Nat × List Nat)) : List Nat :=
  bytes "GET /" ++ f
    ++ (if ps = [] then [] else bytes "?" ++ (bytes "&").intercalate (ps.map pairBytes))
    ++ bytes " "

/-- A value as stored: every `'+'` replaced by a space. -/
def plusToSpace (v : List Nat) : List Nat :=
  v.map fun c => if c = '+'.toNat then ' '.toNat else c

/-- The entries `queryList[0..cntElements-1]`, each field read as a C string. -/
def entries (s : State) : List (List Nat × List Nat) :=
  (s.queryList.take s.cntElements).map fun e => (cstr e.name, cstr e.value)

/-! ## Definitions used in the proofs -/

/-- Every byte of `bs`, fed from `s`, returns `CHARPROC_OK` and the variables end as `t`. -/
def Runs (s : State) (bs : List Nat) (t : State) : Prop :=
  charProcessAll s bs = (t, List.replicate bs.length CHARPROC_OK)

/-- The entry `queryList[e]`. -/
def entry (s : State) (e : Nat) : nameVal_t := s.queryList.getD e ⟨[], []⟩

/-- An entry read as a pair of C strings. -/
def dec (e : nameVal_t) : List Nat × List Nat := (cstr e.name, cstr e.value)

/-- The printable bytes `pr` consumed so far fit the grammar up to the point the variables
record. -/
def Parsed (s : State) (pr : List Nat) : Prop :=
  match s.urlState with
  | urlState_GET =>
    s.cntChar < 5 ∧ s.cntElements = 0 ∧ pr = (bytes "GET /").take s.cntChar
  | urlState_filename =>
    s.cntElements = 0 ∧ ∃ f : List Nat, pr = bytes "GET /" ++ f ∧ f.length = s.cntChar ∧
      Field FilenameChar f
  | urlState_queryName =>
    ∃ (f : List Nat) (ps : List (List Nat × List Nat)) (nm : List Nat), pr = bytes "GET /" ++ f ++ bytes "?"
        ++ (ps.flatMap fun p => pairBytes p ++ bytes "&") ++ nm ∧
      Field FilenameChar f ∧ (∀ p ∈ ps, Field NameChar p.1 ∧ Field ValueChar p.2) ∧
      ps.length = s.cntElements ∧ s.cntElements ≤ 10 ∧ nm.length = s.cntChar ∧
      Field NameChar nm
  | urlState_queryVal =>
    ∃ (f : List Nat) (ps : List (List Nat × List Nat)) (nm v : List Nat), pr = bytes "GET /" ++ f ++ bytes "?"
        ++ (ps.flatMap fun p => pairBytes p ++ bytes "&") ++ nm ++ bytes "=" ++ v ∧
      Field FilenameChar f ∧ (∀ p ∈ ps, Field NameChar p.1 ∧ Field ValueChar p.2) ∧
      ps.length = s.cntElements ∧ s.cntElements < 10 ∧ Field NameChar nm ∧
      v.length = s.cntChar ∧ Field ValueChar v

/-- The bytes of a netbuf, segment after segment. -/
def Netbuf.bytes (b : Netbuf) : List Nat := b.first ++ b.rest.flatten

/-- A netbuf with the bytes outside `0x20..0x7E` removed from every segment. -/
def Netbuf.strip (b : Netbuf) : Netbuf :=
  ⟨b.first.filter (Printable ·), b.rest.map fun seg => seg.filter (Printable ·)⟩

/-- A transport result with the bytes outside `0x20..0x7E` removed. -/
def Recv.strip : Recv → Recv
  | Recv.recvErr => Recv.recvErr
  | Recv.connErr b => Recv.connErr b.strip
  | Recv.data b => Recv.data b.strip

/-- The bytes sent on the connection, in order. -/
def sent : List ConnOp → List Nat
  | [] => []
  | ConnOp.write d :: ops => d ++ sent ops
  | ConnOp.close :: ops => sent ops

/-- Two runs of the connection loop agree in what a client and the parser can see. -/
def SameOutcome (v w : Serve) : Prop := v.st = w.st ∧ v.conn = w.conn ∧ v.doexit = w.doexit

/-- The filenames `webpageProcess` has a page for. -/
def knownPages : List (List Nat) :=
  [bytes "", bytes "index.htm", bytes "credits.htm", bytes "tasks.htm", bytes "lwip.htm",
   bytes "testform.htm", bytes "test.json"]

/-- The loop is still running: nothing sent, every call so far returned `CHARPROC_OK`. -/
def Serve.Idle (v : Serve) : Prop :=
  v.doexit = 0 ∧ v.conn = [] ∧ ∀ c ∈ v.calls, c.2 = CHARPROC_OK

/-- The last call returned an error code and the bad-request response was sent. -/
def Serve.Failed (v : Serve) : Prop :=
  v.doexit = 4 ∧ ∃ (pre : List (Nat × Int)) (c : Nat) (r : Int),
    v.calls = pre ++ [(c, r)] ∧ r < 0 ∧ ∀ x ∈ pre, x.2 = CHARPROC_OK

/-- The last call returned `CHARPROC_FINISHED` and the page was sent. -/
def Serve.Done (v : Serve) : Prop :=
  v.doexit = 100 ∧ ∃ (pre : List (Nat × Int)) (c : Nat),
    v.calls = pre ++ [(c, CHARPROC_FINISHED)] ∧ ∀ x ∈ pre, x.2 = CHARPROC_OK

/-- The states in which the byte loop can leave the variables. -/
def Outcome (hd : Htdocs) (v : Serve) : Prop :=
  v.Idle ∨ (v.Failed ∧ v.conn = webpageBadProcess) ∨ (v.Done ∧ v.conn = webpageProcess hd v.st)

/-- The states in which `serve_get_request` can leave the variables. -/
def Final (hd : Htdocs) (v : Serve) : Prop :=
  v.Idle
  ∨ ((v.doexit = 2 ∨ v.doexit = 3) ∧ v.conn = [ConnOp.close] ∧ ∀ c ∈ v.calls, c.2 = CHARPROC_OK)
  ∨ (v.Failed ∧ v.conn = webpageBadProcess ++ [ConnOp.close])
  ∨ (v.Done ∧ v.conn = webpageProcess hd v.st ++ [ConnOp.close])

/-- The number a string of decimal digits denotes. -/
def decVal (l : List Nat) : Nat := l.foldl (fun a c => 10 * a + (c - 0x30)) 0

/-- The value `array[pos]` that `arrayProcess` computes. -/
def arrayVal (pos : Nat) : Nat := pos / 2 + 1 + pos / 3

/-- What `arrayProcess` sends for position `pos`: the number, after a comma unless first. -/
def arrayPiece (pos : Nat) : List Nat :=
  (if pos = 0 then [] else bytes ",") ++ fmtDec (arrayVal pos)

/-- The bounds the variables keep as long as no call has returned `CHARPROC_FINISHED`. -/
def Bounds (s : State) : Prop :=
  (s.urlState = urlState_GET → s.cntChar ≤ 4) ∧ s.cntChar ≤ 16 ∧ s.cntElements ≤ 10 ∧
    (s.urlState = urlState_queryVal → s.cntElements ≤ 9)

/-- The array element a store names exists: `filename[17]`, `queryList[10].name[17]`,
`queryList[10].value[17]`. -/
def Write.InBounds (w : Write) : Prop :=
  w.idx < 17 ∧
    match w.buf with
    | Buf.filename => True
    | Buf.name e => e < 10
    | Buf.value e => e < 10

/-- The characters a stored value can hold: `[0-9A-Za-z.-]` and the space made of `'+'`. -/
def StoredValueChar (c : Nat) : Prop :=
  AlphaNum c ∨ c = '.'.toNat ∨ c = '-'.toNat ∨ c = ' '.toNat

instance : DecidablePred StoredValueChar := fun c => by
  unfold StoredValueChar; infer_instance

/-- The first `cntChar` characters of the field being accumulated belong to its class. -/
def Accumulating (s : State) : Prop :=
  match s.urlState with
  | urlState_GET => True
  | urlState_filename => ∀ c ∈ s.filename.take s.cntChar, FilenameChar c
  | urlState_queryName =>
    ∀ c ∈ (s.queryList.getD s.cntElements ⟨[], []⟩).name.take s.cntChar, NameChar c
  | urlState_queryVal =>
    ∀ c ∈ (s.queryList.getD s.cntElements ⟨[], []⟩).value.take s.cntChar, StoredValueChar c

/-- The filename and every name and value of `queryList[0..cntElements-1]`, read as C
strings, consist of characters of their classes. -/
def Completed (s : State) : Prop :=
  (∀ c ∈ cstr s.filename, FilenameChar c) ∧
    ∀ e ∈ entries s, (∀ c ∈ e.1, NameChar c) ∧ (∀ c ∈ e.2, StoredValueChar c)

/-- The calls recorded in `v` are a run of `charProcess` from `charProcessInit s0` that ends
in the variables of `v`. -/
def Traced (s0 : State) (v : Serve) : Prop :=
  charProcessAll (charProcessInit s0) (v.calls.map Prod.fst) = (v.st, v.calls.map Prod.snd)

/-- The variables that decide what `charProcess` returns. -/
def ctl (s : State) : UrlState × Nat × Nat := (s.urlState, s.cntChar, s.cntElements)

/-- Two runs of the connection loop have made the same calls of `charProcess`, with the same
results, and are at the same point of the loop. -/
def SameCalls (v w : Serve) : Prop :=
  ctl v.st = ctl w.st ∧ v.calls = w.calls ∧ v.doexit = w.doexit

/-- One row of the table `queryShow` writes. -/
def queryRow (e : List Nat × List Nat) : ConnOp :=
  ConnOp.write (bytes "<tr><td>" ++ e.1 ++ bytes " <td>" ++ e.2 ++ bytes "\n")

/-- The table of `n` entries `es` as `queryShow` writes it. -/
def queryTable (n : Nat) (es : List (List Nat × List Nat)) : List ConnOp :=
  [ConnOp.write (bytes "Number of elements: " ++ fmtDec n ++ bytes "\n"),
   ConnOp.write (bytes "<table>\n")]
    ++ es.map queryRow ++ [ConnOp.write (bytes "</table>\n")]

/-! ## Basic facts -/

theorem alphaNum_iff (c : Nat) :
    AlphaNum c ↔ (0x30 ≤ c ∧ c ≤ 0x39) ∨ (0x41 ≤ c ∧ c ≤ 0x5a) ∨ (0x61 ≤ c ∧ c ≤ 0x7a) :=
  Iff.rfl

theorem filenameChar_iff (c : Nat) :
    FilenameChar c ↔ (0x30 ≤ c ∧ c ≤ 0x39) ∨ (0x41 ≤ c ∧ c ≤ 0x5a) ∨ (0x61 ≤ c ∧ c ≤ 0x7a)
      ∨ c = 0x2e := by
  unfold FilenameChar; rw [alphaNum_iff]
  have : '.'.toNat = 0x2e := rfl
  rw [this]; tauto

theorem nameChar_iff (c : Nat) :
    NameChar c ↔ (0x30 ≤ c ∧ c ≤ 0x39) ∨ (0x41 ≤ c ∧ c ≤ 0x5a) ∨ (0x61 ≤ c ∧ c ≤ 0x7a)
      ∨ c = 0x2e ∨ c = 0x5f := by
  unfold NameChar; rw [alphaNum_iff]
  have h1 : '.'.toNat = 0x2e := rfl
  have h2 : '_'.toNat = 0x5f := rfl
  rw [h1, h2]; tauto

theorem valueChar_iff (c : Nat) :
    ValueChar c ↔ (0x30 ≤ c ∧ c ≤ 0x39) ∨ (0x41 ≤ c ∧ c ≤ 0x5a) ∨ (0x61 ≤ c ∧ c ≤ 0x7a)
      ∨ c = 0x2e ∨ c = 0x2b ∨ c = 0x2d := by
  unfold ValueChar; rw [alphaNum_iff]
  have h1 : '.'.toNat = 0x2e := rfl
  have h2 : '+'.toNat = 0x2b := rfl
  have h3 : '-'.toNat = 0x2d := rfl
  rw [h1, h2, h3]; tauto

theorem charProcessAll_append (s : State) (a b : List Nat) :
    charProcessAll s (a ++ b) =
      ((charProcessAll (charProcessAll s a).1 b).1,
        (charProcessAll s a).2 ++ (charProcessAll (charProcessAll s a).1 b).2) := by
  induction a generalizing s with
  | nil => simp [charProcessAll]
  | cons c cs ih => simp [charProcessAll, ih]

theorem Runs.nil (s : State) : Runs s [] s := by
  simp [Runs, charProcessAll]

theorem Runs.one {s : State} {c : Nat} {t : State}
    (h1 : (charProcess s c).st = t) (h2 : (charProcess s c).ret = CHARPROC_OK) :
    Runs s [c] t := by
  simp only [Runs, charProcessAll, h1, h2, List.length_singleton, List.replicate_one,
    List.replicate_zero]

theorem Runs.append {s t u : State} {a b : List Nat} (h1 : Runs s a t) (h2 : Runs t b u) :
    Runs s (a ++ b) u := by
  unfold Runs at *
  rw [charProcessAll_append, h1]
  show ((charProcessAll t b).1, _ ++ (charProcessAll t b).2) = _
  rw [h2, List.length_append, List.replicate_add]

/-- A filename character appended in `urlState_filename`. -/
theorem charProcess_filename_char (s : State) (c : Nat) (hs : s.urlState = urlState_filename)
    (hc : FilenameChar c) (hn : s.cntChar < 16) :
    charProcess s c =
      ⟨{ s with filename := s.filename.set s.cntChar c, cntChar := s.cntChar + 1 },
        CHARPROC_OK, some ⟨Buf.filename, s.cntChar, c⟩⟩ := by
  rw [filenameChar_iff] at hc
  have hp : 0x20 ≤ c ∧ c ≤ 0x7e := by omega
  have h1 : ¬ c = 0x20 := by omega
  have h2 : ¬ c = 0x3f := by omega
  have h3 : ¬ s.cntChar ≥ ENTRY_LEN := by unfold ENTRY_LEN; omega
  simp only [charProcess, hs, if_pos hp, if_neg h1, if_neg h2, if_neg h3, if_pos hc]

/-! ## Stores into a buffer -/

theorem take_set_succ : ∀ (l : List Nat) (k c : Nat), k < l.length →
    (l.set k c).take (k + 1) = l.take k ++ [c]
  | [], _, _, h => by simp at h
  | _ :: _, 0, _, _ => by simp
  | a :: l, k + 1, c, h => by
    have h1 : k < l.length := by simpa using h
    simp [take_set_succ l k c h1]

theorem cstr_set_zero : ∀ (l : List Nat) (k : Nat), k < l.length →
    (∀ c ∈ l.take k, c ≠ 0) → cstr (l.set k 0) = l.take k
  | [], _, h, _ => by simp at h
  | _ :: _, 0, _, _ => by simp [cstr]
  | a :: l, k + 1, h, hz => by
    have h1 : k < l.length := by simpa using h
    have ha : a ≠ 0 := hz a (by simp)
    have hl : ∀ c ∈ l.take k, c ≠ 0 := fun c hc => hz c (by simp [hc])
    have ih := cstr_set_zero l k h1 hl
    unfold cstr at ih ⊢
    simp only [List.set_cons_succ, List.takeWhile_cons, List.take_succ_cons, ne_eq, ha,
      not_false_eq_true, decide_True, if_true, ih]

theorem take_set_self {α : Type} : ∀ (l : List α) (k : Nat) (c : α),
    (l.set k c).take k = l.take k
  | [], _, _ => by simp
  | _ :: _, 0, _ => by simp
  | a :: l, k + 1, c => by simp [take_set_self l k c]

theorem length_setName (q : List nameVal_t) (e i v : Nat) :
    (setName q e i v).length = q.length := by
  unfold setName; split <;> simp

theorem length_setValue (q : List nameVal_t) (e i v : Nat) :
    (setValue q e i v).length = q.length := by
  unfold setValue; split <;> simp

theorem take_setName (q : List nameVal_t) (e i v : Nat) :
    (setName q e i v).take e = q.take e := by
  unfold setName; split <;> simp [take_set_self]

theorem take_setValue (q : List nameVal_t) (e i v : Nat) :
    (setValue q e i v).take e = q.take e := by
  unfold setValue; split <;> simp [take_set_self]

theorem getElem?_setName (q : List nameVal_t) (e i v : Nat) :
    (setName q e i v)[e]? = q[e]?.map fun x => { x with name := x.name.set i v } := by
  unfold setName
  split
  · rename_i x hx
    have : e < q.length := by
      by_contra hc
      rw [List.getElem?_eq_none (by omega)] at hx
      cases hx
    simp [hx, List.getElem?_set_self this]
  · rename_i hx; simp [hx]

theorem getElem?_setValue (q : List nameVal_t) (e i v : Nat) :
    (setValue q e i v)[e]? = q[e]?.map fun x => { x with value := x.value.set i v } := by
  unfold setValue
  split
  · rename_i x hx
    have : e < q.length := by
      by_contra hc
      rw [List.getElem?_eq_none (by omega)] at hx
      cases hx
    simp [hx, List.getElem?_set_self this]
  · rename_i hx; simp [hx]

theorem getD_setName (q : List nameVal_t) (e i v : Nat) (d : nameVal_t) (h : e < q.length) :
    (setName q e i v).getD e d = { q.getD e d with name := (q.getD e d).name.set i v } := by
  simp [List.getD_eq_getElem?_getD, getElem?_setName, List.getElem?_eq_getElem h]

theorem getD_setValue (q : List nameVal_t) (e i v : Nat) (d : nameVal_t) (h : e < q.length) :
    (setValue q e i v).getD e d = { q.getD e d with value := (q.getD e d).value.set i v } := by
  simp [List.getD_eq_getElem?_getD, getElem?_setValue, List.getElem?_eq_getElem h]

theorem shaped_setName (q : List nameVal_t) (e i v : Nat)
    (h : ∀ x ∈ q, x.name.length = ENTRY_LEN + 1 ∧ x.value.length = ENTRY_LEN + 1) :
    ∀ x ∈ setName q e i v, x.name.length = ENTRY_LEN + 1 ∧ x.value.length = ENTRY_LEN + 1 := by
  intro x hx
  unfold setName at hx
  split at hx
  · rename_i y hy
    rcases List.mem_or_eq_of_mem_set hx with h1 | h1
    · exact h x h1
    · have := h y (List.getElem?_mem hy)
      subst h1; simpa using this
  · exact h x hx

theorem shaped_setValue (q : List nameVal_t) (e i v : Nat)
    (h : ∀ x ∈ q, x.name.length = ENTRY_LEN + 1 ∧ x.value.length = ENTRY_LEN + 1) :
    ∀ x ∈ setValue q e i v, x.name.length = ENTRY_LEN + 1 ∧ x.value.length = ENTRY_LEN + 1 := by
  intro x hx
  unfold setValue at hx
  split at hx
  · rename_i y hy
    rcases List.mem_or_eq_of_mem_set hx with h1 | h1
    · exact h x h1
    · have := h y (List.getElem?_mem hy)
      subst h1; simpa using this
  · exact h x hx

/-- A call of `charProcess` keeps the storage in its declared shape. -/
theorem charProcess_shaped (s : State) (c : Nat) (h : s.Shaped) : (charProcess s c).st.Shaped := by
  obtain ⟨h1, h2, h3⟩ := h
  have hn := fun i v => shaped_setName s.queryList s.cntElements i v h3
  have hv := fun i v => shaped_setValue s.queryList s.cntElements i v h3
  unfold charProcess
  cases s.urlState <;> simp only [] <;> split_ifs <;>
    first
      | exact ⟨h1, h2, h3⟩
      | exact ⟨by simpa using h1, h2, h3⟩
      | exact ⟨h1, by simpa [length_setName] using h2, hn _ _⟩
      | exact ⟨h1, by simpa [length_setValue] using h2, hv _ _⟩

theorem entry_shaped {s : State} (h : s.Shaped) {e : Nat} (he : e < 10) :
    (entry s e).name.length = 17 ∧ (entry s e).value.length = 17 := by
  obtain ⟨_, h2, h3⟩ := h
  have hl : e < s.queryList.length := by rw [h2]; exact he
  have := h3 (s.queryList[e]) (List.getElem_mem hl)
  simpa [entry, List.getD_eq_getElem?_getD, List.getElem?_eq_getElem hl, ENTRY_LEN] using this

/-! ## Single calls on a well-formed request -/

/-- The space that ends a request without query. -/
theorem charProcess_filename_space (s : State) (hs : s.urlState = urlState_filename) :
    charProcess s 0x20 =
      ⟨{ s with filename := s.filename.set s.cntChar 0 }, CHARPROC_FINISHED,
        some ⟨Buf.filename, s.cntChar, 0⟩⟩ := by
  simp [charProcess, hs]

/-- The question mark that ends the filename. -/
theorem charProcess_filename_question (s : State) (hs : s.urlState = urlState_filename) :
    charProcess s 0x3f =
      ⟨{ s with filename := s.filename.set s.cntChar 0, cntChar := 0,
                urlState := urlState_queryName }, CHARPROC_OK,
        some ⟨Buf.filename, s.cntChar, 0⟩⟩ := by
  simp [charProcess, hs]

/-- A name character appended in `urlState_queryName`. -/
theorem charProcess_name_char (s : State) (c : Nat) (hs : s.urlState = urlState_queryName)
    (hc : NameChar c) (hn : s.cntChar < 16) (he : s.cntElements < 10) :
    charProcess s c =
      ⟨{ s with queryList := setName s.queryList s.cntElements s.cntChar c,
                cntChar := s.cntChar + 1 }, CHARPROC_OK,
        some ⟨Buf.name s.cntElements, s.cntChar, c⟩⟩ := by
  rw [nameChar_iff] at hc
  have hp : 0x20 ≤ c ∧ c ≤ 0x7e := by omega
  have h0 : ¬ s.cntElements ≥ LIST_LEN := by unfold LIST_LEN; omega
  have h1 : ¬ c = 0x3d := by omega
  have h3 : ¬ s.cntChar ≥ ENTRY_LEN := by unfold ENTRY_LEN; omega
  simp only [charProcess, hs, if_pos hp, if_neg h0, if_neg h1, if_neg h3, if_pos hc]

/-- The equals sign that ends a name. -/
theorem charProcess_name_equals (s : State) (hs : s.urlState = urlState_queryName)
    (he : s.cntElements < 10) :
    charProcess s 0x3d =
      ⟨{ s with queryList := setName s.queryList s.cntElements s.cntChar 0, cntChar := 0,
                urlState := urlState_queryVal }, CHARPROC_OK,
        some ⟨Buf.name s.cntElements, s.cntChar, 0⟩⟩ := by
  have h0 : ¬ s.cntElements ≥ LIST_LEN := by unfold LIST_LEN; omega
  simp [charProcess, hs, h0]

/-- A value character appended in `urlState_queryVal`; a plus sign is stored as a space. -/
theorem charProcess_value_char (s : State) (c : Nat) (hs : s.urlState = urlState_queryVal)
    (hc : ValueChar c) (hn : s.cntChar < 16) :
    charProcess s c =
      ⟨{ s with queryList := setValue s.queryList s.cntElements s.cntChar
                  (if c = 0x2b then 0x20 else c),
                cntChar := s.cntChar + 1 }, CHARPROC_OK,
        some ⟨Buf.value s.cntElements, s.cntChar, if c = 0x2b then 0x20 else c⟩⟩ := by
  rw [valueChar_iff] at hc
  have hp : 0x20 ≤ c ∧ c ≤ 0x7e := by omega
  have h1 : ¬ c = 0x20 := by omega
  have h2 : ¬ c = 0x26 := by omega
  have h3 : ¬ s.cntChar ≥ ENTRY_LEN := by unfold ENTRY_LEN; omega
  by_cases hplus : c = 0x2b
  · subst hplus
    simp [charProcess, hs, h3]
  · have hc2 : (0x30 ≤ c ∧ c ≤ 0x39) ∨ (0x41 ≤ c ∧ c ≤ 0x5a) ∨ (0x61 ≤ c ∧ c ≤ 0x7a)
        ∨ c = 0x2e ∨ c = 0x2d := by omega
    simp only [charProcess, hs, if_pos hp, if_neg h1, if_neg h2, if_neg h3, if_pos hc2,
      if_neg hplus]

/-- The ampersand that ends a pair and opens the next. -/
theorem charProcess_value_amp (s : State) (hs : s.urlState = urlState_queryVal) :
    charProcess s 0x26 =
      ⟨{ s with queryList := setValue s.queryList s.cntElements s.cntChar 0, cntChar := 0,
                cntElements := s.cntElements + 1, urlState := urlState_queryName },
        CHARPROC_OK, some ⟨Buf.value s.cntElements, s.cntChar, 0⟩⟩ := by
  simp [charProcess, hs]

/-- The space that ends a request with query. -/
theorem charProcess_value_space (s : State) (hs : s.urlState = urlState_queryVal) :
    charProcess s 0x20 =
      ⟨{ s with queryList := setValue s.queryList s.cntElements s.cntChar 0,
                cntElements := s.cntElements + 1 }, CHARPROC_FINISHED,
        some ⟨Buf.value s.cntElements, s.cntChar, 0⟩⟩ := by
  simp [charProcess, hs]

/-! ## The phases of a well-formed request -/

theorem runs_GET (s : State) :
    Runs (charProcessInit s) (bytes "GET /")
      { charProcessInit s with urlState := urlState_filename } := by
  rfl

theorem runs_filename (cs : List Nat) : ∀ s : State, s.urlState = urlState_filename →
    (∀ c ∈ cs, FilenameChar c) → s.cntChar + cs.length ≤ 16 → s.filename.length = 17 →
    ∃ t, Runs s cs t ∧ t.urlState = urlState_filename ∧ t.cntChar = s.cntChar + cs.length ∧
      t.cntElements = s.cntElements ∧ t.queryList = s.queryList ∧ t.filename.length = 17 ∧
      t.filename.take t.cntChar = s.filename.take s.cntChar ++ cs := by
  induction cs with
  | nil => intro s hs _ _ hl; exact ⟨s, Runs.nil s, hs, by simp, rfl, rfl, hl, by simp⟩
  | cons c cs ih =>
    intro s hs hc hn hl
    have hn1 : s.cntChar + cs.length + 1 ≤ 16 := by simpa [Nat.add_assoc] using hn
    have hstep := charProcess_filename_char s c hs (hc c (by simp)) (by omega)
    obtain ⟨t, ht, h1, h2, h3, h4, h5, h6⟩ :=
      ih { s with filename := s.filename.set s.cntChar c, cntChar := s.cntChar + 1 } hs
        (fun x hx => hc x (by simp [hx])) (by simp only []; omega) (by simpa using hl)
    simp only [] at h2 h3 h4 h6
    refine ⟨t, ?_, h1, ?_, h3, h4, h5, ?_⟩
    · exact Runs.append (a := [c]) (Runs.one (by rw [hstep]) (by rw [hstep])) ht
    · rw [h2, List.length_cons]; omega
    · rw [h6, take_set_succ _ _ _ (by omega)]; simp

theorem runs_name (cs : List Nat) : ∀ s : State, s.urlState = urlState_queryName →
    (∀ c ∈ cs, NameChar c) → s.cntChar + cs.length ≤ 16 → s.cntElements < 10 → s.Shaped →
    ∃ t, Runs s cs t ∧ t.urlState = urlState_queryName ∧ t.cntChar = s.cntChar + cs.length ∧
      t.cntElements = s.cntElements ∧ t.filename = s.filename ∧ t.Shaped ∧
      t.queryList.take s.cntElements = s.queryList.take s.cntElements ∧
      (entry t s.cntElements).name.take t.cntChar
        = (entry s s.cntElements).name.take s.cntChar ++ cs ∧
      (entry t s.cntElements).value = (entry s s.cntElements).value := by
  induction cs with
  | nil =>
    intro s hs _ _ _ hsh
    exact ⟨s, Runs.nil s, hs, by simp, rfl, rfl, hsh, rfl, by simp, rfl⟩
  | cons c cs ih =>
    intro s hs hc hn he hsh
    have hn1 : s.cntChar + cs.length + 1 ≤ 16 := by simpa [Nat.add_assoc] using hn
    have hstep := charProcess_name_char s c hs (hc c (by simp)) (by omega) he
    have hsh0 := charProcess_shaped s c hsh
    rw [hstep] at hsh0
    have hlen : s.cntElements < s.queryList.length := by rw [hsh.2.1]; exact he
    obtain ⟨t, ht, h1, h2, h3, h4, h5, h6, h7, h8⟩ :=
      ih { s with queryList := setName s.queryList s.cntElements s.cntChar c,
                  cntChar := s.cntChar + 1 } hs
        (fun x hx => hc x (by simp [hx])) (by simp only []; omega) he hsh0
    simp only [entry, getD_setName _ _ _ _ _ hlen, take_setName] at h2 h3 h4 h6 h7 h8
    refine ⟨t, ?_, h1, ?_, h3, h4, h5, h6, ?_, h8⟩
    · exact Runs.append (a := [c]) (Runs.one (by rw [hstep]) (by rw [hstep])) ht
    · rw [h2, List.length_cons]; omega
    · have hl := (entry_shaped hsh he).1
      simp only [entry] at hl ⊢
      rw [h7, take_set_succ _ _ _ (by omega)]; simp

theorem plusToSpace_cons (c : Nat) (cs : List Nat) :
    plusToSpace (c :: cs) = (if c = 0x2b then 0x20 else c) :: plusToSpace cs := rfl

theorem runs_value (cs : List Nat) : ∀ s : State, s.urlState = urlState_queryVal →
    (∀ c ∈ cs, ValueChar c) → s.cntChar + cs.length ≤ 16 → s.cntElements < 10 → s.Shaped →
    ∃ t, Runs s cs t ∧ t.urlState = urlState_queryVal ∧ t.cntChar = s.cntChar + cs.length ∧
      t.cntElements = s.cntElements ∧ t.filename = s.filename ∧ t.Shaped ∧
      t.queryList.take s.cntElements = s.queryList.take s.cntElements ∧
      (entry t s.cntElements).value.take t.cntChar
        = (entry s s.cntElements).value.take s.cntChar ++ plusToSpace cs ∧
      (entry t s.cntElements).name = (entry s s.cntElements).name := by
  induction cs with
  | nil =>
    intro s hs _ _ _ hsh
    exact ⟨s, Runs.nil s, hs, by simp, rfl, rfl, hsh, rfl, by simp [plusToSpace], rfl⟩
  | cons c cs ih =>
    intro s hs hc hn he hsh
    have hn1 : s.cntChar + cs.length + 1 ≤ 16 := by simpa [Nat.add_assoc] using hn
    have hstep := charProcess_value_char s c hs (hc c (by simp)) (by omega)
    have hsh0 := charProcess_shaped s c hsh
    rw [hstep] at hsh0
    have hlen : s.cntElements < s.queryList.length := by rw [hsh.2.1]; exact he
    obtain ⟨t, ht, h1, h2, h3, h4, h5, h6, h7, h8⟩ :=
      ih { s with queryList := setValue s.queryList s.cntElements s.cntChar
                    (if c = 0x2b then 0x20 else c),
                  cntChar := s.cntChar + 1 } hs
        (fun x hx => hc x (by simp [hx])) (by simp only []; omega) he hsh0
    simp only [entry, getD_setValue _ _ _ _ _ hlen, take_setValue] at h2 h3 h4 h6 h7 h8
    refine ⟨t, ?_, h1, ?_, h3, h4, h5, h6, ?_, h8⟩
    · exact Runs.append (a := [c]) (Runs.one (by rw [hstep]) (by rw [hstep])) ht
    · rw [h2, List.length_cons]; omega
    · have hl := (entry_shaped hsh he).2
      simp only [entry] at hl ⊢
      rw [h7, take_set_succ _ _ _ (by omega), plusToSpace_cons]; simp

theorem nameChar_ne_zero {c : Nat} (h : NameChar c) : c ≠ 0 := by
  rw [nameChar_iff] at h; omega

theorem filenameChar_ne_zero {c : Nat} (h : FilenameChar c) : c ≠ 0 := by
  rw [filenameChar_iff] at h; omega

theorem plusToSpace_ne_zero {v : List Nat} (h : ∀ c ∈ v, ValueChar c) :
    ∀ c ∈ plusToSpace v, c ≠ 0 := by
  intro c hc
  simp only [plusToSpace, List.mem_map] at hc
  obtain ⟨a, ha, rfl⟩ := hc
  have := (valueChar_iff a).1 (h a ha)
  have h1 : '+'.toNat = 0x2b := rfl
  have h2 : ' '.toNat = 0x20 := rfl
  rw [h1, h2]
  split <;> omega

theorem length_plusToSpace (v : List Nat) : (plusToSpace v).length = v.length := by
  simp [plusToSpace]

/-- A pair `name=value` read in `urlState_queryName` from the start of a name. -/
theorem runs_pair (s : State) (nm v : List Nat) (hs : s.urlState = urlState_queryName)
    (h0 : s.cntChar = 0) (he : s.cntElements < 10) (hsh : s.Shaped)
    (hnm : Field NameChar nm) (hv : Field ValueChar v) :
    ∃ t, Runs s (pairBytes (nm, v)) t ∧ t.urlState = urlState_queryVal ∧
      t.cntChar = v.length ∧ t.cntElements = s.cntElements ∧ t.filename = s.filename ∧
      t.Shaped ∧ t.queryList.take s.cntElements = s.queryList.take s.cntElements ∧
      cstr (entry t s.cntElements).name = nm ∧
      (entry t s.cntElements).value.take v.length = plusToSpace v := by
  obtain ⟨t1, r1, a1, a2, a3, a4, a5, a6, a7, -⟩ :=
    runs_name nm s hs hnm.2 (by rw [h0]; simpa using hnm.1) he hsh
  rw [h0] at a2 a7
  simp only [Nat.zero_add, List.take_zero, List.nil_append] at a2 a7
  have he1 : t1.cntElements < 10 := by rw [a3]; exact he
  have hstep := charProcess_name_equals t1 a1 he1
  have hsh2 := charProcess_shaped t1 0x3d a5
  rw [hstep] at hsh2
  have hlen : t1.cntElements < t1.queryList.length := by rw [a5.2.1]; exact he1
  obtain ⟨t3, r3, c1, c2, c3, c4, c5, c6, c7, c8⟩ :=
    runs_value v { t1 with queryList := setName t1.queryList t1.cntElements t1.cntChar 0,
                           cntChar := 0, urlState := urlState_queryVal } rfl hv.2
      (by simpa using hv.1) he1 hsh2
  simp only [entry, getD_setName _ _ _ _ _ hlen, take_setName, Nat.zero_add, List.take_zero,
    List.nil_append] at c2 c3 c4 c6 c7 c8
  rw [a3] at c3 c6 c7 c8
  refine ⟨t3, ?_, c1, c2, c3, c4.trans a4, c5, ?_, ?_, ?_⟩
  · unfold pairBytes
    exact Runs.append (Runs.append r1
      (Runs.one (c := 0x3d) (by rw [hstep]) (by rw [hstep]))) r3
  · rw [c6, a3] at *; exact a6
  · simp only [entry]
    rw [c8, a3] at *
    have hl := (entry_shaped a5 he).1
    simp only [entry] at hl a7
    rw [cstr_set_zero _ _ (by have := hnm.1; omega)]
    · rw [a2] at a7; rw [a2]; exact a7
    · rw [a2] at a7; rw [a2, a7]; exact fun c hc => nameChar_ne_zero (hnm.2 c hc)
  · simp only [entry]
    rw [c2] at c7
    exact c7

/-- Terminating the value of entry `m` completes that entry and leaves the earlier ones. -/
theorem take_succ_setValue (t : State) (k : Nat) (vv : List Nat) (he : t.cntElements < 10)
    (hsh : t.Shaped) (hk : k ≤ 16) (hv : (entry t t.cntElements).value.take k = vv)
    (hz : ∀ c ∈ vv, c ≠ 0) :
    ((setValue t.queryList t.cntElements k 0).take (t.cntElements + 1)).map dec
      = (t.queryList.take t.cntElements).map dec
          ++ [(cstr (entry t t.cntElements).name, vv)] := by
  have hlen : t.cntElements < t.queryList.length := by rw [hsh.2.1]; exact he
  have hl := (entry_shaped hsh he).2
  simp only [entry, List.getD_eq_getElem?_getD, List.getElem?_eq_getElem hlen,
    Option.getD_some] at hl hv ⊢
  rw [List.take_succ, take_setValue, getElem?_setValue, List.getElem?_eq_getElem hlen]
  simp only [Option.map_some', Option.toList_some, List.map_append, List.map_cons, List.map_nil,
    dec]
  rw [cstr_set_zero _ _ (by omega) (by rw [hv]; exact hz), hv]

/-- A pair followed by `'&'`. -/
theorem runs_pair_amp (s : State) (nm v : List Nat) (hs : s.urlState = urlState_queryName)
    (h0 : s.cntChar = 0) (he : s.cntElements < 10) (hsh : s.Shaped)
    (hnm : Field NameChar nm) (hv : Field ValueChar v) :
    ∃ u, Runs s (pairBytes (nm, v) ++ bytes "&") u ∧ u.urlState = urlState_queryName ∧
      u.cntChar = 0 ∧ u.cntElements = s.cntElements + 1 ∧ u.filename = s.filename ∧
      u.Shaped ∧
      (u.queryList.take u.cntElements).map dec
        = (s.queryList.take s.cntElements).map dec ++ [(nm, plusToSpace v)] := by
  obtain ⟨t, r, b1, b2, b3, b4, b5, b6, b7, b8⟩ := runs_pair s nm v hs h0 he hsh hnm hv
  have he1 : t.cntElements < 10 := by rw [b3]; exact he
  have hstep := charProcess_value_amp t b1
  have hsh2 := charProcess_shaped t 0x26 b5
  rw [hstep] at hsh2
  have key := take_succ_setValue t t.cntChar (plusToSpace v) he1 b5
    (by rw [b2]; exact hv.1) (by rw [b2, b3]; exact b8) (plusToSpace_ne_zero hv.2)
  refine ⟨_, Runs.append r (Runs.one (c := 0x26) (by rw [hstep]) (by rw [hstep])), rfl, rfl,
    ?_, ?_, hsh2, ?_⟩
  · simp only [b3]
  · exact b4
  · simp only []
    rw [key, b3, b6, b7]

/-- A pair followed by the space that ends the request. -/
theorem run_pair_space (s : State) (nm v : List Nat) (hs : s.urlState = urlState_queryName)
    (h0 : s.cntChar = 0) (he : s.cntElements < 10) (hsh : s.Shaped)
    (hnm : Field NameChar nm) (hv : Field ValueChar v) :
    ∃ u, charProcessAll s (pairBytes (nm, v) ++ bytes " ")
        = (u, List.replicate (pairBytes (nm, v)).length CHARPROC_OK ++ [CHARPROC_FINISHED]) ∧
      u.cntElements = s.cntElements + 1 ∧ u.filename = s.filename ∧ u.Shaped ∧
      (u.queryList.take u.cntElements).map dec
        = (s.queryList.take s.cntElements).map dec ++ [(nm, plusToSpace v)] := by
  obtain ⟨t, r, b1, b2, b3, b4, b5, b6, b7, b8⟩ := runs_pair s nm v hs h0 he hsh hnm hv
  have he1 : t.cntElements < 10 := by rw [b3]; exact he
  have hstep := charProcess_value_space t b1
  have hsh2 := charProcess_shaped t 0x20 b5
  rw [hstep] at hsh2
  have key := take_succ_setValue t t.cntChar (plusToSpace v) he1 b5
    (by rw [b2]; exact hv.1) (by rw [b2, b3]; exact b8) (plusToSpace_ne_zero hv.2)
  refine ⟨_, ?_, ?_, ?_, hsh2, ?_⟩
  · rw [charProcessAll_append, r]
    show ((charProcessAll t [0x20]).1, _ ++ (charProcessAll t [0x20]).2) = _
    simp only [charProcessAll, hstep]
  · simp only [b3]
  · exact b4
  · simp only []
    rw [key, b3, b6, b7]

/-- Any number of pairs, each followed by `'&'`. -/
theorem runs_pairs_amp (ps : List (List Nat × List Nat)) : ∀ s : State,
    s.urlState = urlState_queryName → s.cntChar = 0 → s.cntElements + ps.length ≤ 10 →
    s.Shaped → (∀ p ∈ ps, Field NameChar p.1 ∧ Field ValueChar p.2) →
    ∃ u, Runs s (ps.flatMap fun p => pairBytes p ++ bytes "&") u ∧
      u.urlState = urlState_queryName ∧ u.cntChar = 0 ∧
      u.cntElements = s.cntElements + ps.length ∧ u.filename = s.filename ∧ u.Shaped ∧
      (u.queryList.take u.cntElements).map dec
        = (s.queryList.take s.cntElements).map dec
            ++ ps.map fun p => (p.1, plusToSpace p.2) := by
  induction ps with
  | nil =>
    intro s hs h0 _ hsh _
    exact ⟨s, Runs.nil s, hs, h0, rfl, rfl, hsh, by simp⟩
  | cons p ps ih =>
    intro s hs h0 hn hsh hf
    have hn1 : s.cntElements + ps.length + 1 ≤ 10 := by simpa [Nat.add_assoc] using hn
    obtain ⟨t, r, b1, b2, b3, b4, b5, b6⟩ :=
      runs_pair_amp s p.1 p.2 hs h0 (by omega) hsh (hf p (by simp)).1 (hf p (by simp)).2
    obtain ⟨u, r2, c1, c2, c3, c4, c5, c6⟩ :=
      ih t b1 b2 (by omega) b5 (fun x hx => hf x (by simp [hx]))
    refine ⟨u, ?_, c1, c2, ?_, c4.trans b4, c5, ?_⟩
    · rw [List.flatMap_cons]; exact Runs.append r r2
    · rw [c3, b3, List.length_cons]; omega
    · rw [c6, b6]; simp

theorem intercalate_cons_cons (sep a b : List Nat) (rest : List (List Nat)) :
    sep.intercalate (a :: b :: rest) = a ++ sep ++ sep.intercalate (b :: rest) := by
  simp [List.intercalate, List.intersperse]

theorem intercalate_concat (sep : List Nat) (xs : List (List Nat)) (x : List Nat) :
    sep.intercalate (xs ++ [x]) = (xs.flatMap fun y => y ++ sep) ++ x := by
  induction xs with
  | nil => simp [List.intercalate, List.intersperse]
  | cons a xs ih =>
    cases xs with
    | nil => simp [List.intercalate, List.intersperse]
    | cons b xs =>
      rw [List.cons_append, List.cons_append, intercalate_cons_cons, ← List.cons_append, ih]
      simp [List.flatMap_cons]

/-- The query of a request: all pairs but the last are followed by `'&'`. -/
theorem query_concat (ps : List (List Nat × List Nat)) (p : List Nat × List Nat) :
    (bytes "&").intercalate ((ps ++ [p]).map pairBytes)
      = (ps.flatMap fun q => pairBytes q ++ bytes "&") ++ pairBytes p := by
  rw [List.map_append, List.map_singleton, intercalate_concat]
  congr 1
  induction ps with
  | nil => rfl
  | cons a ps ih => simp [List.flatMap_cons, ih]

/-- The request prefix `GET /filename?` read from the initial state. -/
theorem runs_prefix (s0 : State) (f : List Nat) (hsh : s0.Shaped) (hf : Field FilenameChar f) :
    ∃ t, Runs (charProcessInit s0) (bytes "GET /" ++ f ++ bytes "?") t ∧
      t.urlState = urlState_queryName ∧ t.cntChar = 0 ∧ t.cntElements = 0 ∧
      cstr t.filename = f ∧ t.Shaped := by
  obtain ⟨t, r, a1, a2, a3, a4, a5, a6⟩ :=
    runs_filename f { charProcessInit s0 with urlState := urlState_filename } rfl hf.2
      (by simpa [charProcessInit] using hf.1) hsh.1
  simp only [charProcessInit, Nat.zero_add, List.take_zero, List.nil_append] at a2 a3 a4 a6
  have hstep := charProcess_filename_question t a1
  have hsh1 : t.Shaped := ⟨a5, by rw [a4]; exact hsh.2.1, by rw [a4]; exact hsh.2.2⟩
  have hsh2 := charProcess_shaped t 0x3f hsh1
  rw [hstep] at hsh2
  refine ⟨{ t with filename := t.filename.set t.cntChar 0, cntChar := 0,
                     urlState := urlState_queryName },
    Runs.append (Runs.append (runs_GET s0) r)
      (Runs.one (c := 0x3f) (by rw [hstep]) (by rw [hstep])), rfl, rfl, a3, ?_, hsh2⟩
  simp only []
  rw [cstr_set_zero _ _ (by have := hf.1; omega)
    (by rw [a6]; exact fun c hc => filenameChar_ne_zero (hf.2 c hc)), a6]

theorem finish_of_runs {s t u : State} {a b : List Nat} {n : Nat} (h1 : Runs s a t)
    (h2 : charProcessAll t b = (u, List.replicate n CHARPROC_OK ++ [CHARPROC_FINISHED]))
    (hb : b.length = n + 1) :
    charProcessAll s (a ++ b)
      = (u, List.replicate ((a ++ b).length - 1) CHARPROC_OK ++ [CHARPROC_FINISHED]) := by
  unfold Runs at h1
  rw [charProcessAll_append, h1]
  show ((charProcessAll t b).1, _ ++ (charProcessAll t b).2) = _
  rw [h2, List.length_append, hb]
  have : a.length + (n + 1) - 1 = a.length + n := by omega
  rw [this, List.replicate_add, List.append_assoc]

/-- The whole request line, read from the initial state. -/
theorem run_requestLine (s0 : State) (f : List Nat) (ps : List (List Nat × List Nat))
    (hsh : s0.Shaped) (hf : Field FilenameChar f) (hn : ps.length ≤ 10)
    (hps : ∀ p ∈ ps, Field NameChar p.1 ∧ Field ValueChar p.2) :
    ∃ u, charProcessAll (charProcessInit s0) (requestLine f ps)
        = (u, List.replicate ((requestLine f ps).length - 1) CHARPROC_OK
                ++ [CHARPROC_FINISHED]) ∧
      cstr u.filename = f ∧ u.cntElements = ps.length ∧
      entries u = ps.map fun p => (p.1, plusToSpace p.2) := by
  rcases List.eq_nil_or_concat ps with hnil | ⟨qs, p, hcat⟩
  · subst hnil
    obtain ⟨t, r, a1, a2, a3, a4, a5, a6⟩ :=
      runs_filename f { charProcessInit s0 with urlState := urlState_filename } rfl hf.2
        (by simpa [charProcessInit] using hf.1) hsh.1
    simp only [charProcessInit, Nat.zero_add, List.take_zero, List.nil_append] at a2 a3 a4 a6
    have hstep := charProcess_filename_space t a1
    have hrun : charProcessAll t (bytes " ")
        = ({ t with filename := t.filename.set t.cntChar 0 },
            List.replicate 0 CHARPROC_OK ++ [CHARPROC_FINISHED]) := by
      show charProcessAll t [0x20] = _
      simp only [charProcessAll, hstep, List.replicate_zero, List.nil_append]
    have hreq : requestLine f [] = (bytes "GET /" ++ f) ++ bytes " " := by
      simp [requestLine]
    refine ⟨{ t with filename := t.filename.set t.cntChar 0 }, ?_, ?_, ?_, ?_⟩
    · rw [hreq]
      exact finish_of_runs (Runs.append (runs_GET s0) r) hrun rfl
    · simp only []
      rw [cstr_set_zero _ _ (by have := hf.1; omega)
        (by rw [a6]; exact fun c hc => filenameChar_ne_zero (hf.2 c hc)), a6]
    · simpa using a3
    · simp [entries, a3]
  · rw [List.concat_eq_append] at hcat
    subst hcat
    have hlen : qs.length + 1 ≤ 10 := by simpa using hn
    obtain ⟨t1, r1, a1, a2, a3, a4, a5⟩ := runs_prefix s0 f hsh hf
    obtain ⟨t2, r2, b1, b2, b3, b4, b5, b6⟩ :=
      runs_pairs_amp qs t1 a1 a2 (by omega) a5 (fun x hx => hps x (by simp [hx]))
    obtain ⟨u, r3, c1, c2, c3, c4⟩ :=
      run_pair_space t2 p.1 p.2 b1 b2 (by omega) b5 (hps p (by simp)).1 (hps p (by simp)).2
    have hreq : requestLine f (qs ++ [p])
        = ((bytes "GET /" ++ f ++ bytes "?") ++ (qs.flatMap fun q => pairBytes q ++ bytes "&"))
            ++ (pairBytes p ++ bytes " ") := by
      have hne : qs ++ [p] ≠ [] := by simp
      simp only [requestLine, if_neg hne, query_concat, List.append_assoc]
    refine ⟨u, ?_, ?_, ?_, ?_⟩
    · rw [hreq]
      exact finish_of_runs (Runs.append r1 r2) r3 (by simp [bytes])
    · rw [c2, b4, a4]
    · rw [c1, b3, a3]; simp
    · show List.map dec (List.take u.cntElements u.queryList) = _
      rw [c4, b6, a3]; simp

/-! ## What the parser has accepted so far -/

theorem field_nil (cls : Nat → Prop) : Field cls [] := by
  simp [Field]

theorem field_concat {cls : Nat → Prop} {f : List Nat} {c : Nat} (h : Field cls f)
    (hl : f.length < 16) (hc : cls c) : Field cls (f ++ [c]) := by
  refine ⟨by simp; omega, ?_⟩
  intro x hx
  rcases List.mem_append.1 hx with h1 | h1
  · exact h.2 x h1
  · simp at h1; subst h1; exact hc

theorem charProcess_skip (s : State) (c : Nat) (h : ¬ Printable c) :
    charProcess s c = ⟨s, CHARPROC_OK, none⟩ := by
  unfold Printable at h
  simp only [charProcess, if_neg h]

theorem parsed_step_GET (fn : List Nat) (ql : List nameVal_t) (k m c : Nat) (pr : List Nat)
    (hp : Printable c) (h : Parsed ⟨fn, ql, urlState_GET, k, m⟩ pr)
    (hr : (charProcess ⟨fn, ql, urlState_GET, k, m⟩ c).ret = CHARPROC_OK) :
    Parsed (charProcess ⟨fn, ql, urlState_GET, k, m⟩ c).st (pr ++ [c]) := by
  obtain ⟨h1, h2, h3⟩ := h
  simp only [] at h1 h2 h3
  unfold Printable at hp
  subst h2 h3
  by_cases hc : c ≠ getStr.getD k 0
  · simp only [charProcess, if_pos hp, if_pos hc] at hr
    exact absurd hr (by decide)
  · have hc1 : c = getStr.getD k 0 := not_not.1 hc
    simp only [charProcess, if_pos hp, if_neg hc]
    interval_cases k <;> simp [getStr] at hc1 <;> subst hc1 <;>
      simp [Parsed, bytes, field_nil]

theorem parsed_step_filename (fn : List Nat) (ql : List nameVal_t) (k m c : Nat)
    (pr : List Nat) (hp : Printable c) (h : Parsed ⟨fn, ql, urlState_filename, k, m⟩ pr)
    (hr : (charProcess ⟨fn, ql, urlState_filename, k, m⟩ c).ret = CHARPROC_OK) :
    Parsed (charProcess ⟨fn, ql, urlState_filename, k, m⟩ c).st (pr ++ [c]) := by
  obtain ⟨h1, f, h2, h3, h4⟩ := h
  simp only [] at h1 h3
  unfold Printable at hp
  subst h1 h2 h3
  by_cases c1 : c = 0x20
  · simp only [charProcess, if_pos hp, if_pos c1] at hr
    exact absurd hr (by decide)
  by_cases c2 : c = 0x3f
  · simp only [charProcess, if_pos hp, if_neg c1, if_pos c2]
    subst c2
    exact ⟨f, [], [], by simp [bytes], h4, by simp, rfl, by simp, rfl, field_nil _⟩
  by_cases c3 : f.length ≥ ENTRY_LEN
  · simp only [charProcess, if_pos hp, if_neg c1, if_neg c2, if_pos c3] at hr
    exact absurd hr (by decide)
  by_cases c4 : (0x30 ≤ c ∧ c ≤ 0x39) ∨ (0x41 ≤ c ∧ c ≤ 0x5a) ∨ (0x61 ≤ c ∧ c ≤ 0x7a)
      ∨ c = 0x2e
  · simp only [charProcess, if_pos hp, if_neg c1, if_neg c2, if_neg c3, if_pos c4]
    unfold ENTRY_LEN at c3
    exact ⟨rfl, f ++ [c], by simp, by simp,
      field_concat h4 (by omega) ((filenameChar_iff c).2 c4)⟩
  · simp only [charProcess, if_pos hp, if_neg c1, if_neg c2, if_neg c3, if_neg c4] at hr
    exact absurd hr (by decide)

theorem parsed_step_queryName (fn : List Nat) (ql : List nameVal_t) (k m c : Nat)
    (pr : List Nat) (hp : Printable c) (h : Parsed ⟨fn, ql, urlState_queryName, k, m⟩ pr)
    (hr : (charProcess ⟨fn, ql, urlState_queryName, k, m⟩ c).ret = CHARPROC_OK) :
    Parsed (charProcess ⟨fn, ql, urlState_queryName, k, m⟩ c).st (pr ++ [c]) := by
  obtain ⟨f, ps, nm, h1, h2, h3, h4, h5, h6, h7⟩ := h
  simp only [] at h4 h5 h6
  unfold Printable at hp
  subst h1 h6
  by_cases c0 : m ≥ LIST_LEN
  · simp only [charProcess, if_pos hp, if_pos c0] at hr
    exact absurd hr (by decide)
  by_cases c1 : c = 0x3d
  · simp only [charProcess, if_pos hp, if_neg c0, if_pos c1]
    subst c1
    unfold LIST_LEN at c0
    exact ⟨f, ps, nm, [], by simp [bytes], h2, h3, h4, by simp only []; omega, h7, rfl,
      field_nil _⟩
  by_cases c3 : nm.length ≥ ENTRY_LEN
  · simp only [charProcess, if_pos hp, if_neg c0, if_neg c1, if_pos c3] at hr
    exact absurd hr (by decide)
  by_cases c4 : (0x30 ≤ c ∧ c ≤ 0x39) ∨ (0x41 ≤ c ∧ c ≤ 0x5a) ∨ (0x61 ≤ c ∧ c ≤ 0x7a)
      ∨ c = 0x2e ∨ c = 0x5f
  · simp only [charProcess, if_pos hp, if_neg c0, if_neg c1, if_neg c3, if_pos c4]
    unfold ENTRY_LEN at c3
    exact ⟨f, ps, nm ++ [c], by simp, h2, h3, h4, h5, by simp,
      field_concat h7 (by omega) ((nameChar_iff c).2 c4)⟩
  · simp only [charProcess, if_pos hp, if_neg c0, if_neg c1, if_neg c3, if_neg c4] at hr
    exact absurd hr (by decide)

theorem parsed_step_queryVal (fn : List Nat) (ql : List nameVal_t) (k m c : Nat)
    (pr : List Nat) (hp : Printable c) (h : Parsed ⟨fn, ql, urlState_queryVal, k, m⟩ pr)
    (hr : (charProcess ⟨fn, ql, urlState_queryVal, k, m⟩ c).ret = CHARPROC_OK) :
    Parsed (charProcess ⟨fn, ql, urlState_queryVal, k, m⟩ c).st (pr ++ [c]) := by
  obtain ⟨f, ps, nm, v, h1, h2, h3, h4, h5, h6, h7, h8⟩ := h
  simp only [] at h4 h5 h7
  unfold Printable at hp
  subst h1 h7
  by_cases c1 : c = 0x20
  · simp only [charProcess, if_pos hp, if_pos c1] at hr
    exact absurd hr (by decide)
  by_cases c2 : c = 0x26
  · simp only [charProcess, if_pos hp, if_neg c1, if_pos c2]
    subst c2
    refine ⟨f, ps ++ [(nm, v)], [], ?_, h2, ?_, by simp [h4], by simp only []; omega, rfl,
      field_nil _⟩
    · simp [bytes, pairBytes, List.flatMap_append]
    · intro p hp
      rcases List.mem_append.1 hp with hp1 | hp1
      · exact h3 p hp1
      · simp at hp1; subst hp1; exact ⟨h6, h8⟩
  by_cases c3 : v.length ≥ ENTRY_LEN
  · simp only [charProcess, if_pos hp, if_neg c1, if_neg c2, if_pos c3] at hr
    exact absurd hr (by decide)
  unfold ENTRY_LEN at c3
  by_cases c4 : (0x30 ≤ c ∧ c ≤ 0x39) ∨ (0x41 ≤ c ∧ c ≤ 0x5a) ∨ (0x61 ≤ c ∧ c ≤ 0x7a)
      ∨ c = 0x2e ∨ c = 0x2d
  · simp only [charProcess, if_pos hp, if_neg c1, if_neg c2, ENTRY_LEN, if_neg c3, if_pos c4]
    exact ⟨f, ps, nm, v ++ [c], by simp, h2, h3, h4, h5, h6, by simp,
      field_concat h8 (by omega) ((valueChar_iff c).2 (by omega))⟩
  by_cases c5 : c = 0x2b
  · simp only [charProcess, if_pos hp, if_neg c1, if_neg c2, ENTRY_LEN, if_neg c3, if_neg c4,
      if_pos c5]
    exact ⟨f, ps, nm, v ++ [c], by simp, h2, h3, h4, h5, h6, by simp,
      field_concat h8 (by omega) ((valueChar_iff c).2 (by omega))⟩
  · simp only [charProcess, if_pos hp, if_neg c1, if_neg c2, ENTRY_LEN, if_neg c3, if_neg c4,
      if_neg c5] at hr
    exact absurd hr (by decide)

/-- A call that returns `CHARPROC_OK` extends what has been accepted by the byte, if it is
printable. -/
theorem parsed_step (s : State) (c : Nat) (pr : List Nat) (h : Parsed s pr)
    (hr : (charProcess s c).ret = CHARPROC_OK) :
    Parsed (charProcess s c).st (pr ++ [c].filter (Printable ·)) := by
  by_cases hp : Printable c
  · have hf : [c].filter (Printable ·) = [c] := by simp [hp]
    rw [hf]
    obtain ⟨fn, ql, us, k, m⟩ := s
    cases us
    · exact parsed_step_GET fn ql k m c pr hp h hr
    · exact parsed_step_filename fn ql k m c pr hp h hr
    · exact parsed_step_queryName fn ql k m c pr hp h hr
    · exact parsed_step_queryVal fn ql k m c pr hp h hr
  · have hf : [c].filter (Printable ·) = [] := by simp [hp]
    rw [hf, charProcess_skip s c hp, List.append_nil]
    exact h

/-- `CHARPROC_FINISHED` is returned only for a space, and only in `urlState_filename` or
`urlState_queryVal`. -/
theorem finished_only (s : State) (c : Nat) (hr : (charProcess s c).ret = CHARPROC_FINISHED) :
    c = 0x20 ∧ (s.urlState = urlState_filename ∨ s.urlState = urlState_queryVal) := by
  obtain ⟨fn, ql, us, k, m⟩ := s
  unfold charProcess at hr
  cases us <;> simp only [] at hr <;> split_ifs at hr <;> dsimp only at hr <;>
    first
      | exact absurd hr (by decide)
      | exact ⟨by assumption, by simp⟩

theorem parsed_finish (s : State) (c : Nat) (pr : List Nat) (h : Parsed s pr)
    (hr : (charProcess s c).ret = CHARPROC_FINISHED) :
    c = 0x20 ∧ ∃ (f : List Nat) (ps : List (List Nat × List Nat)), Field FilenameChar f ∧
      ps.length ≤ 10 ∧ (∀ p ∈ ps, Field NameChar p.1 ∧ Field ValueChar p.2) ∧
      pr ++ [c] = requestLine f ps := by
  obtain ⟨hc, hs⟩ := finished_only s c hr
  refine ⟨hc, ?_⟩
  subst hc
  obtain ⟨fn, ql, us, k, m⟩ := s
  simp only [] at hs
  rcases hs with hs | hs
  · subst hs
    obtain ⟨-, f, h2, -, h4⟩ := h
    exact ⟨f, [], h4, by simp, by simp, by subst h2; simp [requestLine, bytes]⟩
  · subst hs
    obtain ⟨f, ps, nm, v, h1, h2, h3, h4, h5, h6, -, h8⟩ := h
    simp only [] at h4 h5
    refine ⟨f, ps ++ [(nm, v)], h2, by simp; omega, ?_, ?_⟩
    · intro p hp
      rcases List.mem_append.1 hp with hp1 | hp1
      · exact h3 p hp1
      · simp at hp1; subst hp1; exact ⟨h6, h8⟩
    · have hne : ps ++ [(nm, v)] ≠ [] := by simp
      subst h1
      simp only [requestLine, if_neg hne, query_concat, pairBytes, List.append_assoc]
      rfl

theorem length_charProcessAll (bs : List Nat) : ∀ s : State,
    (charProcessAll s bs).2.length = bs.length := by
  induction bs with
  | nil => intro s; rfl
  | cons c cs ih => intro s; simp [charProcessAll, ih]

/-- As long as every call returns `CHARPROC_OK`, the printable bytes fed fit the grammar. -/
theorem parsed_run (bs : List Nat) : ∀ (s : State) (pr : List Nat), Parsed s pr →
    (charProcessAll s bs).2 = List.replicate bs.length CHARPROC_OK →
    Parsed (charProcessAll s bs).1 (pr ++ bs.filter (Printable ·)) := by
  induction bs with
  | nil => intro s pr h _; simpa [charProcessAll] using h
  | cons c cs ih =>
    intro s pr h hr
    simp only [charProcessAll, List.length_cons, List.replicate_succ, List.cons.injEq] at hr
    have h1 := parsed_step s c pr h hr.1
    have h2 := ih _ _ h1 hr.2
    have hf : (c :: cs).filter (Printable ·)
        = [c].filter (Printable ·) ++ cs.filter (Printable ·) := by
      rw [← List.filter_append]; rfl
    rw [hf, ← List.append_assoc]
    exact h2

theorem parsed_init (s0 : State) : Parsed (charProcessInit s0) [] := by
  simp [Parsed, charProcessInit]

/-- A run whose last call is the first to return `CHARPROC_FINISHED`, all others returning
`CHARPROC_OK`, has consumed a request line of the grammar. -/
theorem grammar_of_finished (s0 : State) (bs : List Nat)
    (h : (charProcessAll (charProcessInit s0) bs).2
      = List.replicate (bs.length - 1) CHARPROC_OK ++ [CHARPROC_FINISHED]) :
    bs.getLast? = some 0x20 ∧
    ∃ (f : List Nat) (ps : List (List Nat × List Nat)), Field FilenameChar f ∧
      ps.length ≤ 10 ∧ (∀ p ∈ ps, Field NameChar p.1 ∧ Field ValueChar p.2) ∧
      bs.filter (Printable ·) = requestLine f ps := by
  rcases List.eq_nil_or_concat bs with hnil | ⟨as, c, hcat⟩
  · subst hnil
    simp [charProcessAll] at h
  · rw [List.concat_eq_append] at hcat
    subst hcat
    rw [charProcessAll_append] at h
    simp only [List.length_append, List.length_singleton, Nat.add_sub_cancel] at h
    have hl := length_charProcessAll as (charProcessInit s0)
    obtain ⟨h1, h2⟩ := List.append_inj h (by rw [hl]; simp)
    have hp := parsed_run as _ _ (parsed_init s0) h1
    simp only [charProcessAll, List.cons.injEq, and_true] at h2
    obtain ⟨hc, f, ps, g1, g2, g3, g4⟩ := parsed_finish _ c _ hp h2
    subst hc
    refine ⟨by simp, f, ps, g1, g2, g3, ?_⟩
    rw [List.filter_append, ← g4]
    simp [Printable]

/-! ## Errors of the parser -/

theorem runs_GET_prefix (s0 : State) (i : Nat) (hi : i < 5) :
    Runs (charProcessInit s0) ((bytes "GET /").take i) { charProcessInit s0 with cntChar := i } := by
  interval_cases i <;> rfl

theorem charProcess_GET_mismatch (s : State) (c : Nat) (hs : s.urlState = urlState_GET)
    (hp : Printable c) (hne : c ≠ getStr.getD s.cntChar 0) :
    charProcess s c = ⟨s, CHARPROC_ERR_REQUEST, none⟩ := by
  unfold Printable at hp
  simp only [charProcess, hs, if_pos hp, if_pos hne]

/-- A printable byte that deviates from `GET /` is answered by `CHARPROC_ERR_REQUEST`, the
bytes before it by `CHARPROC_OK`. -/
theorem bad_request_at_mismatch (s0 : State) (bs : List Nat) (i : Nat) (hi : i < 5)
    (hlen : i < bs.length) (hpre : bs.take i = (bytes "GET /").take i)
    (hp : Printable (bs.getD i 0)) (hne : bs.getD i 0 ≠ (bytes "GET /").getD i 0) :
    (charProcessAll (charProcessInit s0) bs).2.take (i + 1)
      = List.replicate i CHARPROC_OK ++ [CHARPROC_ERR_REQUEST] := by
  have hsplit : bs = (bytes "GET /").take i ++ (bs.getD i 0 :: bs.drop (i + 1)) := by
    rw [← hpre, List.getD_eq_getElem _ _ hlen, ← List.drop_eq_getElem_cons hlen,
      List.take_append_drop]
  have hne2 : bs.getD i 0 ≠ getStr.getD i 0 := by
    have : getStr.getD i 0 = (bytes "GET /").getD i 0 := by
      interval_cases i <;> rfl
    rw [this]; exact hne
  have hrun := runs_GET_prefix s0 i hi
  have hstep := charProcess_GET_mismatch { charProcessInit s0 with cntChar := i } (bs.getD i 0)
    rfl hp hne2
  have hl : ((bytes "GET /").take i).length = i := by
    interval_cases i <;> rfl
  unfold Runs at hrun
  rw [hl] at hrun
  rw [hsplit, charProcessAll_append, hrun]
  simp only [charProcessAll, hstep]
  rw [List.take_append_eq_append_take]
  simp

/-- In each field state, with 16 characters accepted, a further character of the field's
class is refused without any store. -/
theorem overflow_at_17 (s : State) (c : Nat) (h16 : s.cntChar = 16)
    (h : (s.urlState = urlState_filename ∧ FilenameChar c)
      ∨ (s.urlState = urlState_queryName ∧ NameChar c)
      ∨ (s.urlState = urlState_queryVal ∧ ValueChar c)) :
    charProcess s c = ⟨s, CHARPROC_ERR_OWFL, none⟩ := by
  have h3 : s.cntChar ≥ ENTRY_LEN := by unfold ENTRY_LEN; omega
  rcases h with ⟨hs, hc⟩ | ⟨hs, hc⟩ | ⟨hs, hc⟩
  · rw [filenameChar_iff] at hc
    have hp : 0x20 ≤ c ∧ c ≤ 0x7e := by omega
    have h1 : ¬ c = 0x20 := by omega
    have h2 : ¬ c = 0x3f := by omega
    simp only [charProcess, hs, if_pos hp, if_neg h1, if_neg h2, if_pos h3]
  · rw [nameChar_iff] at hc
    have hp : 0x20 ≤ c ∧ c ≤ 0x7e := by omega
    have h1 : ¬ c = 0x3d := by omega
    by_cases h0 : s.cntElements ≥ LIST_LEN
    · simp only [charProcess, hs, if_pos hp, if_pos h0]
    · simp only [charProcess, hs, if_pos hp, if_neg h0, if_neg h1, if_pos h3]
  · rw [valueChar_iff] at hc
    have hp : 0x20 ≤ c ∧ c ≤ 0x7e := by omega
    have h1 : ¬ c = 0x20 := by omega
    have h2 : ¬ c = 0x26 := by omega
    simp only [charProcess, hs, if_pos hp, if_neg h1, if_neg h2, if_pos h3]

/-- The cursor never passes 16, whatever is fed. -/
theorem cntChar_le_step (s : State) (c : Nat) (h : s.cntChar ≤ 16) :
    (charProcess s c).st.cntChar ≤ 16 := by
  obtain ⟨fn, ql, us, k, m⟩ := s
  simp only [] at h
  unfold charProcess
  cases us <;> simp only [] <;> split_ifs <;> dsimp only <;> try omega
  · rename_i h1 h2 h3
    have hk : k < 5 := by
      by_contra hge
      have : getStr.getD k 0 = 0 := by
        rcases Nat.lt_or_ge k 6 with h6 | h6
        · have h5 : k = 5 := by omega
          subst h5; rfl
        · simp only [getStr, List.getD_eq_getElem?_getD]
          rw [List.getElem?_eq_none (by simpa using h6)]; rfl
      rw [this] at h2
      omega
    omega
  all_goals (unfold ENTRY_LEN at *; omega)

theorem cntChar_le_run (bs : List Nat) : ∀ s : State, s.cntChar ≤ 16 →
    (charProcessAll s bs).1.cntChar ≤ 16 := by
  induction bs with
  | nil => intro s h; exact h
  | cons c cs ih => intro s h; exact ih _ (cntChar_le_step s c h)

/-- Every store of a call goes to the index `cntChar` held on entry. -/
theorem wr_idx (s : State) (c : Nat) (w : Write) (h : (charProcess s c).wr = some w) :
    w.idx = s.cntChar := by
  obtain ⟨fn, ql, us, k, m⟩ := s
  unfold charProcess at h
  cases us <;> simp only [] at h <;> split_ifs at h <;> dsimp only at h <;> cases h <;> rfl

/-! ## The eleventh pair -/

theorem query_amp (ps : List (List Nat × List Nat)) (h : ps ≠ []) :
    (bytes "&").intercalate (ps.map pairBytes) ++ bytes "&"
      = ps.flatMap fun q => pairBytes q ++ bytes "&" := by
  rcases List.eq_nil_or_concat ps with hnil | ⟨qs, p, hcat⟩
  · exact absurd hnil h
  · rw [List.concat_eq_append] at hcat
    subst hcat
    rw [query_concat, List.flatMap_append]
    simp

/-- In `urlState_queryName` with the list full, every printable byte is refused. -/
theorem charProcess_list_full (s : State) (c : Nat) (hs : s.urlState = urlState_queryName)
    (hm : s.cntElements ≥ 10) (hp : Printable c) :
    charProcess s c = ⟨s, CHARPROC_ERR_OWFL, none⟩ := by
  unfold Printable at hp
  have h0 : s.cntElements ≥ LIST_LEN := hm
  simp only [charProcess, hs, if_pos hp, if_pos h0]

/-- Ten pairs and a further `'&'`, read from the initial state. -/
theorem runs_ten_amp (s0 : State) (f : List Nat) (ps : List (List Nat × List Nat))
    (hsh : s0.Shaped) (hf : Field FilenameChar f) (hn : ps.length = 10)
    (hps : ∀ p ∈ ps, Field NameChar p.1 ∧ Field ValueChar p.2) :
    ∃ t, Runs (charProcessInit s0)
        (bytes "GET /" ++ f ++ bytes "?" ++ (bytes "&").intercalate (ps.map pairBytes)
          ++ bytes "&") t ∧
      t.urlState = urlState_queryName ∧ t.cntElements = 10 := by
  obtain ⟨t1, r1, a1, a2, a3, a4, a5⟩ := runs_prefix s0 f hsh hf
  obtain ⟨t2, r2, b1, b2, b3, b4, b5, b6⟩ :=
    runs_pairs_amp ps t1 a1 a2 (by omega) a5 hps
  have hne : ps ≠ [] := by
    intro h; subst h; simp at hn
  refine ⟨t2, ?_, b1, by omega⟩
  rw [List.append_assoc _ _ (bytes "&"), query_amp ps hne]
  exact Runs.append r1 r2

/-! ## Bytes that are not printable -/

theorem charProcessAll_filter (bs : List Nat) : ∀ s : State,
    (charProcessAll s (bs.filter (Printable ·))).1 = (charProcessAll s bs).1 ∧
    (charProcessAll s (bs.filter (Printable ·))).2.filter (· ≠ CHARPROC_OK)
      = (charProcessAll s bs).2.filter (· ≠ CHARPROC_OK) := by
  induction bs with
  | nil => intro s; exact ⟨rfl, rfl⟩
  | cons c cs ih =>
    intro s
    by_cases hp : Printable c
    · have hf : (c :: cs).filter (Printable ·) = c :: cs.filter (Printable ·) := by simp [hp]
      rw [hf]
      simp only [charProcessAll]
      refine ⟨(ih _).1, ?_⟩
      simp only [List.filter_cons, (ih _).2]
    · have hf : (c :: cs).filter (Printable ·) = cs.filter (Printable ·) := by simp [hp]
      rw [hf]
      simp only [charProcessAll, charProcess_skip s c hp]
      refine ⟨(ih _).1, ?_⟩
      have e : decide (CHARPROC_OK ≠ CHARPROC_OK) = false := by decide
      simp only [List.filter_cons, (ih _).2, e]
      rfl

theorem forLoop_filter (hd : Htdocs) (bs : List Nat) : ∀ v w : Serve, SameOutcome v w →
    SameOutcome (forLoop hd v (bs.filter (Printable ·))) (forLoop hd w bs) := by
  induction bs with
  | nil => intro v w h; exact h
  | cons c cs ih =>
    intro v w h
    obtain ⟨h1, h2, h3⟩ := h
    by_cases hp : Printable c
    · have hf : (c :: cs).filter (Printable ·) = c :: cs.filter (Printable ·) := by simp [hp]
      rw [hf]
      simp only [forLoop, h1, h2]
      split_ifs
      · exact ⟨rfl, rfl, rfl⟩
      · exact ⟨rfl, rfl, rfl⟩
      · exact ih _ _ ⟨rfl, rfl, h3⟩
    · have hf : (c :: cs).filter (Printable ·) = cs.filter (Printable ·) := by simp [hp]
      rw [hf]
      simp only [forLoop, charProcess_skip w.st c hp]
      have e1 : ¬ (CHARPROC_OK < 0) := by decide
      have e2 : ¬ (CHARPROC_OK = 1) := by decide
      rw [if_neg e1, if_neg e2]
      exact ih _ _ ⟨h1, h2, h3⟩

theorem segLoop_filter (hd : Htdocs) (rest : List (List Nat)) : ∀ (buf : List Nat)
    (v w : Serve), SameOutcome v w →
    SameOutcome (segLoop hd v (buf.filter (Printable ·))
        (rest.map fun seg => seg.filter (Printable ·))) (segLoop hd w buf rest) := by
  induction rest with
  | nil => intro buf v w h; exact forLoop_filter hd buf v w h
  | cons next more ih =>
    intro buf v w h
    have h1 := forLoop_filter hd buf v w h
    simp only [List.map_cons, segLoop, h1.2.2]
    split_ifs
    · exact ih next _ _ h1
    · exact h1

theorem recvLoop_strip (hd : Htdocs) (rs : List Recv) : ∀ v w : Serve, SameOutcome v w →
    SameOutcome (recvLoop hd v (rs.map Recv.strip)) (recvLoop hd w rs) := by
  induction rs with
  | nil => intro v w h; exact h
  | cons r rs ih =>
    intro v w h
    obtain ⟨h1, h2, h3⟩ := h
    cases r with
    | recvErr =>
      simp only [List.map_cons, Recv.strip, recvLoop]
      exact ⟨h1, by simp [h2], rfl⟩
    | connErr b =>
      simp only [List.map_cons, Recv.strip, recvLoop]
      exact ⟨h1, by simp [h2], rfl⟩
    | data b =>
      have hs := segLoop_filter hd b.rest b.first v w ⟨h1, h2, h3⟩
      simp only [List.map_cons, Recv.strip, recvLoop, Netbuf.strip, hs.2.2]
      split_ifs
      · exact ih _ _ hs
      · exact ⟨hs.1, by simp [hs.2.1], rfl⟩

/-! ## Chunk boundaries -/

theorem forLoop_append (hd : Htdocs) (a b : List Nat) : ∀ v : Serve, v.doexit = 0 →
    forLoop hd v (a ++ b)
      = if (forLoop hd v a).doexit = 0 then forLoop hd (forLoop hd v a) b
        else forLoop hd v a := by
  induction a with
  | nil => intro v h; simp [forLoop, h]
  | cons c cs ih =>
    intro v h
    have e : ∀ l, ¬ (charProcess v.st c).ret < 0 → ¬ (charProcess v.st c).ret = 1 →
        forLoop hd v (c :: l)
          = forLoop hd { v with st := (charProcess v.st c).st,
                                calls := v.calls ++ [(c, (charProcess v.st c).ret)] } l := by
      intro l h1 h2
      simp only [forLoop, if_neg h1, if_neg h2]
    by_cases h1 : (charProcess v.st c).ret < 0
    · simp [forLoop, h1]
    by_cases h2 : (charProcess v.st c).ret = 1
    · simp [forLoop, h2]
    · rw [List.cons_append, e _ h1 h2, e _ h1 h2]
      exact ih _ h

theorem segLoop_eq_forLoop (hd : Htdocs) (rest : List (List Nat)) : ∀ (buf : List Nat)
    (v : Serve), v.doexit = 0 → segLoop hd v buf rest = forLoop hd v (buf ++ rest.flatten) := by
  induction rest with
  | nil => intro buf v _; simp [segLoop]
  | cons next more ih =>
    intro buf v h
    rw [List.flatten_cons, forLoop_append hd buf _ v h]
    simp only [segLoop]
    split_ifs with h1
    · exact ih next _ h1
    · rfl

/-- Consecutive data chunks act as one run of the byte loop over their bytes. -/
theorem recvLoop_data (hd : Htdocs) (nbs : List Netbuf) (rest : List Recv) : ∀ v : Serve,
    v.doexit = 0 →
    recvLoop hd v (nbs.map Recv.data ++ rest)
      = if (forLoop hd v (nbs.flatMap Netbuf.bytes)).doexit = 0
        then recvLoop hd (forLoop hd v (nbs.flatMap Netbuf.bytes)) rest
        else { forLoop hd v (nbs.flatMap Netbuf.bytes) with
               conn := (forLoop hd v (nbs.flatMap Netbuf.bytes)).conn ++ [ConnOp.close] } := by
  induction nbs with
  | nil => intro v h; simp [forLoop, h]
  | cons nb nbs ih =>
    intro v h
    have hA : segLoop hd v nb.first nb.rest = forLoop hd v nb.bytes :=
      segLoop_eq_forLoop hd nb.rest nb.first v h
    have hL : recvLoop hd v ((nb :: nbs).map Recv.data ++ rest)
        = if (forLoop hd v nb.bytes).doexit = 0
          then recvLoop hd (forLoop hd v nb.bytes) (nbs.map Recv.data ++ rest)
          else { forLoop hd v nb.bytes with
                 conn := (forLoop hd v nb.bytes).conn ++ [ConnOp.close] } := by
      rw [← hA]; rfl
    rw [hL, List.flatMap_cons, forLoop_append hd _ _ v h]
    by_cases h1 : (forLoop hd v nb.bytes).doexit = 0
    · rw [if_pos h1, if_pos h1]
      exact ih _ h1
    · rw [if_neg h1, if_neg h1, if_neg h1]

/-! ## Page lookup -/

theorem cstr_cons (b : Nat) (bs : List Nat) :
    cstr (b :: bs) = if b ≠ 0 then b :: cstr bs else [] := by
  by_cases h : b = 0
  · simp [cstr, List.takeWhile_cons, h]
  · simp [cstr, List.takeWhile_cons, h]

/-- Comparing with a literal shorter than `n` is equality of C strings. -/
theorem strncmp_lit (l : List Nat) : ∀ (buf : List Nat) (n : Nat), (∀ c ∈ l, c ≠ 0) →
    l.length < n → (strncmp buf (l ++ [0]) n = 0 ↔ cstr buf = l) := by
  induction l with
  | nil =>
    intro buf n _ hn
    obtain ⟨n, rfl⟩ : ∃ k, n = k + 1 := ⟨n - 1, by simp at hn; omega⟩
    cases buf with
    | nil => simp [strncmp, cstr]
    | cons b bs =>
      rw [cstr_cons]
      by_cases hb : b = 0
      · simp [strncmp, hb]
      · simp [strncmp, hb]
  | cons a l ih =>
    intro buf n hz hn
    obtain ⟨n, rfl⟩ : ∃ k, n = k + 1 := ⟨n - 1, by simp at hn; omega⟩
    have ha : a ≠ 0 := hz a (by simp)
    have ha' : ¬ (0 = a) := fun h => ha h.symm
    cases buf with
    | nil =>
      simp only [strncmp, List.headD_nil, List.cons_append, List.headD_cons, ne_eq, ha',
        not_false_eq_true, if_true, cstr, List.takeWhile_nil]
      constructor
      · intro h; exfalso; omega
      · intro h; cases h
    | cons b bs =>
      rw [cstr_cons]
      by_cases hba : b = a
      · subst hba
        have := ih bs n (fun c hc => hz c (by simp [hc])) (by simp at hn; omega)
        simp only [strncmp, List.headD_cons, List.cons_append, ne_eq, not_true_eq_false,
          if_false, ha, List.tail_cons, not_false_eq_true, if_true, List.cons.injEq, true_and]
        exact this
      · simp only [strncmp, List.headD_cons, List.cons_append, ne_eq, hba, not_false_eq_true,
          if_true]
        constructor
        · intro h; exfalso; omega
        · intro h
          split at h
          · simp at h; exact absurd h.1 hba
          · cases h

theorem strncmp_filename (buf l : List Nat) (hz : ∀ c ∈ l, c ≠ 0) (hl : l.length < 16) :
    strncmp buf (l ++ [0]) ENTRY_LEN = 0 ↔ cstr buf = l :=
  strncmp_lit l buf 16 hz hl

theorem write_200ok :
    netconn_write http_200ok http_200ok_len = ConnOp.write (bytes "HTTP/1.0 200 OK\r\n") := by
  decide

theorem write_404fnf :
    netconn_write http_404fnf http_404fnf_len
      = ConnOp.write (bytes "HTTP/1.0 404 File not found\r\n") := by
  decide

theorem write_400bad :
    netconn_write http_400bad http_400bad_len
      = ConnOp.write (bytes "HTTP/1.0 400 Bad Request\r\n") := by
  decide

theorem write_server :
    netconn_write http_server http_server_len
      = ConnOp.write (bytes "Server: edyht - based on lwIP\r\n") := by
  decide

theorem write_content_html :
    netconn_write http_content_html http_content_html_len
      = ConnOp.write (bytes "Content-type: " ++ bytes "text/html" ++ bytes "\r\n\r\n") := by
  decide

theorem write_content_json :
    netconn_write http_content_json http_content_json_len
      = ConnOp.write (bytes "Content-type: " ++ bytes "application/json" ++ bytes "\r\n\r\n") := by
  decide

theorem write_content_plain :
    netconn_write http_content_plain http_content_plain_len
      = ConnOp.write (bytes "Content-type: text/plain\r\n\r\n") := by
  decide

/-- The three header writes of `webpageProcess`, by filename. -/
theorem webpageProcess_header (hd : Htdocs) (s : State) :
    ∃ payload, webpageProcess hd s =
      ConnOp.write (if cstr s.filename ∈ knownPages then bytes "HTTP/1.0 200 OK\r\n"
                    else bytes "HTTP/1.0 404 File not found\r\n")
      :: ConnOp.write (bytes "Server: edyht - based on lwIP\r\n")
      :: ConnOp.write (bytes "Content-type: "
          ++ (if cstr s.filename = bytes "test.json" then bytes "application/json"
              else bytes "text/html") ++ bytes "\r\n\r\n")
      :: payload := by
  have e0 := strncmp_filename s.filename (bytes "") (by decide) (by decide)
  have e1 := strncmp_filename s.filename (bytes "index.htm") (by decide) (by decide)
  have e2 := strncmp_filename s.filename (bytes "credits.htm") (by decide) (by decide)
  have e3 := strncmp_filename s.filename (bytes "tasks.htm") (by decide) (by decide)
  have e4 := strncmp_filename s.filename (bytes "lwip.htm") (by decide) (by decide)
  have e5 := strncmp_filename s.filename (bytes "testform.htm") (by decide) (by decide)
  have e6 := strncmp_filename s.filename (bytes "test.json") (by decide) (by decide)
  unfold webpageProcess
  simp only [lit, e0, e1, e2, e3, e4, e5, e6, write_200ok, write_404fnf, write_server,
    write_content_html, write_content_json, List.cons_append, List.nil_append]
  generalize cstr s.filename = f
  by_cases h1 : f = bytes "" ∨ f = bytes "index.htm"
  · have hk : f ∈ knownPages := by rcases h1 with h | h <;> subst h <;> decide
    have hj : ¬ f = bytes "test.json" := by rcases h1 with h | h <;> subst h <;> decide
    rw [if_pos h1, if_pos hk, if_neg hj]
    exact ⟨_, rfl⟩
  rw [if_neg h1]
  by_cases h2 : f = bytes "credits.htm"
  · have hk : f ∈ knownPages := by subst h2; decide
    have hj : ¬ f = bytes "test.json" := by subst h2; decide
    rw [if_pos h2, if_pos hk, if_neg hj]
    exact ⟨_, rfl⟩
  rw [if_neg h2]
  by_cases h3 : f = bytes "tasks.htm"
  · have hk : f ∈ knownPages := by subst h3; decide
    have hj : ¬ f = bytes "test.json" := by subst h3; decide
    rw [if_pos h3, if_pos hk, if_neg hj]
    exact ⟨_, rfl⟩
  rw [if_neg h3]
  by_cases h4 : f = bytes "lwip.htm"
  · have hk : f ∈ knownPages := by subst h4; decide
    have hj : ¬ f = bytes "test.json" := by subst h4; decide
    rw [if_pos h4, if_pos hk, if_neg hj]
    exact ⟨_, rfl⟩
  rw [if_neg h4]
  by_cases h5 : f = bytes "testform.htm"
  · have hk : f ∈ knownPages := by subst h5; decide
    have hj : ¬ f = bytes "test.json" := by subst h5; decide
    rw [if_pos h5, if_pos hk, if_neg hj]
    exact ⟨_, rfl⟩
  rw [if_neg h5]
  by_cases h6 : f = bytes "test.json"
  · have hk : f ∈ knownPages := by subst h6; decide
    rw [if_pos h6, if_pos hk, if_pos h6]
    exact ⟨_, rfl⟩
  rw [if_neg h6]
  have hk : f ∉ knownPages := by
    simp only [knownPages, List.mem_cons, List.mem_singleton, List.not_mem_nil, or_false]
    rintro (h | h | h | h | h | h | h)
    · exact h1 (Or.inl h)
    · exact h1 (Or.inr h)
    · exact h2 h
    · exact h3 h
    · exact h4 h
    · exact h5 h
    · exact h6 h
  rw [if_neg hk, if_neg h6]
  exact ⟨_, rfl⟩

/-! ## How the connection loop ends -/

theorem ret_cases (s : State) (c : Nat) :
    (charProcess s c).ret = CHARPROC_OK ∨ (charProcess s c).ret = CHARPROC_FINISHED
      ∨ (charProcess s c).ret < 0 := by
  obtain ⟨fn, ql, us, k, m⟩ := s
  unfold charProcess
  cases us <;> simp only [] <;> split_ifs <;> dsimp only <;> decide

theorem forLoop_outcome (hd : Htdocs) (bs : List Nat) : ∀ v : Serve, v.Idle →
    Outcome hd (forLoop hd v bs) := by
  induction bs with
  | nil => intro v h; exact Or.inl h
  | cons c cs ih =>
    intro v h
    obtain ⟨h1, h2, h3⟩ := h
    by_cases e1 : (charProcess v.st c).ret < 0
    · right; left
      simp only [forLoop, if_pos e1]
      exact ⟨⟨rfl, v.calls, c, _, rfl, e1, h3⟩, by simp [h2]⟩
    by_cases e2 : (charProcess v.st c).ret = 1
    · right; right
      simp only [forLoop, if_neg e1, if_pos e2]
      refine ⟨⟨rfl, v.calls, c, ?_, h3⟩, by simp [h2]⟩
      simp only []
      rw [e2]; rfl
    · simp only [forLoop, if_neg e1, if_neg e2]
      apply ih
      refine ⟨h1, h2, ?_⟩
      intro x hx
      simp only [List.mem_append, List.mem_singleton] at hx
      rcases hx with hx | hx
      · exact h3 x hx
      · subst hx
        rcases ret_cases v.st c with r | r | r
        · exact r
        · exact absurd r e2
        · exact absurd r e1

theorem recvLoop_final (hd : Htdocs) (rs : List Recv) : ∀ v : Serve, v.Idle →
    Final hd (recvLoop hd v rs) := by
  induction rs with
  | nil => intro v h; exact Or.inl h
  | cons r rs ih =>
    intro v h
    cases r with
    | recvErr =>
      right; left
      simp only [recvLoop]
      exact ⟨Or.inl rfl, by simp [h.2.1], h.2.2⟩
    | connErr b =>
      right; left
      simp only [recvLoop]
      exact ⟨Or.inr rfl, by simp [h.2.1], h.2.2⟩
    | data b =>
      have hO : Outcome hd (segLoop hd v b.first b.rest) := by
        rw [segLoop_eq_forLoop hd b.rest b.first v h.1]
        exact forLoop_outcome hd _ v h
      simp only [recvLoop]
      rcases hO with hI | ⟨hF, hc⟩ | ⟨hD, hc⟩
      · rw [if_pos hI.1]
        exact ih _ hI
      · have hne : ¬ (segLoop hd v b.first b.rest).doexit = 0 := by rw [hF.1]; decide
        rw [if_neg hne]
        right; right; left
        exact ⟨hF, by simp [hc]⟩
      · have hne : ¬ (segLoop hd v b.first b.rest).doexit = 0 := by rw [hD.1]; decide
        rw [if_neg hne]
        right; right; right
        exact ⟨hD, by simp [hc]⟩

/-- Every run of `serve_get_request` ends in one of the states of `Final`. -/
theorem serve_final (hd : Htdocs) (s : State) (rs : List Recv) :
    Final hd (serve_get_request hd s rs) :=
  recvLoop_final hd rs _ ⟨rfl, rfl, by simp⟩

/-- A run in which some call returned a negative code has sent the bad-request response. -/
theorem failed_of_negative (hd : Htdocs) (v : Serve) (h : Final hd v)
    (hn : ∃ c ∈ v.calls, c.2 < 0) :
    v.doexit = 4 ∧ v.conn = webpageBadProcess ++ [ConnOp.close] := by
  obtain ⟨x, hx, hneg⟩ := hn
  rcases h with hI | ⟨-, -, hall⟩ | ⟨hF, hc⟩ | ⟨hD, -⟩
  · rw [hI.2.2 x hx] at hneg; exact absurd hneg (by decide)
  · rw [hall x hx] at hneg; exact absurd hneg (by decide)
  · exact ⟨hF.1, hc⟩
  · obtain ⟨-, pre, c, hcalls, hpre⟩ := hD
    rw [hcalls] at hx
    simp only [List.mem_append, List.mem_singleton] at hx
    rcases hx with hx | hx
    · rw [hpre x hx] at hneg; exact absurd hneg (by decide)
    · subst hx
      have : ¬ (CHARPROC_FINISHED < 0) := by decide
      exact absurd hneg this

/-! ## The wire constants and the formatted numbers -/

theorem digitChar_toNat (d : Nat) (h : d < 10) : (Nat.digitChar d).toNat = 0x30 + d := by
  interval_cases d <;> rfl

theorem toDigitsCore_map (fuel : Nat) : ∀ (n : Nat) (ds : List Char), n < fuel →
    ∃ x : List Nat, (Nat.toDigitsCore 10 fuel n ds).map Char.toNat = x ++ ds.map Char.toNat ∧
      decVal x = n ∧ (∀ c ∈ x, 0x30 ≤ c ∧ c ≤ 0x39) ∧ x ≠ [] ∧
      ∀ k, 1 ≤ k → n < 10 ^ k → x.length ≤ k := by
  induction fuel with
  | zero => intro n ds h; omega
  | succ fuel ih =>
    intro n ds h
    have hd := digitChar_toNat (n % 10) (Nat.mod_lt _ (by decide))
    by_cases h0 : n / 10 = 0
    · refine ⟨[0x30 + n % 10], ?_, ?_, ?_, by simp, ?_⟩
      · simp [Nat.toDigitsCore, h0, hd]
      · simp only [decVal, List.foldl_cons, List.foldl_nil]
        omega
      · intro c hc
        simp only [List.mem_singleton] at hc
        omega
      · intro k hk _; simpa using hk
    · obtain ⟨x, e1, e2, e3, e4, e5⟩ := ih (n / 10) (Nat.digitChar (n % 10) :: ds) (by omega)
      refine ⟨x ++ [0x30 + n % 10], ?_, ?_, ?_, by simp, ?_⟩
      · simp only [Nat.toDigitsCore, if_neg h0, e1, List.map_cons, hd, List.append_assoc,
          List.singleton_append]
      · simp only [decVal, List.foldl_append, List.foldl_cons, List.foldl_nil] at e2 ⊢
        rw [e2]; omega
      · intro c hc
        rcases List.mem_append.1 hc with h1 | h1
        · exact e3 c h1
        · simp only [List.mem_singleton] at h1
          omega
      · intro k hk hn
        have hk2 : 2 ≤ k := by
          by_contra hlt
          have : k = 1 := by omega
          subst this
          omega
        have := e5 (k - 1) (by omega) (by
          have hp : 10 ^ k = 10 ^ (k - 1) * 10 := by
            rw [← Nat.pow_succ]; congr 1; omega
          rw [hp] at hn
          exact Nat.div_lt_of_lt_mul (by rw [Nat.mul_comm]; exact hn))
        simp only [List.length_append, List.length_singleton]
        omega

/-- The text `%d` makes of `n`: decimal digits that denote `n`, at most `k` of them when
`n < 10 ^ k`. -/
theorem fmtDec_spec (n : Nat) :
    decVal (fmtDec n) = n ∧ (∀ c ∈ fmtDec n, 0x30 ≤ c ∧ c ≤ 0x39) ∧ fmtDec n ≠ [] ∧
      ∀ k, 1 ≤ k → n < 10 ^ k → (fmtDec n).length ≤ k := by
  obtain ⟨x, e1, e2, e3, e4, e5⟩ := toDigitsCore_map (n + 1) n [] (by omega)
  have : fmtDec n = x := by simpa [fmtDec, Nat.toDigits] using e1
  rw [this]
  exact ⟨e2, e3, e4, e5⟩

theorem fmtDec_ne_zero (n : Nat) : ∀ c ∈ fmtDec n, c ≠ 0 := by
  intro c hc
  have := (fmtDec_spec n).2.1 c hc
  omega

theorem cstr_append_zero (x : List Nat) (h : ∀ c ∈ x, c ≠ 0) : cstr (x ++ [0]) = x := by
  induction x with
  | nil => simp [cstr]
  | cons a x ih =>
    have ha : a ≠ 0 := h a (by simp)
    have := ih (fun c hc => h c (by simp [hc]))
    rw [List.cons_append, cstr_cons, if_pos ha, this]

/-- Sending a formatted buffer up to its NUL sends the formatted text. -/
theorem write_strlen (x : List Nat) (h : ∀ c ∈ x, c ≠ 0) :
    netconn_write (x ++ [0]) (strlen (x ++ [0])) = ConnOp.write x := by
  simp [netconn_write, strlen, cstr_append_zero x h]

theorem arrayPiece_ne_zero (pos : Nat) : ∀ c ∈ arrayPiece pos, c ≠ 0 := by
  intro c hc
  unfold arrayPiece at hc
  rcases List.mem_append.1 hc with h | h
  · split at h
    · simp at h
    · have : c = 0x2c := by simpa [bytes] using h
      omega
  · exact fmtDec_ne_zero _ c h

theorem arrayLoop_eq (k : Nat) : ∀ pos : Nat,
    arrayLoop pos k = (List.range' pos k).map fun i => ConnOp.write (arrayPiece i) := by
  induction k with
  | zero => intro pos; rfl
  | succ k ih =>
    intro pos
    rw [List.range'_succ, List.map_cons, ← ih (pos + 1)]
    simp only [arrayLoop]
    congr 1
    rw [← write_strlen _ (arrayPiece_ne_zero pos)]
    by_cases h0 : pos = 0
    · simp [arrayPiece, arrayVal, h0]
    · simp [arrayPiece, arrayVal, h0]

theorem sent_map_write (l : List (List Nat)) : sent (l.map ConnOp.write) = l.flatten := by
  induction l with
  | nil => rfl
  | cons a l ih => simp [sent, ih]

theorem flatten_sep (sep : List Nat) (xs : List (List Nat)) : ∀ x0 : List Nat,
    (x0 :: xs.map fun x => sep ++ x).flatten = sep.intercalate (x0 :: xs) := by
  induction xs with
  | nil => intro x0; simp [List.intercalate, List.intersperse]
  | cons a xs ih =>
    intro x0
    rw [intercalate_cons_cons, ← ih a]
    simp

theorem pieces_flatten (n : Nat) :
    ((List.range (n + 1)).map arrayPiece).flatten
      = (bytes ",").intercalate ((List.range (n + 1)).map fun i => fmtDec (arrayVal i)) := by
  rw [List.range_eq_range', List.range'_succ, List.map_cons, List.map_cons, ← flatten_sep]
  congr 1
  congr 1
  rw [List.map_map]
  apply List.map_congr_left
  intro i hi
  have : 1 ≤ i := by
    rw [List.mem_range'_1] at hi; omega
  have h0 : ¬ i = 0 := by omega
  simp [arrayPiece, h0]

/-- The pieces `arrayProcess` sends, and the bytes they add up to. -/
theorem arrayProcess_eq :
    arrayProcess = (List.range 1000).map (fun i => ConnOp.write (arrayPiece i)) ∧
    sent arrayProcess
      = (bytes ",").intercalate ((List.range 1000).map fun i => fmtDec (arrayVal i)) := by
  have h1 : arrayProcess = (List.range 1000).map (fun i => ConnOp.write (arrayPiece i)) := by
    rw [List.range_eq_range']
    exact arrayLoop_eq 1000 0
  refine ⟨h1, ?_⟩
  have hm : (List.range 1000).map (fun i => ConnOp.write (arrayPiece i))
      = ((List.range 1000).map arrayPiece).map ConnOp.write := by
    rw [List.map_map]; rfl
  rw [h1, hm, sent_map_write]
  exact pieces_flatten 999

/-- The writes of `webpageProcess` when `filename` holds `test.json`. -/
theorem webpageProcess_test_json (hd : Htdocs) (s : State)
    (h : cstr s.filename = bytes "test.json") :
    webpageProcess hd s
      = [ConnOp.write (bytes "HTTP/1.0 200 OK\r\n"),
         ConnOp.write (bytes "Server: edyht - based on lwIP\r\n"),
         ConnOp.write (bytes "Content-type: " ++ bytes "application/json" ++ bytes "\r\n\r\n"),
         ConnOp.write (bytes "\x7b\n\"val\":[")]
        ++ arrayProcess ++ [ConnOp.write (bytes "]\n\x7d")] := by
  have e0 := strncmp_filename s.filename (bytes "") (by decide) (by decide)
  have e1 := strncmp_filename s.filename (bytes "index.htm") (by decide) (by decide)
  have e2 := strncmp_filename s.filename (bytes "credits.htm") (by decide) (by decide)
  have e3 := strncmp_filename s.filename (bytes "tasks.htm") (by decide) (by decide)
  have e4 := strncmp_filename s.filename (bytes "lwip.htm") (by decide) (by decide)
  have e5 := strncmp_filename s.filename (bytes "testform.htm") (by decide) (by decide)
  have e6 := strncmp_filename s.filename (bytes "test.json") (by decide) (by decide)
  have w1 := write_strlen (bytes "\x7b\n\"val\":[") (by decide)
  have w2 := write_strlen (bytes "]\n\x7d") (by decide)
  unfold webpageProcess
  simp only [lit, e0, e1, e2, e3, e4, e5, e6, write_200ok, write_server, write_content_json,
    w1, w2, h]
  have n1 : ¬ (bytes "test.json" = bytes "" ∨ bytes "test.json" = bytes "index.htm") := by
    decide
  have n2 : ¬ bytes "test.json" = bytes "credits.htm" := by decide
  have n3 : ¬ bytes "test.json" = bytes "tasks.htm" := by decide
  have n4 : ¬ bytes "test.json" = bytes "lwip.htm" := by decide
  have n5 : ¬ bytes "test.json" = bytes "testform.htm" := by decide
  rw [if_neg n1, if_neg n2, if_neg n3, if_neg n4, if_neg n5]
  rfl

/-! ## Closing the connection -/

theorem netconn_write_ne_close (d : List Nat) (n : Nat) : netconn_write d n ≠ ConnOp.close := by
  simp [netconn_write]

theorem arrayLoop_no_close (k : Nat) : ∀ pos : Nat, ConnOp.close ∉ arrayLoop pos k := by
  induction k with
  | zero => intro pos; simp [arrayLoop]
  | succ k ih =>
    intro pos h
    simp only [arrayLoop, List.mem_cons] at h
    rcases h with h | h
    · exact netconn_write_ne_close _ _ h.symm
    · exact ih _ h

theorem queryLoop_no_close (s : State) (k : Nat) : ∀ i : Nat, ConnOp.close ∉ queryLoop s i k := by
  induction k with
  | zero => intro i; simp [queryLoop]
  | succ k ih =>
    intro i h
    simp only [queryLoop, List.mem_cons] at h
    rcases h with h | h
    · exact netconn_write_ne_close _ _ h.symm
    · exact ih _ h

theorem queryShow_no_close (s : State) : ConnOp.close ∉ queryShow s := by
  intro h
  simp only [queryShow, List.mem_append, List.mem_cons, List.mem_singleton, List.not_mem_nil,
    or_false] at h
  rcases h with (h | h) | h
  · rcases h with h | h <;> exact netconn_write_ne_close _ _ h.symm
  · exact queryLoop_no_close s _ _ h
  · exact netconn_write_ne_close _ _ h.symm

theorem tasks_no_close (hd : Htdocs) : ConnOp.close ∉ page_FreeRTOS_Tasks hd := by
  simp [page_FreeRTOS_Tasks, netconn_write]

/-- The function `webpageProcess` only writes. -/
theorem webpageProcess_no_close (hd : Htdocs) (s : State) :
    ConnOp.close ∉ webpageProcess hd s := by
  have h1 := tasks_no_close hd
  have h2 := queryShow_no_close s
  have h3 : ConnOp.close ∉ arrayProcess := arrayLoop_no_close 1000 0
  unfold webpageProcess
  split_ifs <;> simp [netconn_write, h1, h2, h3]

theorem webpageBadProcess_no_close : ConnOp.close ∉ webpageBadProcess := by
  decide

theorem count_close_append (l : List ConnOp) (h : ConnOp.close ∉ l) :
    (l ++ [ConnOp.close]).count ConnOp.close = 1 ∧
      (l ++ [ConnOp.close]).getLast? = some ConnOp.close := by
  refine ⟨?_, by simp⟩
  rw [List.count_append, List.count_eq_zero.2 h]
  simp

/-- The byte loop goes on exactly as long as every call returns `CHARPROC_OK`. -/
theorem forLoop_doexit_iff (hd : Htdocs) (bs : List Nat) : ∀ v : Serve, v.doexit = 0 →
    ((forLoop hd v bs).doexit = 0 ↔ ∀ x ∈ (charProcessAll v.st bs).2, x = CHARPROC_OK) := by
  induction bs with
  | nil => intro v h; simp [forLoop, charProcessAll, h]
  | cons c cs ih =>
    intro v h
    by_cases e1 : (charProcess v.st c).ret < 0
    · simp only [forLoop, if_pos e1, charProcessAll, List.mem_cons]
      constructor
      · intro h4; exact absurd h4 (by decide)
      · intro hall
        have := hall _ (Or.inl rfl)
        rw [this] at e1
        exact absurd e1 (by decide)
    by_cases e2 : (charProcess v.st c).ret = 1
    · simp only [forLoop, if_neg e1, if_pos e2, charProcessAll, List.mem_cons]
      constructor
      · intro h4; exact absurd h4 (by decide)
      · intro hall
        have := hall _ (Or.inl rfl)
        rw [this] at e2
        exact absurd e2 (by decide)
    · have e0 : (charProcess v.st c).ret = CHARPROC_OK := by
        rcases ret_cases v.st c with r | r | r
        · exact r
        · exact absurd r e2
        · exact absurd r e1
      simp only [forLoop, if_neg e1, if_neg e2, charProcessAll, List.mem_cons]
      refine Iff.trans (ih ⟨(charProcess v.st c).st, v.conn,
        v.calls ++ [(c, (charProcess v.st c).ret)], v.doexit⟩ h) ?_
      constructor
      · intro hall x hx
        rcases hx with hx | hx
        · rw [hx]; exact e0
        · exact hall x hx
      · intro hall x hx
        exact hall x (Or.inr hx)

theorem recvLoop_doexit_ne (hd : Htdocs) (rs : List Recv) : ∀ v : Serve,
    (∃ r ∈ rs, r = Recv.recvErr ∨ ∃ b, r = Recv.connErr b) → (recvLoop hd v rs).doexit ≠ 0 := by
  induction rs with
  | nil => intro v h; simp at h
  | cons r rs ih =>
    intro v h
    have hstep : ∀ w : Serve, (w.doexit = 0 → (recvLoop hd w rs).doexit ≠ 0) →
        (if w.doexit = 0 then recvLoop hd w rs
          else { w with conn := w.conn ++ [ConnOp.close] }).doexit ≠ 0 := by
      intro w hw
      split_ifs with h0
      · exact hw h0
      · exact h0
    cases r with
    | recvErr => simp [recvLoop]
    | connErr b => simp [recvLoop]
    | data b =>
      simp only [recvLoop]
      apply hstep
      intro _
      apply ih
      obtain ⟨x, hx, hx2⟩ := h
      simp only [List.mem_cons] at hx
      rcases hx with hx | hx
      · subst hx
        rcases hx2 with h1 | ⟨b1, h1⟩ <;> cases h1
      · exact ⟨x, hx, hx2⟩

/-- Data chunks followed by anything: what the receive loop does is decided by the codes
`charProcess` returns on the bytes of the chunks. -/
theorem serve_data (hd : Htdocs) (s : State) (nbs : List Netbuf) (rest : List Recv) :
    ((∀ x ∈ (charProcessAll (charProcessInit s) (nbs.flatMap Netbuf.bytes)).2,
        x = CHARPROC_OK) →
      ∃ w : Serve, w.Idle ∧ serve_get_request hd s (nbs.map Recv.data ++ rest)
        = recvLoop hd w rest) ∧
    ((∃ x ∈ (charProcessAll (charProcessInit s) (nbs.flatMap Netbuf.bytes)).2,
        x ≠ CHARPROC_OK) →
      (serve_get_request hd s (nbs.map Recv.data ++ rest)).doexit ≠ 0 ∧
      serve_get_request hd s (nbs.map Recv.data ++ rest)
        = { forLoop hd ⟨charProcessInit s, [], [], 0⟩ (nbs.flatMap Netbuf.bytes) with
            conn := (forLoop hd ⟨charProcessInit s, [], [], 0⟩
              (nbs.flatMap Netbuf.bytes)).conn ++ [ConnOp.close] }) := by
  have hiff := forLoop_doexit_iff hd (nbs.flatMap Netbuf.bytes) ⟨charProcessInit s, [], [], 0⟩ rfl
  have hout := forLoop_outcome hd (nbs.flatMap Netbuf.bytes) ⟨charProcessInit s, [], [], 0⟩
    ⟨rfl, rfl, by simp⟩
  have hdata := recvLoop_data hd nbs rest ⟨charProcessInit s, [], [], 0⟩ rfl
  constructor
  · intro hall
    have h0 := hiff.2 hall
    rcases hout with hI | ⟨hF, -⟩ | ⟨hD, -⟩
    · refine ⟨_, hI, ?_⟩
      unfold serve_get_request
      rw [hdata, if_pos h0]
    · rw [hF.1] at h0; exact absurd h0 (by decide)
    · rw [hD.1] at h0; exact absurd h0 (by decide)
  · intro hex
    have h0 : ¬ (forLoop hd ⟨charProcessInit s, [], [], 0⟩ (nbs.flatMap Netbuf.bytes)).doexit = 0 := by
      intro h0
      obtain ⟨x, hx, hne⟩ := hex
      exact hne (hiff.1 h0 x hx)
    unfold serve_get_request
    rw [hdata, if_neg h0]
    exact ⟨h0, rfl⟩

theorem skip_all (bs : List Nat) : ∀ s : State, (∀ c ∈ bs, ¬ Printable c) →
    ∀ x ∈ (charProcessAll s bs).2, x = CHARPROC_OK := by
  induction bs with
  | nil => intro s _ x hx; simp [charProcessAll] at hx
  | cons c cs ih =>
    intro s h x hx
    have hc := charProcess_skip s c (h c (by simp))
    simp only [charProcessAll, hc, List.mem_cons] at hx
    rcases hx with hx | hx
    · exact hx
    · exact ih s (fun c1 h1 => h c1 (by simp [h1])) x hx

/-- A run that has left the receive loop has closed once, at the end, and `doexit` names the
exit path; a run still in the loop has made no call on the connection. -/
theorem final_closed (hd : Htdocs) (v : Serve) (h : Final hd v) :
    (v.doexit = 0 → v.conn = []) ∧
    (v.doexit ≠ 0 → v.conn.count ConnOp.close = 1 ∧ v.conn.getLast? = some ConnOp.close ∧
      (v.doexit = 100 ∨ v.doexit = 4 ∨ v.doexit = 3 ∨ v.doexit = 2)) := by
  rcases h with hI | ⟨h23, hc, -⟩ | ⟨hF, hc⟩ | ⟨hD, hc⟩
  · exact ⟨fun _ => hI.2.1, fun hne => absurd hI.1 hne⟩
  · refine ⟨fun h0 => ?_, fun _ => ?_⟩
    · rcases h23 with h2 | h2 <;> rw [h2] at h0 <;> exact absurd h0 (by decide)
    · rw [hc]
      refine ⟨by decide, by decide, ?_⟩
      rcases h23 with h2 | h2
      · exact Or.inr (Or.inr (Or.inr h2))
      · exact Or.inr (Or.inr (Or.inl h2))
  · refine ⟨fun h0 => ?_, fun _ => ?_⟩
    · rw [hF.1] at h0; exact absurd h0 (by decide)
    · rw [hc]
      have := count_close_append _ webpageBadProcess_no_close
      exact ⟨this.1, this.2, Or.inr (Or.inl hF.1)⟩
  · refine ⟨fun h0 => ?_, fun _ => ?_⟩
    · rw [hD.1] at h0; exact absurd h0 (by decide)
    · rw [hc]
      have := count_close_append _ (webpageProcess_no_close hd v.st)
      exact ⟨this.1, this.2, Or.inl hD.1⟩

/-- In the calls of a run, a code other than `CHARPROC_OK` is the last one. -/
theorem final_terminal_last (hd : Htdocs) (v : Serve) (h : Final hd v)
    (pre post : List (Nat × Int)) (x : Nat × Int) (hc : v.calls = pre ++ x :: post)
    (hx : x.2 ≠ CHARPROC_OK) : post = [] := by
  have key : ∀ (pre1 : List (Nat × Int)) (y : Nat × Int), v.calls = pre1 ++ [y] →
      (∀ z ∈ pre1, z.2 = CHARPROC_OK) → post = [] := by
    intro pre1 y h1 h2
    rcases List.eq_nil_or_concat post with hp | ⟨post1, z, hp⟩
    · exact hp
    · rw [List.concat_eq_append] at hp
      subst hp
      rw [hc, ← List.cons_append, ← List.append_assoc] at h1
      have := (List.append_inj' h1 rfl).1
      exact absurd (h2 x (by rw [← this]; simp)) hx
  have hall : (∀ z ∈ v.calls, z.2 = CHARPROC_OK) → post = [] := by
    intro hall
    exact absurd (hall x (by rw [hc]; simp)) hx
  rcases h with hI | ⟨-, -, ha⟩ | ⟨hF, -⟩ | ⟨hD, -⟩
  · exact hall hI.2.2
  · exact hall ha
  · obtain ⟨-, pre1, c, r, h1, -, h2⟩ := hF
    exact key pre1 (c, r) h1 h2
  · obtain ⟨-, pre1, c, h1, h2⟩ := hD
    exact key pre1 (c, CHARPROC_FINISHED) h1 h2

/-! ## Bounds of the cursor and of the entry count -/

theorem getStr_high (k : Nat) (h : 5 ≤ k) : getStr.getD k 0 = 0 := by
  rcases Nat.lt_or_ge k 6 with h6 | h6
  · have h5 : k = 5 := by omega
    subst h5; rfl
  · simp only [getStr, List.getD_eq_getElem?_getD]
    rw [List.getElem?_eq_none (by simpa using h6)]; rfl

theorem bounds_step (s : State) (c : Nat) (h : Bounds s)
    (hr : (charProcess s c).ret ≠ CHARPROC_FINISHED) : Bounds (charProcess s c).st := by
  obtain ⟨fn, ql, us, k, m⟩ := s
  obtain ⟨b1, b2, b3, b4⟩ := h
  simp only [] at b1 b2 b3 b4
  unfold charProcess at hr ⊢
  cases us <;> simp only [ENTRY_LEN, LIST_LEN] at hr ⊢ <;> (try simp at b1) <;>
    (try simp at b4) <;> split_ifs at hr ⊢ <;> dsimp only at hr ⊢ <;>
    first
      | exact absurd rfl hr
      | (refine ⟨?_, ?_, ?_, ?_⟩ <;> dsimp only <;>
          first
            | omega
            | (intro hu; first | omega | exact absurd hu (by decide)))

theorem bounds_finish (s : State) (c : Nat) (h : Bounds s) :
    (charProcess s c).st.cntChar ≤ 16 ∧ (charProcess s c).st.cntElements ≤ 10 := by
  refine ⟨cntChar_le_step s c h.2.1, ?_⟩
  obtain ⟨fn, ql, us, k, m⟩ := s
  obtain ⟨-, -, b3, b4⟩ := h
  simp only [] at b3 b4
  unfold charProcess
  cases us <;> simp only [] <;> (try simp at b4) <;> split_ifs <;> dsimp only <;> omega

theorem bounds_run (bs : List Nat) : ∀ s : State, Bounds s →
    (∀ x ∈ (charProcessAll s bs).2, x ≠ CHARPROC_FINISHED) → Bounds (charProcessAll s bs).1 := by
  induction bs with
  | nil => intro s h _; exact h
  | cons c cs ih =>
    intro s h hr
    simp only [charProcessAll, List.mem_cons] at hr ⊢
    exact ih _ (bounds_step s c h (hr _ (Or.inl rfl))) (fun x hx => hr x (Or.inr hx))

theorem bounds_init (s0 : State) : Bounds (charProcessInit s0) := by
  refine ⟨fun _ => ?_, ?_, ?_, fun _ => ?_⟩ <;> simp [charProcessInit]

/-- Which array a call stores into. -/
theorem wr_buf (s : State) (c : Nat) (w : Write) (h : (charProcess s c).wr = some w) :
    (s.urlState = urlState_filename ∧ w.buf = Buf.filename)
    ∨ (s.urlState = urlState_queryName ∧ s.cntElements < 10 ∧ w.buf = Buf.name s.cntElements)
    ∨ (s.urlState = urlState_queryVal ∧ w.buf = Buf.value s.cntElements) := by
  obtain ⟨fn, ql, us, k, m⟩ := s
  unfold charProcess at h
  cases us <;> simp only [LIST_LEN] at h <;> split_ifs at h <;> dsimp only at h <;> cases h <;>
    first
      | exact Or.inl ⟨rfl, rfl⟩
      | exact Or.inr (Or.inl ⟨rfl, by dsimp only; omega, rfl⟩)
      | exact Or.inr (Or.inr ⟨rfl, rfl⟩)

theorem wr_inBounds (s : State) (c : Nat) (w : Write) (hb : Bounds s)
    (h : (charProcess s c).wr = some w) : w.InBounds := by
  have hi := wr_idx s c w h
  refine ⟨by rw [hi]; have := hb.2.1; omega, ?_⟩
  rcases wr_buf s c w h with ⟨-, h2⟩ | ⟨-, h1, h2⟩ | ⟨h1, h2⟩
  · rw [h2]; trivial
  · rw [h2]; exact h1
  · rw [h2]
    have := hb.2.2.2 h1
    show s.cntElements < 10
    omega

/-! ## Classification of the codes in the field states -/

theorem ret_filename (s : State) (c : Nat) (hs : s.urlState = urlState_filename)
    (hp : Printable c) (hk : s.cntChar ≤ 16) (h1 : c ≠ 0x20) (h2 : c ≠ 0x3f) :
    (charProcess s c).ret
      = if s.cntChar = 16 then CHARPROC_ERR_OWFL
        else if FilenameChar c then CHARPROC_OK else CHARPROC_ERR_WRONGCHAR := by
  unfold Printable at hp
  simp only [charProcess, hs, if_pos hp, if_neg h1, if_neg h2, ENTRY_LEN, filenameChar_iff]
  by_cases h16 : s.cntChar = 16
  · rw [if_pos (by omega), if_pos h16]
  · rw [if_neg (by omega), if_neg h16]
    split_ifs <;> rfl

theorem ret_queryName (s : State) (c : Nat) (hs : s.urlState = urlState_queryName)
    (hp : Printable c) (hk : s.cntChar ≤ 16) (hm : s.cntElements ≤ 10) (h1 : c ≠ 0x3d) :
    (charProcess s c).ret
      = if s.cntChar = 16 ∨ s.cntElements = 10 then CHARPROC_ERR_OWFL
        else if NameChar c then CHARPROC_OK else CHARPROC_ERR_WRONGCHAR := by
  unfold Printable at hp
  simp only [charProcess, hs, if_pos hp, if_neg h1, ENTRY_LEN, LIST_LEN, nameChar_iff]
  by_cases h10 : s.cntElements = 10
  · rw [if_pos (by omega), if_pos (Or.inr h10)]
  have a0 : ¬ s.cntElements ≥ 10 := by omega
  by_cases h16 : s.cntChar = 16
  · have a3 : s.cntChar ≥ 16 := by omega
    rw [if_neg a0, if_pos a3, if_pos (Or.inl h16)]
  · have a3 : ¬ s.cntChar ≥ 16 := by omega
    have a4 : ¬ (s.cntChar = 16 ∨ s.cntElements = 10) := by omega
    rw [if_neg a0, if_neg a3, if_neg a4]
    split_ifs <;> rfl

theorem ret_queryVal (s : State) (c : Nat) (hs : s.urlState = urlState_queryVal)
    (hp : Printable c) (hk : s.cntChar ≤ 16) (h1 : c ≠ 0x20) (h2 : c ≠ 0x26) :
    (charProcess s c).ret
      = if s.cntChar = 16 then CHARPROC_ERR_OWFL
        else if ValueChar c then CHARPROC_OK else CHARPROC_ERR_WRONGCHAR := by
  unfold Printable at hp
  simp only [charProcess, hs, if_pos hp, if_neg h1, if_neg h2, ENTRY_LEN, valueChar_iff]
  by_cases h16 : s.cntChar = 16
  · rw [if_pos (by omega), if_pos h16]
  · rw [if_neg (by omega), if_neg h16]
    by_cases hc : (0x30 ≤ c ∧ c ≤ 0x39) ∨ (0x41 ≤ c ∧ c ≤ 0x5a) ∨ (0x61 ≤ c ∧ c ≤ 0x7a)
        ∨ c = 0x2e ∨ c = 0x2d
    · rw [if_pos hc, if_pos (by omega)]
    · rw [if_neg hc]
      by_cases hplus : c = 0x2b
      · rw [if_pos hplus, if_pos (by omega)]
      · rw [if_neg hplus, if_neg (by omega)]

/-! ## The calls a run of the connection loop has made -/

theorem forLoop_traced (hd : Htdocs) (s0 : State) (bs : List Nat) : ∀ v : Serve,
    Traced s0 v → Traced s0 (forLoop hd v bs) := by
  induction bs with
  | nil => intro v h; exact h
  | cons c cs ih =>
    intro v h
    have hstep : Traced s0 ⟨(charProcess v.st c).st, v.conn,
        v.calls ++ [(c, (charProcess v.st c).ret)], v.doexit⟩ := by
      unfold Traced at h ⊢
      simp only [List.map_append, List.map_cons, List.map_nil]
      rw [charProcessAll_append, h]
      rfl
    simp only [forLoop]
    split_ifs
    · exact hstep
    · exact hstep
    · exact ih _ hstep

theorem segLoop_traced (hd : Htdocs) (s0 : State) (rest : List (List Nat)) :
    ∀ (buf : List Nat) (v : Serve), Traced s0 v → Traced s0 (segLoop hd v buf rest) := by
  induction rest with
  | nil => intro buf v h; exact forLoop_traced hd s0 buf v h
  | cons next more ih =>
    intro buf v h
    simp only [segLoop]
    split_ifs
    · exact ih next _ (forLoop_traced hd s0 buf v h)
    · exact forLoop_traced hd s0 buf v h

theorem recvLoop_traced (hd : Htdocs) (s0 : State) (rs : List Recv) : ∀ v : Serve,
    Traced s0 v → Traced s0 (recvLoop hd v rs) := by
  induction rs with
  | nil => intro v h; exact h
  | cons r rs ih =>
    intro v h
    cases r with
    | recvErr =>
      have e : recvLoop hd v (Recv.recvErr :: rs)
          = ⟨v.st, v.conn ++ [ConnOp.close], v.calls, 2⟩ := by
        simp only [recvLoop]; rw [if_neg (by decide)]
      rw [e]; exact h
    | connErr b =>
      have e : recvLoop hd v (Recv.connErr b :: rs)
          = ⟨v.st, v.conn ++ [ConnOp.close], v.calls, 3⟩ := by
        simp only [recvLoop]; rw [if_neg (by decide)]
      rw [e]; exact h
    | data b =>
      have := segLoop_traced hd s0 b.rest b.first v h
      simp only [recvLoop]
      split_ifs
      · exact ih _ this
      · exact this

theorem serve_traced (hd : Htdocs) (s0 : State) (rs : List Recv) :
    Traced s0 (serve_get_request hd s0 rs) :=
  recvLoop_traced hd s0 rs _ rfl

/-- A call that returns an error code changes no variable and stores nothing. -/
theorem error_keeps (s : State) (c : Nat) (h : (charProcess s c).ret < 0) :
    charProcess s c = ⟨s, (charProcess s c).ret, none⟩ := by
  obtain ⟨fn, ql, us, k, m⟩ := s
  unfold charProcess at h ⊢
  cases us <;> simp only [] at h ⊢ <;> split_ifs at h ⊢ <;> dsimp only at h ⊢ <;>
    first
      | rfl
      | exact absurd h (by decide)

theorem shaped_run (bs : List Nat) : ∀ s : State, s.Shaped → (charProcessAll s bs).1.Shaped := by
  induction bs with
  | nil => intro s h; exact h
  | cons c cs ih => intro s h; exact ih _ (charProcess_shaped s c h)

theorem replicate_of_all_ok (s : State) (bs : List Nat)
    (h : ∀ x ∈ (charProcessAll s bs).2, x = CHARPROC_OK) :
    (charProcessAll s bs).2 = List.replicate bs.length CHARPROC_OK :=
  List.eq_replicate_iff.2 ⟨length_charProcessAll bs s, h⟩

/-- What a request line leaves in the variables, also when bytes outside `0x20..0x7E` are
mixed in. -/
theorem content_of_requestLine (s0 : State) (bs f : List Nat)
    (ps : List (List Nat × List Nat)) (hsh : s0.Shaped) (hf : Field FilenameChar f)
    (hn : ps.length ≤ 10) (hps : ∀ p ∈ ps, Field NameChar p.1 ∧ Field ValueChar p.2)
    (hfil : bs.filter (Printable ·) = requestLine f ps) :
    cstr (charProcessAll (charProcessInit s0) bs).1.filename = f ∧
    (charProcessAll (charProcessInit s0) bs).1.cntElements = ps.length ∧
    entries (charProcessAll (charProcessInit s0) bs).1 = ps.map fun p => (p.1, plusToSpace p.2) := by
  obtain ⟨u, h1, h2, h3, h4⟩ := run_requestLine s0 f ps hsh hf hn hps
  rw [← (charProcessAll_filter bs (charProcessInit s0)).1, hfil, h1]
  exact ⟨h2, h3, h4⟩

theorem storedValueChar_plusToSpace {v : List Nat} (h : ∀ c ∈ v, ValueChar c) :
    ∀ c ∈ plusToSpace v, StoredValueChar c := by
  intro c hc
  simp only [plusToSpace, List.mem_map] at hc
  obtain ⟨a, ha, rfl⟩ := hc
  have hv := h a ha
  unfold ValueChar at hv
  unfold StoredValueChar
  by_cases hp : a = '+'.toNat
  · rw [if_pos hp]; exact Or.inr (Or.inr (Or.inr rfl))
  · rw [if_neg hp]
    rcases hv with h1 | h1 | h1 | h1
    · exact Or.inl h1
    · exact Or.inr (Or.inl h1)
    · exact absurd h1 hp
    · exact Or.inr (Or.inr (Or.inl h1))

/-- As long as every call returns `CHARPROC_OK`, what has been accumulated of the current
field consists of characters of its class. -/
theorem accumulating_of_ok (s0 : State) (bs : List Nat) (hsh : s0.Shaped)
    (hok : ∀ x ∈ (charProcessAll (charProcessInit s0) bs).2, x = CHARPROC_OK) :
    Accumulating (charProcessAll (charProcessInit s0) bs).1 := by
  have hp := parsed_run bs _ _ (parsed_init s0) (replicate_of_all_ok _ bs hok)
  have ht := (charProcessAll_filter bs (charProcessInit s0)).1
  have hshape := shaped_run bs _ (show (charProcessInit s0).Shaped from hsh)
  rw [List.nil_append] at hp
  generalize (charProcessAll (charProcessInit s0) bs).1 = t at hp ht hshape ⊢
  generalize bs.filter (Printable ·) = pr at hp ht
  cases hus : t.urlState with
  | urlState_GET => simp only [Accumulating, hus]
  | urlState_filename =>
    simp only [Parsed, hus] at hp
    simp only [Accumulating, hus]
    obtain ⟨-, f, h2, -, h4⟩ := hp
    obtain ⟨u, r, -, -, -, -, -, a6⟩ :=
      runs_filename f { charProcessInit s0 with urlState := urlState_filename } rfl h4.2
        (by simpa [charProcessInit] using h4.1) hsh.1
    simp only [charProcessInit, List.take_zero, List.nil_append] at a6
    have hrun := Runs.append (runs_GET s0) r
    unfold Runs at hrun
    rw [h2, hrun] at ht
    simp only [] at ht
    subst ht
    rw [a6]
    exact h4.2
  | urlState_queryName =>
    simp only [Parsed, hus] at hp
    simp only [Accumulating, hus]
    obtain ⟨f, ps, nm, h1, h2, h3, h4, h5, -, h7⟩ := hp
    rcases Nat.lt_or_ge t.cntElements 10 with hlt | hge
    · obtain ⟨t1, r1, a1, a2, a3, -, a5⟩ := runs_prefix s0 f hsh h2
      obtain ⟨t2, r2, b1, b2, b3, -, b5, -⟩ :=
        runs_pairs_amp ps t1 a1 a2 (by omega) a5 h3
      obtain ⟨t3, r3, -, c2, c3, -, -, -, c7, -⟩ :=
        runs_name nm t2 b1 h7.2 (by rw [b2]; simpa using h7.1) (by omega) b5
      have hrun := Runs.append (Runs.append r1 r2) r3
      unfold Runs at hrun
      rw [h1, hrun] at ht
      simp only [] at ht
      subst ht
      rw [b2] at c7
      simp only [entry, List.take_zero, List.nil_append] at c7
      rw [c3, c7]
      exact h7.2
    · have : t.queryList.getD t.cntElements ⟨[], []⟩ = ⟨[], []⟩ := by
        rw [List.getD_eq_getElem?_getD, List.getElem?_eq_none (by rw [hshape.2.1]; exact hge)]
        rfl
      rw [this]
      simp
  | urlState_queryVal =>
    simp only [Parsed, hus] at hp
    simp only [Accumulating, hus]
    obtain ⟨f, ps, nm, v, h1, h2, h3, h4, h5, h6, -, h8⟩ := hp
    obtain ⟨t1, r1, a1, a2, a3, -, a5⟩ := runs_prefix s0 f hsh h2
    obtain ⟨t2, r2, b1, b2, b3, -, b5, -⟩ :=
      runs_pairs_amp ps t1 a1 a2 (by omega) a5 h3
    obtain ⟨t3, r3, -, c2, c3, -, -, -, -, c8⟩ :=
      runs_pair t2 nm v b1 b2 (by omega) b5 h6 h8
    have hrun := Runs.append (Runs.append r1 r2) r3
    unfold Runs at hrun
    have hpr : pr = bytes "GET /" ++ f ++ bytes "?"
        ++ (ps.flatMap fun p => pairBytes p ++ bytes "&") ++ pairBytes (nm, v) := by
      rw [h1]; simp [pairBytes, List.append_assoc]
    rw [hpr, hrun] at ht
    simp only [] at ht
    subst ht
    simp only [entry] at c8
    rw [c3, c2, c8]
    exact storedValueChar_plusToSpace h8.2

theorem traced_last (s0 : State) (v : Serve) (pre : List (Nat × Int)) (c : Nat) (r : Int)
    (h : Traced s0 v) (hc : v.calls = pre ++ [(c, r)]) :
    (charProcessAll (charProcessInit s0) (pre.map Prod.fst)).2 = pre.map Prod.snd ∧
    (charProcess (charProcessAll (charProcessInit s0) (pre.map Prod.fst)).1 c).st = v.st ∧
    (charProcess (charProcessAll (charProcessInit s0) (pre.map Prod.fst)).1 c).ret = r := by
  unfold Traced at h
  rw [hc, List.map_append, List.map_append, charProcessAll_append] at h
  simp only [List.map_cons, List.map_nil, charProcessAll, Prod.mk.injEq] at h
  obtain ⟨h1, h2⟩ := h
  have hl : (charProcessAll (charProcessInit s0) (pre.map Prod.fst)).2.length
      = (pre.map Prod.snd).length := by
    rw [length_charProcessAll]; simp
  obtain ⟨h3, h4⟩ := List.append_inj h2 hl
  exact ⟨h3, h1, by simpa using h4⟩

theorem all_ok_of_map {pre : List (Nat × Int)} (h : ∀ x ∈ pre, x.2 = CHARPROC_OK) :
    ∀ y ∈ pre.map Prod.snd, y = CHARPROC_OK := by
  intro y hy
  obtain ⟨x, hx, rfl⟩ := List.mem_map.1 hy
  exact h x hx

/-- What the variables hold when `serve_get_request` has not completed a request. -/
theorem serve_accumulating (hd : Htdocs) (s0 : State) (rs : List Recv) (hsh : s0.Shaped)
    (hne : (serve_get_request hd s0 rs).doexit ≠ 100) :
    Accumulating (serve_get_request hd s0 rs).st := by
  have ht := serve_traced hd s0 rs
  have hall : (∀ x ∈ (serve_get_request hd s0 rs).calls, x.2 = CHARPROC_OK) →
      Accumulating (serve_get_request hd s0 rs).st := by
    intro hall
    have hacc := accumulating_of_ok s0 ((serve_get_request hd s0 rs).calls.map Prod.fst) hsh
      (by rw [ht]; exact all_ok_of_map hall)
    rw [ht] at hacc
    exact hacc
  rcases serve_final hd s0 rs with hI | ⟨-, -, ha⟩ | ⟨hF, -⟩ | ⟨hD, -⟩
  · exact hall hI.2.2
  · exact hall ha
  · obtain ⟨-, pre, c, r, hc, hr, hpre⟩ := hF
    obtain ⟨t1, t2, t3⟩ := traced_last s0 _ pre c r ht hc
    have hk := error_keeps _ c (by rw [t3]; exact hr)
    rw [hk] at t2
    simp only [] at t2
    rw [← t2]
    exact accumulating_of_ok s0 (pre.map Prod.fst) hsh (by rw [t1]; exact all_ok_of_map hpre)
  · exact absurd hD.1 hne

/-- What the variables hold when `serve_get_request` has completed a request: the request
line that was read. -/
theorem serve_completed (hd : Htdocs) (s0 : State) (rs : List Recv)
    (hd100 : (serve_get_request hd s0 rs).doexit = 100) :
    ∃ (f : List Nat) (ps : List (List Nat × List Nat)), Field FilenameChar f ∧
      ps.length ≤ 10 ∧ (∀ p ∈ ps, Field NameChar p.1 ∧ Field ValueChar p.2) ∧
      ((serve_get_request hd s0 rs).calls.map Prod.fst).filter (Printable ·)
        = requestLine f ps ∧
      ∀ s1 : State, s1.Shaped →
        (charProcessAll (charProcessInit s1)
          ((serve_get_request hd s0 rs).calls.map Prod.fst)).1
          = (serve_get_request hd s1 rs).st →
        cstr (serve_get_request hd s1 rs).st.filename = f ∧
        (serve_get_request hd s1 rs).st.cntElements = ps.length ∧
        entries (serve_get_request hd s1 rs).st = ps.map fun p => (p.1, plusToSpace p.2) := by
  have ht := serve_traced hd s0 rs
  rcases serve_final hd s0 rs with hI | ⟨h23, -, -⟩ | ⟨hF, -⟩ | ⟨hD, -⟩
  · rw [hI.1] at hd100; exact absurd hd100 (by decide)
  · rcases h23 with h | h <;> rw [h] at hd100 <;> exact absurd hd100 (by decide)
  · rw [hF.1] at hd100; exact absurd hd100 (by decide)
  · obtain ⟨-, pre, c, hc, hpre⟩ := hD
    have hrets : (charProcessAll (charProcessInit s0)
        ((serve_get_request hd s0 rs).calls.map Prod.fst)).2
        = List.replicate (((serve_get_request hd s0 rs).calls.map Prod.fst).length - 1)
            CHARPROC_OK ++ [CHARPROC_FINISHED] := by
      rw [ht, hc]
      simp only [List.map_append, List.map_cons, List.map_nil, List.length_append,
        List.length_map, List.length_singleton, Nat.add_sub_cancel]
      congr 1
      exact List.eq_replicate_iff.2 ⟨by simp, all_ok_of_map hpre⟩
    obtain ⟨-, f, ps, g1, g2, g3, g4⟩ := grammar_of_finished s0 _ hrets
    refine ⟨f, ps, g1, g2, g3, g4, ?_⟩
    intro s1 hs1 hst
    have := content_of_requestLine s1 _ f ps hs1 g1 g2 g3 g4
    rw [hst] at this
    exact this

/-! ## Independence of what an earlier connection left -/

theorem ctl_step (s1 s2 : State) (c : Nat) (h : ctl s1 = ctl s2) :
    (charProcess s1 c).ret = (charProcess s2 c).ret ∧
      ctl (charProcess s1 c).st = ctl (charProcess s2 c).st := by
  obtain ⟨fn1, ql1, us1, k1, m1⟩ := s1
  obtain ⟨fn2, ql2, us2, k2, m2⟩ := s2
  simp only [ctl, Prod.mk.injEq] at h
  obtain ⟨h1, h2, h3⟩ := h
  subst h1 h2 h3
  unfold charProcess
  cases us1 <;> simp only [] <;> split_ifs <;> exact ⟨rfl, rfl⟩

theorem forLoop_sameCalls (hd : Htdocs) (bs : List Nat) : ∀ v w : Serve, SameCalls v w →
    SameCalls (forLoop hd v bs) (forLoop hd w bs) := by
  induction bs with
  | nil => intro v w h; exact h
  | cons c cs ih =>
    intro v w h
    obtain ⟨h1, h2, h3⟩ := h
    obtain ⟨e1, e2⟩ := ctl_step v.st w.st c h1
    simp only [forLoop, e1, h2]
    split_ifs
    · exact ⟨e2, rfl, rfl⟩
    · exact ⟨e2, rfl, rfl⟩
    · exact ih _ _ ⟨e2, rfl, h3⟩

theorem segLoop_sameCalls (hd : Htdocs) (rest : List (List Nat)) : ∀ (buf : List Nat)
    (v w : Serve), SameCalls v w → SameCalls (segLoop hd v buf rest) (segLoop hd w buf rest) := by
  induction rest with
  | nil => intro buf v w h; exact forLoop_sameCalls hd buf v w h
  | cons next more ih =>
    intro buf v w h
    have h1 := forLoop_sameCalls hd buf v w h
    simp only [segLoop, h1.2.2]
    split_ifs
    · exact ih next _ _ h1
    · exact h1

theorem recvLoop_sameCalls (hd : Htdocs) (rs : List Recv) : ∀ v w : Serve, SameCalls v w →
    SameCalls (recvLoop hd v rs) (recvLoop hd w rs) := by
  induction rs with
  | nil => intro v w h; exact h
  | cons r rs ih =>
    intro v w h
    obtain ⟨h1, h2, h3⟩ := h
    cases r with
    | recvErr =>
      simp only [recvLoop]
      rw [if_neg (by decide), if_neg (by decide)]
      exact ⟨h1, h2, rfl⟩
    | connErr b =>
      simp only [recvLoop]
      rw [if_neg (by decide), if_neg (by decide)]
      exact ⟨h1, h2, rfl⟩
    | data b =>
      have hs := segLoop_sameCalls hd b.rest b.first v w ⟨h1, h2, h3⟩
      simp only [recvLoop, hs.2.2]
      split_ifs
      · exact ih _ _ hs
      · exact ⟨hs.1, hs.2.1, rfl⟩

theorem cstr_ne_zero (buf : List Nat) : ∀ c ∈ cstr buf, c ≠ 0 := by
  intro c hc
  have := List.mem_takeWhile_imp hc
  simpa using this

theorem queryLoop_eq (s : State) (k : Nat) : ∀ i : Nat, i + k ≤ s.queryList.length →
    queryLoop s i k = (((s.queryList.drop i).take k).map dec).map queryRow := by
  induction k with
  | zero => intro i _; simp [queryLoop]
  | succ k ih =>
    intro i hi
    have hlt : i < s.queryList.length := by omega
    rw [List.drop_eq_getElem_cons hlt]
    simp only [queryLoop, List.take_succ_cons, List.map_cons]
    rw [ih (i + 1) (by omega)]
    congr 1
    rw [List.getD_eq_getElem _ _ hlt]
    have hz : ∀ c ∈ bytes "<tr><td>" ++ cstr (s.queryList[i]).name ++ bytes " <td>"
        ++ cstr (s.queryList[i]).value ++ bytes "\n", c ≠ 0 := by
      intro c hc
      simp only [List.mem_append] at hc
      rcases hc with (((h | h) | h) | h) | h
      · revert c; decide
      · exact cstr_ne_zero _ c h
      · revert c; decide
      · exact cstr_ne_zero _ c h
      · revert c; decide
    rw [write_strlen _ hz]
    rfl

/-- What `queryShow` writes is decided by `cntElements` and the entries below it. -/
theorem queryShow_eq (s : State) (h : s.cntElements ≤ s.queryList.length) :
    queryShow s = queryTable s.cntElements (entries s) := by
  have hz1 : ∀ c ∈ bytes "Number of elements: " ++ fmtDec s.cntElements ++ bytes "\n",
      c ≠ 0 := by
    intro c hc
    simp only [List.mem_append] at hc
    rcases hc with (h | h) | h
    · revert c; decide
    · exact fmtDec_ne_zero _ c h
    · revert c; decide
  have w1 := write_strlen _ hz1
  have w2 := write_strlen (bytes "<table>\n") (by decide)
  have w3 := write_strlen (bytes "</table>\n") (by decide)
  have hq := queryLoop_eq s s.cntElements 0 (by omega)
  simp only [queryShow, lit, w1, w2, w3, hq, List.drop_zero, queryTable, entries]
  rfl

/-- What `webpageProcess` writes is decided by the C string in `filename`, by `cntElements`
and by the entries below it. -/
theorem webpageProcess_congr (hd : Htdocs) (s1 s2 : State)
    (hf : cstr s1.filename = cstr s2.filename) (hn : s1.cntElements = s2.cntElements)
    (he : entries s1 = entries s2) (h1 : s1.cntElements ≤ s1.queryList.length)
    (h2 : s2.cntElements ≤ s2.queryList.length) :
    webpageProcess hd s1 = webpageProcess hd s2 := by
  have a0 := strncmp_filename s1.filename (bytes "") (by decide) (by decide)
  have a1 := strncmp_filename s1.filename (bytes "index.htm") (by decide) (by decide)
  have a2 := strncmp_filename s1.filename (bytes "credits.htm") (by decide) (by decide)
  have a3 := strncmp_filename s1.filename (bytes "tasks.htm") (by decide) (by decide)
  have a4 := strncmp_filename s1.filename (bytes "lwip.htm") (by decide) (by decide)
  have a5 := strncmp_filename s1.filename (bytes "testform.htm") (by decide) (by decide)
  have a6 := strncmp_filename s1.filename (bytes "test.json") (by decide) (by decide)
  have b0 := strncmp_filename s2.filename (bytes "") (by decide) (by decide)
  have b1 := strncmp_filename s2.filename (bytes "index.htm") (by decide) (by decide)
  have b2 := strncmp_filename s2.filename (bytes "credits.htm") (by decide) (by decide)
  have b3 := strncmp_filename s2.filename (bytes "tasks.htm") (by decide) (by decide)
  have b4 := strncmp_filename s2.filename (bytes "lwip.htm") (by decide) (by decide)
  have b5 := strncmp_filename s2.filename (bytes "testform.htm") (by decide) (by decide)
  have b6 := strncmp_filename s2.filename (bytes "test.json") (by decide) (by decide)
  have q1 := queryShow_eq s1 h1
  have q2 := queryShow_eq s2 h2
  rw [hn, he] at q1
  unfold webpageProcess
  simp only [lit, a0, a1, a2, a3, a4, a5, a6, b0, b1, b2, b3, b4, b5, b6, q1, q2, hf]

/-- The storage keeps its declared shape through `serve_get_request`. -/
theorem serve_shaped (hd : Htdocs) (s0 : State) (rs : List Recv) (h : s0.Shaped) :
    (serve_get_request hd s0 rs).st.Shaped := by
  have ht := serve_traced hd s0 rs
  have := shaped_run ((serve_get_request hd s0 rs).calls.map Prod.fst) _
    (show (charProcessInit s0).Shaped from h)
  rw [ht] at this
  exact this

/-- The calls on the connection, by exit path. -/
theorem final_conn (hd : Htdocs) (v : Serve) (h : Final hd v) :
    v.conn = if v.doexit = 0 then []
      else if v.doexit = 4 then webpageBadProcess ++ [ConnOp.close]
      else if v.doexit = 100 then webpageProcess hd v.st ++ [ConnOp.close]
      else [ConnOp.close] := by
  rcases h with hI | ⟨h23, hc, -⟩ | ⟨hF, hc⟩ | ⟨hD, hc⟩
  · rw [if_pos hI.1]; exact hI.2.1
  · rcases h23 with h | h <;> rw [h, hc] <;> rfl
  · rw [hF.1, hc]; rfl
  · rw [hD.1, hc]; rfl

theorem charset_plain (c : Nat) (h : FilenameChar c ∨ NameChar c ∨ StoredValueChar c) :
    0x20 ≤ c ∧ c ≤ 0x7e ∧ c ≠ '<'.toNat ∧ c ≠ '>'.toNat ∧ c ≠ '&'.toNat ∧ c ≠ '"'.toNat
      ∧ c ≠ '%'.toNat := by
  have e1 : '<'.toNat = 0x3c := rfl
  have e2 : '>'.toNat = 0x3e := rfl
  have e3 : '&'.toNat = 0x26 := rfl
  have e4 : '"'.toNat = 0x22 := rfl
  have e5 : '%'.toNat = 0x25 := rfl
  have e6 : '.'.toNat = 0x2e := rfl
  have e7 : '-'.toNat = 0x2d := rfl
  have e8 : ' '.toNat = 0x20 := rfl
  rw [e1, e2, e3, e4, e5]
  rw [filenameChar_iff, nameChar_iff] at h
  unfold StoredValueChar at h
  rw [alphaNum_iff, e6, e7, e8] at h
  omega

/-! ## The page of the form -/

/-- The writes of `webpageProcess` when `filename` holds `testform.htm`. -/
theorem webpageProcess_testform (hd : Htdocs) (s : State)
    (h : cstr s.filename = bytes "testform.htm") :
    webpageProcess hd s
      = [ConnOp.write (bytes "HTTP/1.0 200 OK\r\n"),
         ConnOp.write (bytes "Server: edyht - based on lwIP\r\n"),
         ConnOp.write (bytes "Content-type: " ++ bytes "text/html" ++ bytes "\r\n\r\n"),
         ConnOp.write hd.htdocs_testform_begin_htm]
        ++ queryShow s ++ [ConnOp.write hd.htdocs_testform_end_htm] := by
  have e0 := strncmp_filename s.filename (bytes "") (by decide) (by decide)
  have e1 := strncmp_filename s.filename (bytes "index.htm") (by decide) (by decide)
  have e2 := strncmp_filename s.filename (bytes "credits.htm") (by decide) (by decide)
  have e3 := strncmp_filename s.filename (bytes "tasks.htm") (by decide) (by decide)
  have e4 := strncmp_filename s.filename (bytes "lwip.htm") (by decide) (by decide)
  have e5 := strncmp_filename s.filename (bytes "testform.htm") (by decide) (by decide)
  unfold webpageProcess
  simp only [lit, e0, e1, e2, e3, e4, e5, write_200ok, write_server, write_content_html, h]
  have n1 : ¬ (bytes "testform.htm" = bytes "" ∨ bytes "testform.htm" = bytes "index.htm") := by
    decide
  have n2 : ¬ bytes "testform.htm" = bytes "credits.htm" := by decide
  have n3 : ¬ bytes "testform.htm" = bytes "tasks.htm" := by decide
  have n4 : ¬ bytes "testform.htm" = bytes "lwip.htm" := by decide
  rw [if_neg n1, if_neg n2, if_neg n3, if_neg n4, if_pos trivial]
  simp [netconn_write]

/-- The lines of the table of at most ten entries with fields of at most 16 characters have
at most 46 characters. -/
theorem queryTable_lines (n : Nat) (es : List (List Nat × List Nat)) (hn : n ≤ 10)
    (hes : ∀ e ∈ es, e.1.length ≤ 16 ∧ e.2.length ≤ 16) :
    ∀ d : List Nat, ConnOp.write d ∈ queryTable n es → d.length ≤ 46 := by
  intro d hd
  have hnum : (fmtDec n).length ≤ 2 := (fmtDec_spec n).2.2.2 2 (by decide) (by omega)
  have b1 : (bytes "Number of elements: ").length = 20 := by decide
  have b2 : (bytes "\n").length = 1 := by decide
  have b3 : (bytes "<table>\n").length = 8 := by decide
  have b4 : (bytes "</table>\n").length = 9 := by decide
  have b5 : (bytes "<tr><td>").length = 8 := by decide
  have b6 : (bytes " <td>").length = 5 := by decide
  unfold queryTable at hd
  simp only [List.mem_append, List.mem_cons, List.mem_singleton, List.mem_map,
    ConnOp.write.injEq, List.not_mem_nil, or_false] at hd
  rcases hd with ((h | h) | ⟨e, he, h⟩) | h
  · rw [h, List.length_append, List.length_append, b1, b2]; omega
  · rw [h, b3]; omega
  · have := hes e he
    unfold queryRow at h
    rw [ConnOp.write.injEq] at h
    rw [← h]
    simp only [List.length_append, b5, b6, b2]
    omega
  · rw [h, b4]; omega

/-! ## Calls that return an error -/

/-- A run of the connection loop in which a call returned an error code made no call after
it, ended with `doexit = 4`, and holds the variables as they were before that call. -/
theorem serve_error_last (hd : Htdocs) (s0 : State) (rs : List Recv)
    (pre post : List (Nat × Int)) (x : Nat × Int)
    (hc : (serve_get_request hd s0 rs).calls = pre ++ x :: post) (hx : x.2 < 0) :
    post = [] ∧ (serve_get_request hd s0 rs).doexit = 4 ∧
      (serve_get_request hd s0 rs).st
        = (charProcessAll (charProcessInit s0) (pre.map Prod.fst)).1 := by
  have hfin := serve_final hd s0 rs
  have hne : x.2 ≠ CHARPROC_OK := by
    intro h0
    rw [h0] at hx
    exact absurd hx (by decide)
  have hp : post = [] := final_terminal_last hd _ hfin pre post x hc hne
  subst hp
  have h4 := (failed_of_negative hd _ hfin ⟨x, by rw [hc]; simp, hx⟩).1
  obtain ⟨-, t2, t3⟩ := traced_last s0 _ pre x.1 x.2 (serve_traced hd s0 rs) hc
  have hk := error_keeps _ x.1 (by rw [t3]; exact hx)
  rw [hk] at t2
  exact ⟨rfl, h4, t2.symm⟩

/-! ## The claims -/

/-- C1: a request line of the grammar, with a filename of at most 16 characters of
`[0-9A-Za-z.]` and at most 10 pairs whose names and values have at most 16 characters of
`[0-9A-Za-z._]` and `[0-9A-Za-z.+-]`, fed byte by byte from the state `charProcessInit` leaves,
returns `CHARPROC_OK` on every byte but the last and `CHARPROC_FINISHED` on the last; then
`filename` holds the filename, `cntElements` is the number of pairs, and
`queryList[0..cntElements-1]` holds the pairs in the order sent, each value with `'+'` replaced
by a space. -/
theorem c1_request_line_parsed (s0 : State) (f : List Nat) (ps : List (List Nat × List Nat))
    (hsh : s0.Shaped) (hf : Field FilenameChar f) (hn : ps.length ≤ 10)
    (hps : ∀ p ∈ ps, Field NameChar p.1 ∧ Field ValueChar p.2) :
    (charProcessAll (charProcessInit s0) (requestLine f ps)).2
        = List.replicate ((requestLine f ps).length - 1) CHARPROC_OK ++ [CHARPROC_FINISHED] ∧
      cstr (charProcessAll (charProcessInit s0) (requestLine f ps)).1.filename = f ∧
      (charProcessAll (charProcessInit s0) (requestLine f ps)).1.cntElements = ps.length ∧
      entries (charProcessAll (charProcessInit s0) (requestLine f ps)).1
        = ps.map fun p => (p.1, plusToSpace p.2) := by
  obtain ⟨u, h1, h2, h3, h4⟩ := run_requestLine s0 f ps hsh hf hn hps
  rw [h1]
  exact ⟨rfl, h2, h3, h4⟩

/-- C1, on `GET /testform.htm?a=1&b=two ` from zeroed storage; and `a+b` is stored as `a b`. -/
theorem c1_request_line_parsed_witness :
    requestLine (bytes "testform.htm") [(bytes "a", bytes "1"), (bytes "b", bytes "two")]
        = bytes "GET /testform.htm?a=1&b=two " ∧
      plusToSpace (bytes "a+b") = bytes "a b" ∧
      State.zero.Shaped ∧ Field FilenameChar (bytes "testform.htm") ∧
      (charProcessAll (charProcessInit State.zero)
          (requestLine (bytes "testform.htm")
            [(bytes "a", bytes "1"), (bytes "b", bytes "two")])).2
        = List.replicate
            ((requestLine (bytes "testform.htm")
              [(bytes "a", bytes "1"), (bytes "b", bytes "two")]).length - 1) CHARPROC_OK
          ++ [CHARPROC_FINISHED] ∧
      cstr (charProcessAll (charProcessInit State.zero)
          (requestLine (bytes "testform.htm")
            [(bytes "a", bytes "1"), (bytes "b", bytes "two")])).1.filename
        = bytes "testform.htm" ∧
      (charProcessAll (charProcessInit State.zero)
          (requestLine (bytes "testform.htm")
            [(bytes "a", bytes "1"), (bytes "b", bytes "two")])).1.cntElements
        = [(bytes "a", bytes "1"), (bytes "b", bytes "two")].length ∧
      entries (charProcessAll (charProcessInit State.zero)
          (requestLine (bytes "testform.htm")
            [(bytes "a", bytes "1"), (bytes "b", bytes "two")])).1
        = [(bytes "a", bytes "1"), (bytes "b", bytes "two")].map
            fun p => (p.1, plusToSpace p.2) :=
  ⟨by decide, by decide, by decide, by decide,
    c1_request_line_parsed State.zero (bytes "testform.htm")
      [(bytes "a", bytes "1"), (bytes "b", bytes "two")]
      (by decide) (by decide) (by decide) (by decide)⟩

/-- C2: completion happens only on grammar strings. If every byte but the last returns
`CHARPROC_OK` and the last returns `CHARPROC_FINISHED`, the last byte is a space and the bytes
in `0x20..0x7E` form `GET /` filename, an optional `?` with at most 10 `name=value` pairs
joined by `&`, and a space, each field of its class and at most 16 characters long; and no call
in `urlState_GET` or `urlState_queryName` returns `CHARPROC_FINISHED`. -/
theorem c2_completion_only_on_grammar (s0 : State) (bs : List Nat)
    (h : (charProcessAll (charProcessInit s0) bs).2
      = List.replicate (bs.length - 1) CHARPROC_OK ++ [CHARPROC_FINISHED]) :
    bs.getLast? = some 0x20 ∧
    (∃ (f : List Nat) (ps : List (List Nat × List Nat)), Field FilenameChar f ∧
      ps.length ≤ 10 ∧ (∀ p ∈ ps, Field NameChar p.1 ∧ Field ValueChar p.2) ∧
      bs.filter (Printable ·) = requestLine f ps) ∧
    ∀ (s : State) (c : Nat), s.urlState = urlState_GET ∨ s.urlState = urlState_queryName →
      (charProcess s c).ret ≠ CHARPROC_FINISHED := by
  obtain ⟨h1, h2⟩ := grammar_of_finished s0 bs h
  refine ⟨h1, h2, ?_⟩
  intro s c hs hr
  obtain ⟨-, hf⟩ := finished_only s c hr
  rcases hs with hs | hs <;> rw [hs] at hf <;> simp at hf

/-- C2, on `GET /a.b?x=1+2 ` with a carriage return and a line feed thrown in. -/
theorem c2_completion_only_on_grammar_witness :
    (charProcessAll (charProcessInit State.zero) (bytes "GET /a.b\r?x=1+2\n ")).2
        = List.replicate ((bytes "GET /a.b\r?x=1+2\n ").length - 1) CHARPROC_OK
          ++ [CHARPROC_FINISHED] ∧
      ((bytes "GET /a.b\r?x=1+2\n ").getLast? = some 0x20 ∧
      (∃ (f : List Nat) (ps : List (List Nat × List Nat)), Field FilenameChar f ∧
        ps.length ≤ 10 ∧ (∀ p ∈ ps, Field NameChar p.1 ∧ Field ValueChar p.2) ∧
        (bytes "GET /a.b\r?x=1+2\n ").filter (Printable ·) = requestLine f ps) ∧
      ∀ (s : State) (c : Nat), s.urlState = urlState_GET ∨ s.urlState = urlState_queryName →
        (charProcess s c).ret ≠ CHARPROC_FINISHED) :=
  ⟨by decide, c2_completion_only_on_grammar State.zero (bytes "GET /a.b\r?x=1+2\n ") (by decide)⟩

/-- C3, as stated, fails: the line feed `0x0A` differs from `'G'`, yet as first byte it is
answered by `CHARPROC_OK`, not by `CHARPROC_ERR_REQUEST`. -/
theorem c3_counterexample :
    (0 < 5 ∧ [0x0a].take 0 = (bytes "GET /").take 0
      ∧ [0x0a].getD 0 0 ≠ (bytes "GET /").getD 0 0) ∧
    (charProcessAll (charProcessInit State.zero) [0x0a]).2.take (0 + 1) = [CHARPROC_OK] ∧
    (charProcessAll (charProcessInit State.zero) [0x0a]).2.take (0 + 1)
      ≠ List.replicate 0 CHARPROC_OK ++ [CHARPROC_ERR_REQUEST] := by
  decide

/-- C3, amended: if the bytes before position `i < 5` are the first `i` bytes of `GET /` and
byte `i` is a byte in `0x20..0x7E` that differs from character `i` of `GET /`, the calls before
`i` return `CHARPROC_OK` and the call at `i` returns `CHARPROC_ERR_REQUEST`. -/
theorem c3_bad_request_at_printable_mismatch (s0 : State) (bs : List Nat) (i : Nat)
    (hi : i < 5) (hlen : i < bs.length) (hpre : bs.take i = (bytes "GET /").take i)
    (hp : Printable (bs.getD i 0)) (hne : bs.getD i 0 ≠ (bytes "GET /").getD i 0) :
    (charProcessAll (charProcessInit s0) bs).2.take (i + 1)
      = List.replicate i CHARPROC_OK ++ [CHARPROC_ERR_REQUEST] :=
  bad_request_at_mismatch s0 bs i hi hlen hpre hp hne

/-- C3 amended, on `XET /x `: the first byte is answered by `CHARPROC_ERR_REQUEST`. -/
theorem c3_bad_request_at_printable_mismatch_witness :
    Printable ((bytes "XET /x ").getD 0 0) ∧
      (bytes "XET /x ").getD 0 0 ≠ (bytes "GET /").getD 0 0 ∧
      (charProcessAll (charProcessInit State.zero) (bytes "XET /x ")).2.take (0 + 1)
        = List.replicate 0 CHARPROC_OK ++ [CHARPROC_ERR_REQUEST] :=
  ⟨by decide, by decide,
    c3_bad_request_at_printable_mismatch State.zero (bytes "XET /x ") 0 (by decide) (by decide)
      (by decide) (by decide) (by decide)⟩

/-- C4: in `urlState_filename`, `urlState_queryName` and `urlState_queryVal`, with
`cntChar = 16`, a further character of the field's class returns `CHARPROC_ERR_OWFL`, stores
nothing and changes no variable; and whatever bytes are fed from the initial state, no call
stores at an index above 16. -/
theorem c4_overflow_at_17th (s : State) (c : Nat) (h16 : s.cntChar = 16)
    (h : (s.urlState = urlState_filename ∧ FilenameChar c)
      ∨ (s.urlState = urlState_queryName ∧ NameChar c)
      ∨ (s.urlState = urlState_queryVal ∧ ValueChar c)) :
    charProcess s c = ⟨s, CHARPROC_ERR_OWFL, none⟩ ∧
    ∀ (s0 : State) (bs : List Nat) (c1 : Nat) (w : Write),
      (charProcess (charProcessAll (charProcessInit s0) bs).1 c1).wr = some w → w.idx ≤ 16 := by
  refine ⟨overflow_at_17 s c h16 h, ?_⟩
  intro s0 bs c1 w hw
  rw [wr_idx _ _ _ hw]
  exact cntChar_le_run bs (charProcessInit s0) (by simp [charProcessInit])

/-- C4, after `GET /0123456789abcdef` from zeroed storage, on the 17th character `g`. -/
theorem c4_overflow_at_17th_witness :
    (charProcessAll (charProcessInit State.zero) (bytes "GET /0123456789abcdef")).1.cntChar = 16 ∧
      charProcess (charProcessAll (charProcessInit State.zero) (bytes "GET /0123456789abcdef")).1
          'g'.toNat
        = ⟨(charProcessAll (charProcessInit State.zero) (bytes "GET /0123456789abcdef")).1,
            CHARPROC_ERR_OWFL, none⟩ ∧
      ∀ (s0 : State) (bs : List Nat) (c1 : Nat) (w : Write),
        (charProcess (charProcessAll (charProcessInit s0) bs).1 c1).wr = some w → w.idx ≤ 16 :=
  ⟨by decide,
    c4_overflow_at_17th
      (charProcessAll (charProcessInit State.zero) (bytes "GET /0123456789abcdef")).1 'g'.toNat
      (by decide) (Or.inl ⟨by decide, by decide⟩)⟩

/-- C5: after `GET /` filename `?` and ten complete pairs joined by `'&'`, a further `'&'` is
still accepted, and then every byte in `0x20..0x7E` returns `CHARPROC_ERR_OWFL`, stores nothing
and changes no variable; the same ten pairs followed by a space return `CHARPROC_FINISHED` with
`cntElements = 10`. -/
theorem c5_eleventh_pair_overflows (s0 : State) (f : List Nat)
    (ps : List (List Nat × List Nat)) (c : Nat) (hsh : s0.Shaped) (hf : Field FilenameChar f)
    (hn : ps.length = 10) (hps : ∀ p ∈ ps, Field NameChar p.1 ∧ Field ValueChar p.2)
    (hp : Printable c) :
    (charProcessAll (charProcessInit s0)
        (bytes "GET /" ++ f ++ bytes "?" ++ (bytes "&").intercalate (ps.map pairBytes)
          ++ bytes "&")).2
      = List.replicate
          (bytes "GET /" ++ f ++ bytes "?" ++ (bytes "&").intercalate (ps.map pairBytes)
            ++ bytes "&").length CHARPROC_OK ∧
    charProcess (charProcessAll (charProcessInit s0)
        (bytes "GET /" ++ f ++ bytes "?" ++ (bytes "&").intercalate (ps.map pairBytes)
          ++ bytes "&")).1 c
      = ⟨(charProcessAll (charProcessInit s0)
          (bytes "GET /" ++ f ++ bytes "?" ++ (bytes "&").intercalate (ps.map pairBytes)
            ++ bytes "&")).1, CHARPROC_ERR_OWFL, none⟩ ∧
    (charProcessAll (charProcessInit s0)
        (bytes "GET /" ++ f ++ bytes "?" ++ (bytes "&").intercalate (ps.map pairBytes)
          ++ bytes " ")).2.getLast? = some CHARPROC_FINISHED ∧
    (charProcessAll (charProcessInit s0)
        (bytes "GET /" ++ f ++ bytes "?" ++ (bytes "&").intercalate (ps.map pairBytes)
          ++ bytes " ")).1.cntElements = 10 := by
  obtain ⟨t, r, h1, h2⟩ := runs_ten_amp s0 f ps hsh hf hn hps
  obtain ⟨u, g1, -, g3, -⟩ := run_requestLine s0 f ps hsh hf (by omega) hps
  have hne : ps ≠ [] := by
    intro h0; subst h0; simp at hn
  have hreq : requestLine f ps
      = bytes "GET /" ++ f ++ bytes "?" ++ (bytes "&").intercalate (ps.map pairBytes)
          ++ bytes " " := by
    simp only [requestLine, if_neg hne, List.append_assoc]
  rw [hreq] at g1
  unfold Runs at r
  rw [r, g1]
  exact ⟨rfl, charProcess_list_full t c h1 (by omega) hp, by simp, by rw [g3, hn]⟩

/-- C5, on the filename `x` and ten pairs `a=1`, with `b` as the byte that would begin the
eleventh name. -/
theorem c5_eleventh_pair_overflows_witness :
    (List.replicate 10 (bytes "a", bytes "1")).length = 10 ∧ Printable 'b'.toNat ∧
    charProcess (charProcessAll (charProcessInit State.zero)
        (bytes "GET /" ++ bytes "x" ++ bytes "?"
          ++ (bytes "&").intercalate ((List.replicate 10 (bytes "a", bytes "1")).map pairBytes)
          ++ bytes "&")).1 'b'.toNat
      = ⟨(charProcessAll (charProcessInit State.zero)
          (bytes "GET /" ++ bytes "x" ++ bytes "?"
            ++ (bytes "&").intercalate
                ((List.replicate 10 (bytes "a", bytes "1")).map pairBytes)
            ++ bytes "&")).1, CHARPROC_ERR_OWFL, none⟩ ∧
    (charProcessAll (charProcessInit State.zero)
        (bytes "GET /" ++ bytes "x" ++ bytes "?"
          ++ (bytes "&").intercalate ((List.replicate 10 (bytes "a", bytes "1")).map pairBytes)
          ++ bytes " ")).1.cntElements = 10 :=
  ⟨by decide, by decide,
    (c5_eleventh_pair_overflows State.zero (bytes "x") (List.replicate 10 (bytes "a", bytes "1"))
      'b'.toNat (by decide) (by decide) (by decide) (by decide) (by decide)).2.1,
    (c5_eleventh_pair_overflows State.zero (bytes "x") (List.replicate 10 (bytes "a", bytes "1"))
      'b'.toNat (by decide) (by decide) (by decide) (by decide) (by decide)).2.2.2⟩

/-- C6: a byte outside `0x20..0x7E` returns `CHARPROC_OK`, stores nothing and leaves
`urlState`, `cntChar`, `cntElements`, `filename` and `queryList` as they were; so a byte
sequence and the same sequence without such bytes leave the same variables and return the same
codes other than `CHARPROC_OK`, and `serve_get_request` ends with the same variables, the same
calls on the connection and the same `doexit` on both. -/
theorem c6_nonprintable_ignored (s : State) (c : Nat) (h : ¬ Printable c) :
    charProcess s c = ⟨s, CHARPROC_OK, none⟩ ∧
    (∀ (t : State) (bs : List Nat),
      (charProcessAll t (bs.filter (Printable ·))).1 = (charProcessAll t bs).1 ∧
      (charProcessAll t (bs.filter (Printable ·))).2.filter (· ≠ CHARPROC_OK)
        = (charProcessAll t bs).2.filter (· ≠ CHARPROC_OK)) ∧
    ∀ (hd : Htdocs) (t : State) (rs : List Recv),
      (serve_get_request hd t (rs.map Recv.strip)).st = (serve_get_request hd t rs).st ∧
      (serve_get_request hd t (rs.map Recv.strip)).conn = (serve_get_request hd t rs).conn ∧
      (serve_get_request hd t (rs.map Recv.strip)).doexit
        = (serve_get_request hd t rs).doexit :=
  ⟨charProcess_skip s c h, fun t bs => charProcessAll_filter bs t,
    fun hd _ rs => recvLoop_strip hd rs _ _ ⟨rfl, rfl, rfl⟩⟩

/-- C6, on a carriage return in the middle of a query value. -/
theorem c6_nonprintable_ignored_witness :
    ¬ Printable 0x0d ∧
    charProcess (charProcessAll (charProcessInit State.zero) (bytes "GET /a?x=1")).1 0x0d
      = ⟨(charProcessAll (charProcessInit State.zero) (bytes "GET /a?x=1")).1, CHARPROC_OK,
          none⟩ :=
  ⟨by decide,
    (c6_nonprintable_ignored
      (charProcessAll (charProcessInit State.zero) (bytes "GET /a?x=1")).1 0x0d (by decide)).1⟩

/-- C7: fragmentation invariance. Two sequences of received netbufs that carry the same bytes
in the same order, however cut into netbufs and segments (empty ones included) and whatever
the transport does after them, make `serve_get_request` call `charProcess` on the same bytes
with the same results and end with the same variables, the same calls on the connection and
the same `doexit`. -/
theorem c7_fragmentation_invariance (hd : Htdocs) (s : State) (c1 c2 : List Netbuf)
    (rest : List Recv) (h : c1.flatMap Netbuf.bytes = c2.flatMap Netbuf.bytes) :
    serve_get_request hd s (c1.map Recv.data ++ rest)
      = serve_get_request hd s (c2.map Recv.data ++ rest) := by
  unfold serve_get_request
  rw [recvLoop_data hd c1 rest _ rfl, recvLoop_data hd c2 rest _ rfl, h]

/-- C7, on `GET /index.htm ` as one chunk and as fifteen chunks of one byte. -/
theorem c7_fragmentation_invariance_witness :
    ((bytes "GET /index.htm ").map fun b => (⟨[b], []⟩ : Netbuf)).length = 15 ∧
    serve_get_request Htdocs.sample State.zero
        ([(⟨bytes "GET /index.htm ", []⟩ : Netbuf)].map Recv.data ++ [])
      = serve_get_request Htdocs.sample State.zero
          (((bytes "GET /index.htm ").map fun b => (⟨[b], []⟩ : Netbuf)).map Recv.data ++ []) :=
  ⟨by decide,
    c7_fragmentation_invariance Htdocs.sample State.zero [⟨bytes "GET /index.htm ", []⟩]
      ((bytes "GET /index.htm ").map fun b => ⟨[b], []⟩) [] (by decide)⟩

/-- C8: page lookup is an exact match. Whatever `filename` holds, the bytes `webpageProcess`
sends start with `HTTP/1.0 200 OK\r\n` if and only if the C string in `filename` is one of
the empty string, `index.htm`, `credits.htm`, `tasks.htm`, `lwip.htm`, `testform.htm`,
`test.json`, and with `HTTP/1.0 404 File not found\r\n` otherwise; every known name is shorter
than 16 characters, so no 16-character filename matches; and `GET /nofile.xyz ` is answered
by the 404 status line. -/
theorem c8_page_lookup_exact (hd : Htdocs) (s : State) :
    (bytes "HTTP/1.0 200 OK\r\n" <+: sent (webpageProcess hd s)
      ↔ cstr s.filename ∈ knownPages) ∧
    (cstr s.filename ∈ knownPages
      ∨ bytes "HTTP/1.0 404 File not found\r\n" <+: sent (webpageProcess hd s)) ∧
    (∀ f ∈ knownPages, f.length < 16) ∧
    bytes "HTTP/1.0 404 File not found\r\n" <+:
      sent (serve_get_request Htdocs.sample State.zero
        [Recv.data ⟨bytes "GET /nofile.xyz ", []⟩]).conn := by
  obtain ⟨payload, hw⟩ := webpageProcess_header hd s
  refine ⟨?_, ?_, by decide, by decide⟩
  · rw [hw]
    constructor
    · intro hpre
      by_contra hk
      rw [if_neg hk] at hpre
      have h404 : bytes "HTTP/1.0 404 File not found\r\n"
          <+: sent (ConnOp.write (bytes "HTTP/1.0 404 File not found\r\n")
                :: ConnOp.write (bytes "Server: edyht - based on lwIP\r\n")
                :: ConnOp.write (bytes "Content-type: "
                    ++ (if cstr s.filename = bytes "test.json" then bytes "application/json"
                        else bytes "text/html") ++ bytes "\r\n\r\n")
                :: payload) := List.prefix_append _ _
      have := List.prefix_of_prefix_length_le hpre h404 (by decide)
      exact absurd this (by decide)
    · intro hk
      rw [if_pos hk]
      exact List.prefix_append _ _
  · by_cases hk : cstr s.filename ∈ knownPages
    · exact Or.inl hk
    · right
      rw [hw, if_neg hk]
      exact List.prefix_append _ _

/-- C9: whenever some call of `charProcess` made by `serve_get_request` returns a negative
code, the calls on the connection are exactly: the writes of `HTTP/1.0 400 Bad Request\r\n`,
of the server line, of `Content-type: text/plain\r\n\r\n` and of `ERR\n`, then the close;
`doexit` is 4, and no write is the first write of `webpageProcess`. -/
theorem c9_error_response (hd : Htdocs) (s : State) (rs : List Recv)
    (h : ∃ c ∈ (serve_get_request hd s rs).calls, c.2 < 0) :
    (serve_get_request hd s rs).conn
      = [ConnOp.write (bytes "HTTP/1.0 400 Bad Request\r\n"),
         ConnOp.write (bytes "Server: edyht - based on lwIP\r\n"),
         ConnOp.write (bytes "Content-type: text/plain\r\n\r\n"),
         ConnOp.write (bytes "ERR\n"), ConnOp.close] ∧
    (serve_get_request hd s rs).doexit = 4 ∧
    ∀ t : State, ∀ op ∈ (serve_get_request hd s rs).conn,
      (webpageProcess hd t).head? ≠ some op := by
  obtain ⟨h1, h2⟩ := failed_of_negative hd _ (serve_final hd s rs) h
  have hbad : webpageBadProcess ++ [ConnOp.close]
      = [ConnOp.write (bytes "HTTP/1.0 400 Bad Request\r\n"),
         ConnOp.write (bytes "Server: edyht - based on lwIP\r\n"),
         ConnOp.write (bytes "Content-type: text/plain\r\n\r\n"),
         ConnOp.write (bytes "ERR\n"), ConnOp.close] := by
    decide
  rw [h2, hbad]
  refine ⟨rfl, h1, ?_⟩
  intro t op hop
  obtain ⟨payload, hw⟩ := webpageProcess_header hd t
  rw [hw, List.head?_cons]
  intro heq
  have heq2 := Option.some.inj heq
  subst heq2
  revert hop
  split_ifs <;> decide

/-- C9, on `XET /x ` received as one chunk. -/
theorem c9_error_response_witness :
    (∃ c ∈ (serve_get_request Htdocs.sample State.zero
        [Recv.data ⟨bytes "XET /x ", []⟩]).calls, c.2 < 0) ∧
    (serve_get_request Htdocs.sample State.zero [Recv.data ⟨bytes "XET /x ", []⟩]).conn
      = [ConnOp.write (bytes "HTTP/1.0 400 Bad Request\r\n"),
         ConnOp.write (bytes "Server: edyht - based on lwIP\r\n"),
         ConnOp.write (bytes "Content-type: text/plain\r\n\r\n"),
         ConnOp.write (bytes "ERR\n"), ConnOp.close] :=
  ⟨by decide,
    (c9_error_response Htdocs.sample State.zero [Recv.data ⟨bytes "XET /x ", []⟩]
      (by decide)).1⟩

/-- C10: whatever `filename` holds, `webpageProcess` first writes a status line, which is
`HTTP/1.0 200 OK\r\n` or `HTTP/1.0 404 File not found\r\n`, then the server line
`http_server`, then a content-type line ending in `\r\n\r\n`, which is `application/json` when
the filename is `test.json` and `text/html` in every other case; the payload follows. -/
theorem c10_response_header (hd : Htdocs) (s : State) :
    ∃ (status ctype : List Nat) (payload : List ConnOp),
      webpageProcess hd s
        = ConnOp.write status :: ConnOp.write http_server :: ConnOp.write ctype :: payload ∧
      (status = bytes "HTTP/1.0 200 OK\r\n"
        ∨ status = bytes "HTTP/1.0 404 File not found\r\n") ∧
      http_server = bytes "Server: edyht - based on lwIP\r\n" ∧
      ctype = bytes "Content-type: "
        ++ (if cstr s.filename = bytes "test.json" then bytes "application/json"
            else bytes "text/html") ++ bytes "\r\n\r\n" := by
  obtain ⟨payload, hw⟩ := webpageProcess_header hd s
  have hsrv : http_server = bytes "Server: edyht - based on lwIP\r\n" := by decide
  refine ⟨if cstr s.filename ∈ knownPages then bytes "HTTP/1.0 200 OK\r\n"
      else bytes "HTTP/1.0 404 File not found\r\n", _, payload, ?_, ?_, hsrv, rfl⟩
  · rw [hsrv]; exact hw
  · split_ifs
    · exact Or.inl rfl
    · exact Or.inr rfl

/-- C11: each wire constant is the ASCII text it is documented to be, and its declared
length is the number of bytes of its array: the three status lines (17, 26, 29), the server
line (31) and the six content-type lines (27, 26, 27, 34, 33, 28). -/
theorem c11_wire_constants :
    (http_200ok = bytes "HTTP/1.0 200 OK\r\n" ∧ http_200ok_len = http_200ok.length
      ∧ http_200ok_len = 17) ∧
    (http_400bad = bytes "HTTP/1.0 400 Bad Request\r\n" ∧ http_400bad_len = http_400bad.length
      ∧ http_400bad_len = 26) ∧
    (http_404fnf = bytes "HTTP/1.0 404 File not found\r\n"
      ∧ http_404fnf_len = http_404fnf.length ∧ http_404fnf_len = 29) ∧
    (http_server = bytes "Server: edyht - based on lwIP\r\n"
      ∧ http_server_len = http_server.length ∧ http_server_len = 31) ∧
    (http_content_html = bytes "Content-type: " ++ bytes "text/html" ++ bytes "\r\n\r\n"
      ∧ http_content_html_len = http_content_html.length ∧ http_content_html_len = 27) ∧
    (http_content_csv = bytes "Content-type: " ++ bytes "text/csv" ++ bytes "\r\n\r\n"
      ∧ http_content_csv_len = http_content_csv.length ∧ http_content_csv_len = 26) ∧
    (http_content_png = bytes "Content-type: " ++ bytes "image/png" ++ bytes "\r\n\r\n"
      ∧ http_content_png_len = http_content_png.length ∧ http_content_png_len = 27) ∧
    (http_content_json = bytes "Content-type: " ++ bytes "application/json" ++ bytes "\r\n\r\n"
      ∧ http_content_json_len = http_content_json.length ∧ http_content_json_len = 34) ∧
    (http_content_js = bytes "Content-type: " ++ bytes "text/javascript" ++ bytes "\r\n\r\n"
      ∧ http_content_js_len = http_content_js.length ∧ http_content_js_len = 33) ∧
    (http_content_plain = bytes "Content-type: " ++ bytes "text/plain" ++ bytes "\r\n\r\n"
      ∧ http_content_plain_len = http_content_plain.length ∧ http_content_plain_len = 28) := by
  refine ⟨?_, ?_, ?_, ?_, ?_, ?_, ?_, ?_, ?_, ?_⟩ <;> decide

/-- C12, as stated, fails on zeroed storage holding the filename `test.json`: the payload
after the three header writes starts with an opening brace and a line feed, not with
`\x7b"val":[`, and the numbers start `1,1,2,3`, not `1,2,2,3`. -/
theorem c12_counterexample :
    cstr ({ State.zero with filename := lit "test.json" }).filename = bytes "test.json" ∧
    (sent ((webpageProcess Htdocs.sample
        { State.zero with filename := lit "test.json" }).drop 3)).take 8
      = bytes "\x7b\n\"val\":" ∧
    (sent ((webpageProcess Htdocs.sample
        { State.zero with filename := lit "test.json" }).drop 3)).take 8
      ≠ bytes "\x7b\"val\":[" ∧
    ((sent ((webpageProcess Htdocs.sample
        { State.zero with filename := lit "test.json" }).drop 3)).drop 9).take 7
      = bytes "1,1,2,3" ∧
    bytes "1,1,2,3" ≠ bytes "1,2,2,3" := by
  decide

/-- C12, amended: when `filename` holds `test.json`, `webpageProcess` writes the three header
lines and then a payload whose bytes are exactly an opening brace, a line feed and `"val":[`,
then the 1000 array elements in decimal separated by single commas, then `]`, a line feed and
a closing brace; the elements begin 1, 1, 2, 3. -/
theorem c12_test_json_body (hd : Htdocs) (s : State)
    (h : cstr s.filename = bytes "test.json") :
    (webpageProcess hd s).take 3
      = [ConnOp.write (bytes "HTTP/1.0 200 OK\r\n"),
         ConnOp.write (bytes "Server: edyht - based on lwIP\r\n"),
         ConnOp.write (bytes "Content-type: " ++ bytes "application/json" ++ bytes "\r\n\r\n")] ∧
    sent ((webpageProcess hd s).drop 3)
      = bytes "\x7b\n\"val\":["
        ++ (bytes ",").intercalate ((List.range 1000).map fun i => fmtDec (i / 2 + 1 + i / 3))
        ++ bytes "]\n\x7d" ∧
    ((List.range 1000).map fun i => i / 2 + 1 + i / 3).take 4 = [1, 1, 2, 3] ∧
    ((List.range 1000).map fun i => fmtDec (i / 2 + 1 + i / 3)).take 4
      = [bytes "1", bytes "1", bytes "2", bytes "3"] := by
  rw [webpageProcess_test_json hd s h]
  have t1 : ((List.range 1000).map fun i => i / 2 + 1 + i / 3).take 4 = [1, 1, 2, 3] := by
    rw [← List.map_take, List.take_range]; decide
  have t2 : ((List.range 1000).map fun i => fmtDec (i / 2 + 1 + i / 3)).take 4
      = [bytes "1", bytes "1", bytes "2", bytes "3"] := by
    rw [← List.map_take, List.take_range]; decide
  refine ⟨rfl, ?_, t1, t2⟩
  have hs : ∀ (a : List Nat) (l m : List ConnOp),
      sent (ConnOp.write a :: (l ++ m)) = a ++ sent l ++ sent m := by
    intro a l m
    induction l with
    | nil => simp [sent]
    | cons x l ih =>
      cases x with
      | write d => simp [sent] at ih ⊢; exact ih
      | close => simp [sent] at ih ⊢; exact ih
  show sent (ConnOp.write (bytes "\x7b\n\"val\":[")
    :: (arrayProcess ++ [ConnOp.write (bytes "]\n\x7d")])) = _
  rw [hs, arrayProcess_eq.2]
  simp [sent, arrayVal]

/-- C12 amended, on zeroed storage holding the filename `test.json`. -/
theorem c12_test_json_body_witness :
    cstr ({ State.zero with filename := lit "test.json" }).filename = bytes "test.json" ∧
    sent ((webpageProcess Htdocs.sample { State.zero with filename := lit "test.json" }).drop 3)
      = bytes "\x7b\n\"val\":["
        ++ (bytes ",").intercalate ((List.range 1000).map fun i => fmtDec (i / 2 + 1 + i / 3))
        ++ bytes "]\n\x7d" :=
  ⟨by decide,
    (c12_test_json_body Htdocs.sample { State.zero with filename := lit "test.json" }
      (by decide)).2.1⟩

/-- C13, as stated, fails: on chunks that each carry one carriage return the loop never
ends, however many arrive, and the connection is never closed. -/
theorem c13_counterexample :
    ¬ ∃ n : Nat,
      (serve_get_request Htdocs.sample State.zero
          (List.replicate n (Recv.data ⟨[0x0d], []⟩))).doexit ≠ 0
      ∨ ConnOp.close ∈ (serve_get_request Htdocs.sample State.zero
          (List.replicate n (Recv.data ⟨[0x0d], []⟩))).conn := by
  rintro ⟨n, hn⟩
  have hrep : List.replicate n (Recv.data ⟨[0x0d], []⟩)
      = (List.replicate n (⟨[0x0d], []⟩ : Netbuf)).map Recv.data ++ [] := by
    simp
  have hall : ∀ x ∈ (charProcessAll (charProcessInit State.zero)
      ((List.replicate n (⟨[0x0d], []⟩ : Netbuf)).flatMap Netbuf.bytes)).2,
      x = CHARPROC_OK := by
    apply skip_all
    intro c hc
    simp only [List.mem_flatMap, List.mem_replicate] at hc
    obtain ⟨b, ⟨-, hb⟩, hcb⟩ := hc
    subst hb
    have : c = 0x0d := by simpa [Netbuf.bytes] using hcb
    subst this
    decide
  obtain ⟨w, hw, he⟩ := (serve_data Htdocs.sample State.zero _ [] ).1 hall
  rw [hrep, he] at hn
  simp only [recvLoop] at hn
  rcases hn with h | h
  · exact h hw.1
  · rw [hw.2.1] at h; simp at h

/-- C13, amended: for every sequence of transport results that contains a receive failure
(time-out included) or a connection error, or whose leading data chunks carry a byte on which
`charProcess` returns a code other than `CHARPROC_OK`, the loop has ended, `netconn_close`
was called exactly once and after every write, and `doexit` is 100, 4, 3 or 2; and whatever
the transport results, a run still in the loop has made no call on the connection. -/
theorem c13_closed_exactly_once (hd : Htdocs) (s : State) (rs : List Recv)
    (h : (∃ r ∈ rs, r = Recv.recvErr ∨ ∃ b, r = Recv.connErr b)
      ∨ ∃ (nbs : List Netbuf) (rest : List Recv), rs = nbs.map Recv.data ++ rest ∧
          ∃ x ∈ (charProcessAll (charProcessInit s) (nbs.flatMap Netbuf.bytes)).2,
            x ≠ CHARPROC_OK) :
    (serve_get_request hd s rs).doexit ≠ 0 ∧
    (serve_get_request hd s rs).conn.count ConnOp.close = 1 ∧
    (serve_get_request hd s rs).conn.getLast? = some ConnOp.close ∧
    ((serve_get_request hd s rs).doexit = 100 ∨ (serve_get_request hd s rs).doexit = 4
      ∨ (serve_get_request hd s rs).doexit = 3 ∨ (serve_get_request hd s rs).doexit = 2) ∧
    ∀ rs1 : List Recv, (serve_get_request hd s rs1).doexit = 0 →
      (serve_get_request hd s rs1).conn = [] := by
  have hne : (serve_get_request hd s rs).doexit ≠ 0 := by
    rcases h with h | ⟨nbs, rest, hrs, hx⟩
    · exact recvLoop_doexit_ne hd rs _ h
    · rw [hrs]; exact ((serve_data hd s nbs rest).2 hx).1
  obtain ⟨c1, c2, c3⟩ := (final_closed hd _ (serve_final hd s rs)).2 hne
  exact ⟨hne, c1, c2, c3, fun rs1 => (final_closed hd _ (serve_final hd s rs1)).1⟩

/-- C13 amended, on a time-out after the chunk `GET /ind`. -/
theorem c13_closed_exactly_once_witness :
    (serve_get_request Htdocs.sample State.zero
        [Recv.data ⟨bytes "GET /ind", []⟩, Recv.recvErr]).doexit = 2 ∧
    (serve_get_request Htdocs.sample State.zero
        [Recv.data ⟨bytes "GET /ind", []⟩, Recv.recvErr]).conn.count ConnOp.close = 1 :=
  ⟨by decide,
    (c13_closed_exactly_once Htdocs.sample State.zero
      [Recv.data ⟨bytes "GET /ind", []⟩, Recv.recvErr]
      (Or.inl ⟨Recv.recvErr, by decide, Or.inl rfl⟩)).2.1⟩

/-- C14: when the data chunks received so far carry no byte on which `charProcess` returns a
code other than `CHARPROC_OK` and then `netconn_recv` fails (time-out included) or
`netconn_err` reports an error, `serve_get_request` writes nothing: its only call on the
connection is the close, and `doexit` is 2 or 3; and every run that ends with `doexit` 2 or 3
has sent no byte. -/
theorem c14_transport_failure_silent (hd : Htdocs) (s : State) (nbs : List Netbuf)
    (fail : Recv) (rest : List Recv)
    (hfail : fail = Recv.recvErr ∨ ∃ b, fail = Recv.connErr b)
    (hok : ∀ x ∈ (charProcessAll (charProcessInit s) (nbs.flatMap Netbuf.bytes)).2,
      x = CHARPROC_OK) :
    (serve_get_request hd s (nbs.map Recv.data ++ fail :: rest)).conn = [ConnOp.close] ∧
    sent (serve_get_request hd s (nbs.map Recv.data ++ fail :: rest)).conn = [] ∧
    ((serve_get_request hd s (nbs.map Recv.data ++ fail :: rest)).doexit = 2
      ∨ (serve_get_request hd s (nbs.map Recv.data ++ fail :: rest)).doexit = 3) ∧
    ∀ rs : List Recv, (serve_get_request hd s rs).doexit = 2
        ∨ (serve_get_request hd s rs).doexit = 3 →
      sent (serve_get_request hd s rs).conn = [] := by
  obtain ⟨w, hw, he⟩ := (serve_data hd s nbs (fail :: rest)).1 hok
  have hgen : ∀ rs : List Recv, (serve_get_request hd s rs).doexit = 2
      ∨ (serve_get_request hd s rs).doexit = 3 →
      sent (serve_get_request hd s rs).conn = [] := by
    intro rs h23
    rcases serve_final hd s rs with hI | ⟨-, hc, -⟩ | ⟨hF, -⟩ | ⟨hD, -⟩
    · rw [hI.2.1]; rfl
    · rw [hc]; rfl
    · rw [hF.1] at h23; rcases h23 with h | h <;> exact absurd h (by decide)
    · rw [hD.1] at h23; rcases h23 with h | h <;> exact absurd h (by decide)
  rw [he]
  rcases hfail with hf | ⟨b, hf⟩
  · subst hf
    have e : recvLoop hd w (Recv.recvErr :: rest)
        = { w with doexit := 2, conn := w.conn ++ [ConnOp.close] } := by
      simp only [recvLoop]; rw [if_neg (by decide)]
    rw [e, hw.2.1]
    exact ⟨rfl, rfl, Or.inl rfl, hgen⟩
  · subst hf
    have e : recvLoop hd w (Recv.connErr b :: rest)
        = { w with doexit := 3, conn := w.conn ++ [ConnOp.close] } := by
      simp only [recvLoop]; rw [if_neg (by decide)]
    rw [e, hw.2.1]
    exact ⟨rfl, rfl, Or.inr rfl, hgen⟩

/-- C14, on a time-out after the chunks `GET /te` and `stform.htm?a=`. -/
theorem c14_transport_failure_silent_witness :
    (∀ x ∈ (charProcessAll (charProcessInit State.zero)
        ([(⟨bytes "GET /te", []⟩ : Netbuf), ⟨bytes "stform.htm?a=", []⟩].flatMap
          Netbuf.bytes)).2, x = CHARPROC_OK) ∧
    (serve_get_request Htdocs.sample State.zero
        ([(⟨bytes "GET /te", []⟩ : Netbuf), ⟨bytes "stform.htm?a=", []⟩].map Recv.data
          ++ Recv.recvErr :: [])).conn = [ConnOp.close] :=
  ⟨by decide,
    (c14_transport_failure_silent Htdocs.sample State.zero
      [⟨bytes "GET /te", []⟩, ⟨bytes "stform.htm?a=", []⟩] Recv.recvErr []
      (Or.inl rfl) (by decide)).1⟩

/-- C15: once `charProcess` has returned `CHARPROC_FINISHED` or a negative code, nothing
that follows matters. If the bytes `p` make some call return a code other than
`CHARPROC_OK`, then chunks carrying `p` and chunks carrying `p` followed by more bytes, each
followed by any further transport results, give the same calls of `charProcess`, the same
variables, the same calls on the connection and the same `doexit`; and in the calls of every
run a code other than `CHARPROC_OK` is the last one. -/
theorem c15_terminal_stops (hd : Htdocs) (s : State) (nbs1 nbs2 : List Netbuf)
    (rest1 rest2 : List Recv) (p more : List Nat)
    (h1 : nbs1.flatMap Netbuf.bytes = p) (h2 : nbs2.flatMap Netbuf.bytes = p ++ more)
    (hterm : ∃ x ∈ (charProcessAll (charProcessInit s) p).2, x ≠ CHARPROC_OK) :
    serve_get_request hd s (nbs1.map Recv.data ++ rest1)
      = serve_get_request hd s (nbs2.map Recv.data ++ rest2) ∧
    ∀ (rs : List Recv) (pre post : List (Nat × Int)) (x : Nat × Int),
      (serve_get_request hd s rs).calls = pre ++ x :: post → x.2 ≠ CHARPROC_OK →
      post = [] := by
  refine ⟨?_, fun rs pre post x hc hx =>
    final_terminal_last hd _ (serve_final hd s rs) pre post x hc hx⟩
  have hp : ¬ (forLoop hd ⟨charProcessInit s, [], [], 0⟩ p).doexit = 0 := by
    intro h0
    obtain ⟨x, hx, hne⟩ := hterm
    exact hne ((forLoop_doexit_iff hd p ⟨charProcessInit s, [], [], 0⟩ rfl).1 h0 x hx)
  have hterm2 : ∃ x ∈ (charProcessAll (charProcessInit s) (p ++ more)).2,
      x ≠ CHARPROC_OK := by
    obtain ⟨x, hx, hne⟩ := hterm
    refine ⟨x, ?_, hne⟩
    rw [charProcessAll_append]
    exact List.mem_append_left _ hx
  rw [((serve_data hd s nbs1 rest1).2 (by rw [h1]; exact hterm)).2,
    ((serve_data hd s nbs2 rest2).2 (by rw [h2]; exact hterm2)).2, h1, h2,
    forLoop_append hd p more _ rfl, if_neg hp]

/-- C15, on `GET /a ` alone and on `GET /a junk` cut into three segments and followed by a
time-out. -/
theorem c15_terminal_stops_witness :
    (∃ x ∈ (charProcessAll (charProcessInit State.zero) (bytes "GET /a ")).2,
      x ≠ CHARPROC_OK) ∧
    serve_get_request Htdocs.sample State.zero
        ([(⟨bytes "GET /a ", []⟩ : Netbuf)].map Recv.data ++ [])
      = serve_get_request Htdocs.sample State.zero
          ([(⟨bytes "GET /", [bytes "a jun"]⟩ : Netbuf), ⟨bytes "k", []⟩].map Recv.data
            ++ [Recv.recvErr]) :=
  ⟨by decide,
    (c15_terminal_stops Htdocs.sample State.zero [⟨bytes "GET /a ", []⟩]
      [⟨bytes "GET /", [bytes "a jun"]⟩, ⟨bytes "k", []⟩] [] [Recv.recvErr]
      (bytes "GET /a ") (bytes "junk") (by decide) (by decide) (by decide)).1⟩

/-- C16, as stated, fails: a request with ten pairs leaves `serve_get_request` in
`urlState_queryVal` with `cntElements = 10`; and after `GET /?=` eleven spaces, each answered
by `CHARPROC_FINISHED`, leave `cntElements = 11`: before the eleventh, `urlState` is
`urlState_queryVal` with `cntElements = 10`, and the eleventh stores into
`queryList[10].value`, past the last entry. -/
theorem c16_counterexample :
    (serve_get_request Htdocs.sample State.zero
        [Recv.data ⟨bytes "GET /?a=1&a=1&a=1&a=1&a=1&a=1&a=1&a=1&a=1&a=1 ", []⟩]).st.urlState
      = urlState_queryVal ∧
    (serve_get_request Htdocs.sample State.zero
        [Recv.data ⟨bytes "GET /?a=1&a=1&a=1&a=1&a=1&a=1&a=1&a=1&a=1&a=1 ", []⟩]).st.cntElements
      = 10 ∧
    (charProcessAll (charProcessInit State.zero)
        (bytes "GET /?=" ++ List.replicate 11 0x20)).1.cntElements = 11 ∧
    (charProcessAll (charProcessInit State.zero)
        (bytes "GET /?=" ++ List.replicate 10 0x20)).1.urlState = urlState_queryVal ∧
    (charProcessAll (charProcessInit State.zero)
        (bytes "GET /?=" ++ List.replicate 10 0x20)).1.cntElements = 10 ∧
    (charProcess (charProcessAll (charProcessInit State.zero)
        (bytes "GET /?=" ++ List.replicate 10 0x20)).1 0x20).wr
      = some ⟨Buf.value 10, 0, 0⟩ ∧
    (charProcessAll (charProcessInit State.zero)
        (bytes "GET /?=" ++ List.replicate 11 0x20)).2
      = List.replicate 7 CHARPROC_OK ++ List.replicate 11 CHARPROC_FINISHED := by
  decide

/-- C16, amended: in every state reached from `charProcessInit` by calls of `charProcess`
none of which returned `CHARPROC_FINISHED`, `cntChar` is at most 4 in `urlState_GET` and at
most 16 otherwise, `cntElements` is at most 10, and at most 9 in `urlState_queryVal`; so the
next call reads `getStr` below index 5 and stores only into an element that exists; and after
that call, `CHARPROC_FINISHED` included, `cntChar` is at most 16 and `cntElements` at most 10. -/
theorem c16_bounds (s0 : State) (bs : List Nat) (c : Nat)
    (h : ∀ x ∈ (charProcessAll (charProcessInit s0) bs).2, x ≠ CHARPROC_FINISHED) :
    ((charProcessAll (charProcessInit s0) bs).1.urlState = urlState_GET →
      (charProcessAll (charProcessInit s0) bs).1.cntChar ≤ 4) ∧
    (charProcessAll (charProcessInit s0) bs).1.cntChar ≤ 16 ∧
    (charProcessAll (charProcessInit s0) bs).1.cntElements ≤ 10 ∧
    ((charProcessAll (charProcessInit s0) bs).1.urlState = urlState_queryVal →
      (charProcessAll (charProcessInit s0) bs).1.cntElements ≤ 9) ∧
    (∀ w : Write, (charProcess (charProcessAll (charProcessInit s0) bs).1 c).wr = some w →
      w.InBounds) ∧
    (charProcess (charProcessAll (charProcessInit s0) bs).1 c).st.cntChar ≤ 16 ∧
    (charProcess (charProcessAll (charProcessInit s0) bs).1 c).st.cntElements ≤ 10 := by
  have hb := bounds_run bs _ (bounds_init s0) h
  have hf := bounds_finish _ c hb
  exact ⟨hb.1, hb.2.1, hb.2.2.1, hb.2.2.2, fun w hw => wr_inBounds _ c w hb hw, hf.1, hf.2⟩

/-- C16 amended, on ten pairs: before the final space `cntElements` is 9 in
`urlState_queryVal`, and the space stores into `queryList[9].value`. -/
theorem c16_bounds_witness :
    (∀ x ∈ (charProcessAll (charProcessInit State.zero)
        (bytes "GET /?a=1&a=1&a=1&a=1&a=1&a=1&a=1&a=1&a=1&a=1")).2, x ≠ CHARPROC_FINISHED) ∧
    (charProcessAll (charProcessInit State.zero)
        (bytes "GET /?a=1&a=1&a=1&a=1&a=1&a=1&a=1&a=1&a=1&a=1")).1.cntElements = 9 ∧
    (∀ w : Write, (charProcess (charProcessAll (charProcessInit State.zero)
        (bytes "GET /?a=1&a=1&a=1&a=1&a=1&a=1&a=1&a=1&a=1&a=1")).1 0x20).wr = some w →
      w.InBounds) ∧
    (charProcess (charProcessAll (charProcessInit State.zero)
        (bytes "GET /?a=1&a=1&a=1&a=1&a=1&a=1&a=1&a=1&a=1&a=1")).1 0x20).st.cntElements ≤ 10 :=
  ⟨by decide, by decide,
    (c16_bounds State.zero (bytes "GET /?a=1&a=1&a=1&a=1&a=1&a=1&a=1&a=1&a=1&a=1") 0x20
      (by decide)).2.2.2.2.1,
    (c16_bounds State.zero (bytes "GET /?a=1&a=1&a=1&a=1&a=1&a=1&a=1&a=1&a=1&a=1") 0x20
      (by decide)).2.2.2.2.2.2⟩

/-- C17: in every state `serve_get_request` reaches from storage of the declared shape,
while no request is completed the first `cntChar` characters of the field being accumulated
are of its class (`[0-9A-Za-z.]` for the filename, `[0-9A-Za-z._]` for a name, `[0-9A-Za-z.-]`
or the space made of `'+'` for a value), and when a request is completed the whole filename
and every name and value of `queryList[0..cntElements-1]` are; characters of these classes
are in `0x20..0x7E` and are none of `<`, `>`, `&`, `"`, `%`. -/
theorem c17_fields_in_class (hd : Htdocs) (s0 : State) (rs : List Recv) (hsh : s0.Shaped) :
    ((serve_get_request hd s0 rs).doexit ≠ 100 → Accumulating (serve_get_request hd s0 rs).st) ∧
    ((serve_get_request hd s0 rs).doexit = 100 → Completed (serve_get_request hd s0 rs).st) ∧
    ∀ c : Nat, FilenameChar c ∨ NameChar c ∨ StoredValueChar c →
      0x20 ≤ c ∧ c ≤ 0x7e ∧ c ≠ '<'.toNat ∧ c ≠ '>'.toNat ∧ c ≠ '&'.toNat ∧ c ≠ '"'.toNat
        ∧ c ≠ '%'.toNat := by
  refine ⟨serve_accumulating hd s0 rs hsh, ?_, charset_plain⟩
  intro h100
  obtain ⟨f, ps, g1, -, g3, -, g5⟩ := serve_completed hd s0 rs h100
  have ht := serve_traced hd s0 rs
  obtain ⟨c1, -, c3⟩ := g5 s0 hsh (by rw [ht])
  refine ⟨by rw [c1]; exact g1.2, ?_⟩
  intro e he
  rw [c3] at he
  obtain ⟨p, hp, rfl⟩ := List.mem_map.1 he
  exact ⟨(g3 p hp).1.2, storedValueChar_plusToSpace (g3 p hp).2.2⟩

/-- C17, on `GET /testform.htm?a=1&b=x+y ` received in two chunks by zeroed storage. -/
theorem c17_fields_in_class_witness :
    State.zero.Shaped ∧
    (serve_get_request Htdocs.sample State.zero
      [Recv.data ⟨bytes "GET /testform.htm?a=1", []⟩, Recv.data ⟨bytes "&b=x+y ", []⟩]).doexit
      = 100 ∧
    Completed (serve_get_request Htdocs.sample State.zero
      [Recv.data ⟨bytes "GET /testform.htm?a=1", []⟩, Recv.data ⟨bytes "&b=x+y ", []⟩]).st ∧
    Accumulating (serve_get_request Htdocs.sample State.zero
      [Recv.data ⟨bytes "GET /testform.htm?a=1", []⟩]).st :=
  ⟨by decide, by decide,
    (c17_fields_in_class Htdocs.sample State.zero
      [Recv.data ⟨bytes "GET /testform.htm?a=1", []⟩, Recv.data ⟨bytes "&b=x+y ", []⟩]
      (by decide)).2.1 (by decide),
    (c17_fields_in_class Htdocs.sample State.zero
      [Recv.data ⟨bytes "GET /testform.htm?a=1", []⟩] (by decide)).1 (by decide)⟩

/-- C18: in a state with `cntChar ≤ 16` and `cntElements ≤ 10`, a byte in `0x20..0x7E` that
is not a delimiter of the state returns `CHARPROC_ERR_OWFL` if `cntChar = 16` or, in
`urlState_queryName`, `cntElements = 10`; otherwise `CHARPROC_ERR_WRONGCHAR` if it is outside
the class of the state (`'+'` belongs to the class in `urlState_queryVal`), and `CHARPROC_OK`
otherwise. The delimiters are accepted whatever `cntChar` is: space and `'?'` in
`urlState_filename`, `'='` in `urlState_queryName` while `cntElements < 10`, space and `'&'`
in `urlState_queryVal`. -/
theorem c18_error_classification (s : State) (c : Nat) (hp : Printable c)
    (hk : s.cntChar ≤ 16) (hm : s.cntElements ≤ 10) :
    (s.urlState = urlState_filename → c ≠ ' '.toNat → c ≠ '?'.toNat →
      (charProcess s c).ret
        = if s.cntChar = 16 then CHARPROC_ERR_OWFL
          else if FilenameChar c then CHARPROC_OK else CHARPROC_ERR_WRONGCHAR) ∧
    (s.urlState = urlState_queryName → c ≠ '='.toNat →
      (charProcess s c).ret
        = if s.cntChar = 16 ∨ s.cntElements = 10 then CHARPROC_ERR_OWFL
          else if NameChar c then CHARPROC_OK else CHARPROC_ERR_WRONGCHAR) ∧
    (s.urlState = urlState_queryVal → c ≠ ' '.toNat → c ≠ '&'.toNat →
      (charProcess s c).ret
        = if s.cntChar = 16 then CHARPROC_ERR_OWFL
          else if ValueChar c then CHARPROC_OK else CHARPROC_ERR_WRONGCHAR) ∧
    (s.urlState = urlState_filename →
      (charProcess s ' '.toNat).ret = CHARPROC_FINISHED
        ∧ (charProcess s '?'.toNat).ret = CHARPROC_OK) ∧
    (s.urlState = urlState_queryName → s.cntElements < 10 →
      (charProcess s '='.toNat).ret = CHARPROC_OK) ∧
    (s.urlState = urlState_queryVal →
      (charProcess s ' '.toNat).ret = CHARPROC_FINISHED
        ∧ (charProcess s '&'.toNat).ret = CHARPROC_OK) := by
  refine ⟨fun hs h1 h2 => ret_filename s c hs hp hk h1 h2,
    fun hs h1 => ret_queryName s c hs hp hk hm h1,
    fun hs h1 h2 => ret_queryVal s c hs hp hk h1 h2, fun hs => ?_, fun hs he => ?_,
    fun hs => ?_⟩
  · exact ⟨by rw [show ' '.toNat = 0x20 from rfl, charProcess_filename_space s hs],
      by rw [show '?'.toNat = 0x3f from rfl, charProcess_filename_question s hs]⟩
  · rw [show '='.toNat = 0x3d from rfl, charProcess_name_equals s hs he]
  · exact ⟨by rw [show ' '.toNat = 0x20 from rfl, charProcess_value_space s hs],
      by rw [show '&'.toNat = 0x26 from rfl, charProcess_value_amp s hs]⟩

/-- C18, after `GET /0123456789abcdef`, a filename of 16 characters: a further letter is an
overflow, a slash likewise, and the space still completes the request. -/
theorem c18_error_classification_witness :
    (charProcessAll (charProcessInit State.zero) (bytes "GET /0123456789abcdef")).1.cntChar
      = 16 ∧
    (charProcess (charProcessAll (charProcessInit State.zero)
        (bytes "GET /0123456789abcdef")).1 'g'.toNat).ret = CHARPROC_ERR_OWFL ∧
    (charProcess (charProcessAll (charProcessInit State.zero)
        (bytes "GET /0123456789abcde")).1 '/'.toNat).ret = CHARPROC_ERR_WRONGCHAR ∧
    (charProcess (charProcessAll (charProcessInit State.zero)
        (bytes "GET /0123456789abcdef")).1 ' '.toNat).ret = CHARPROC_FINISHED :=
  ⟨by decide,
    ((c18_error_classification
      (charProcessAll (charProcessInit State.zero) (bytes "GET /0123456789abcdef")).1
      'g'.toNat (by decide) (by decide) (by decide)).1 (by decide) (by decide)
      (by decide)).trans (by decide),
    ((c18_error_classification
      (charProcessAll (charProcessInit State.zero) (bytes "GET /0123456789abcde")).1
      '/'.toNat (by decide) (by decide) (by decide)).1 (by decide) (by decide)
      (by decide)).trans (by decide),
    ((c18_error_classification
      (charProcessAll (charProcessInit State.zero) (bytes "GET /0123456789abcdef")).1
      'g'.toNat (by decide) (by decide) (by decide)).2.2.2.1 (by decide)).1⟩

/-- C19: for any two contents of the parser variables of the declared shape on entry,
`serve_get_request` on the same transport results makes the same calls of `charProcess` with
the same results, ends with the same `doexit` and makes the same calls on the connection,
byte for byte; and when a request is completed the filename, `cntElements` and the entries
`queryList[0..cntElements-1]` are the same. -/
theorem c19_state_scoped (hd : Htdocs) (s1 s2 : State) (rs : List Recv) (h1 : s1.Shaped)
    (h2 : s2.Shaped) :
    (serve_get_request hd s1 rs).calls = (serve_get_request hd s2 rs).calls ∧
    (serve_get_request hd s1 rs).doexit = (serve_get_request hd s2 rs).doexit ∧
    (serve_get_request hd s1 rs).conn = (serve_get_request hd s2 rs).conn ∧
    ((serve_get_request hd s1 rs).doexit = 100 →
      cstr (serve_get_request hd s1 rs).st.filename
        = cstr (serve_get_request hd s2 rs).st.filename ∧
      (serve_get_request hd s1 rs).st.cntElements
        = (serve_get_request hd s2 rs).st.cntElements ∧
      entries (serve_get_request hd s1 rs).st = entries (serve_get_request hd s2 rs).st) := by
  have hs : SameCalls (serve_get_request hd s1 rs) (serve_get_request hd s2 rs) :=
    recvLoop_sameCalls hd rs _ _ ⟨rfl, rfl, rfl⟩
  obtain ⟨-, hcalls, hexit⟩ := hs
  have t1 := serve_traced hd s1 rs
  have t2 := serve_traced hd s2 rs
  have hcontent : (serve_get_request hd s1 rs).doexit = 100 →
      (cstr (serve_get_request hd s1 rs).st.filename
        = cstr (serve_get_request hd s2 rs).st.filename ∧
      (serve_get_request hd s1 rs).st.cntElements
        = (serve_get_request hd s2 rs).st.cntElements ∧
      entries (serve_get_request hd s1 rs).st = entries (serve_get_request hd s2 rs).st) ∧
      (serve_get_request hd s1 rs).st.cntElements ≤ 10 := by
    intro h100
    obtain ⟨f, ps, -, g2, -, -, g5⟩ := serve_completed hd s1 rs h100
    obtain ⟨a1, a2, a3⟩ := g5 s1 h1 (by rw [t1])
    obtain ⟨b1, b2, b3⟩ := g5 s2 h2 (by rw [hcalls, t2])
    exact ⟨⟨by rw [a1, b1], by rw [a2, b2], by rw [a3, b3]⟩, by rw [a2]; exact g2⟩
  refine ⟨hcalls, hexit, ?_, fun h100 => (hcontent h100).1⟩
  rw [final_conn hd _ (serve_final hd s1 rs), final_conn hd _ (serve_final hd s2 rs), ← hexit]
  by_cases h100 : (serve_get_request hd s1 rs).doexit = 100
  · obtain ⟨⟨c1, c2, c3⟩, c4⟩ := hcontent h100
    have sh1 := serve_shaped hd s1 rs h1
    have sh2 := serve_shaped hd s2 rs h2
    have l1 : (serve_get_request hd s1 rs).st.cntElements
        ≤ (serve_get_request hd s1 rs).st.queryList.length := by
      rw [sh1.2.1]; exact c4
    have l2 : (serve_get_request hd s2 rs).st.cntElements
        ≤ (serve_get_request hd s2 rs).st.queryList.length := by
      rw [sh2.2.1, ← c2]; exact c4
    rw [webpageProcess_congr hd _ _ c1 c2 c3 l1 l2]
  · rw [if_neg h100, if_neg h100]

/-- C19, on `GET /testform.htm?a=1 ` served from zeroed storage and from the storage an
earlier request with a longer filename and two entries has left. -/
theorem c19_state_scoped_witness :
    (serve_get_request Htdocs.sample State.zero
      [Recv.data ⟨bytes "GET /0123456789abcdef?name=value&n2=v2 ", []⟩]).st.Shaped ∧
    (serve_get_request Htdocs.sample State.zero
      [Recv.data ⟨bytes "GET /0123456789abcdef?name=value&n2=v2 ", []⟩]).st ≠ State.zero ∧
    (serve_get_request Htdocs.sample State.zero
      [Recv.data ⟨bytes "GET /testform.htm?a=1 ", []⟩]).conn
      = (serve_get_request Htdocs.sample
          (serve_get_request Htdocs.sample State.zero
            [Recv.data ⟨bytes "GET /0123456789abcdef?name=value&n2=v2 ", []⟩]).st
          [Recv.data ⟨bytes "GET /testform.htm?a=1 ", []⟩]).conn :=
  ⟨by decide, by decide,
    (c19_state_scoped Htdocs.sample State.zero
      (serve_get_request Htdocs.sample State.zero
        [Recv.data ⟨bytes "GET /0123456789abcdef?name=value&n2=v2 ", []⟩]).st
      [Recv.data ⟨bytes "GET /testform.htm?a=1 ", []⟩] (by decide) (by decide)).2.2.1⟩

/-- C20: `arrayProcess` makes exactly 1000 writes; the write for position `i` is the decimal
text of `i/2 + 1 + i/3`, preceded by one comma unless `i = 0`, so the bytes sent are the 1000
numbers separated by single commas with no comma at the end; each piece has at most 4
characters (the longest is `,833`) and fits, with its NUL, the 20 bytes of `val`. -/
theorem c20_array_formula (i : Nat) (hi : i < 1000) :
    arrayProcess.length = 1000 ∧
    arrayProcess.getD i ConnOp.close
      = ConnOp.write ((if i = 0 then [] else bytes ",") ++ fmtDec (i / 2 + 1 + i / 3)) ∧
    decVal (fmtDec (i / 2 + 1 + i / 3)) = i / 2 + 1 + i / 3 ∧
    (∀ c ∈ fmtDec (i / 2 + 1 + i / 3), '0'.toNat ≤ c ∧ c ≤ '9'.toNat) ∧
    ((if i = 0 then [] else bytes ",") ++ fmtDec (i / 2 + 1 + i / 3)).length ≤ 4 ∧
    ((if i = 0 then [] else bytes ",") ++ fmtDec (i / 2 + 1 + i / 3) ++ [0]).length ≤ 20 ∧
    sent arrayProcess
      = (bytes ",").intercalate ((List.range 1000).map fun j => fmtDec (j / 2 + 1 + j / 3)) ∧
    (if 999 = 0 then [] else bytes ",") ++ fmtDec (999 / 2 + 1 + 999 / 3) = bytes ",833" := by
  obtain ⟨h1, h2⟩ := arrayProcess_eq
  obtain ⟨s1, s2, -, s4⟩ := fmtDec_spec (i / 2 + 1 + i / 3)
  have hlen : (fmtDec (i / 2 + 1 + i / 3)).length ≤ 3 := s4 3 (by decide) (by omega)
  have hpre : (if i = 0 then ([] : List Nat) else bytes ",").length ≤ 1 := by
    split <;> simp [bytes]
  refine ⟨by rw [h1]; simp, ?_, s1, s2, ?_, ?_, h2, by decide⟩
  · rw [h1, List.getD_eq_getElem?_getD, List.getElem?_map, List.getElem?_range hi]
    rfl
  · rw [List.length_append]; omega
  · rw [List.length_append, List.length_append]
    simp only [List.length_singleton]
    omega

/-- C20, at the last position 999, whose piece is `,833`. -/
theorem c20_array_formula_witness :
    arrayProcess.getD 999 ConnOp.close = ConnOp.write (bytes ",833") ∧
    ((if 999 = 0 then [] else bytes ",") ++ fmtDec (999 / 2 + 1 + 999 / 3) ++ [0]).length ≤ 20 :=
  ⟨(c20_array_formula 999 (by decide)).2.1, (c20_array_formula 999 (by decide)).2.2.2.2.2.1⟩

/-- C21: when `serve_get_request` has completed a request, `queryShow` writes the line
`Number of elements: N` with `N = cntElements`, the line `<table>`, one row
`<tr><td>name <td>value` for each of the entries `queryList[0..N-1]`, in order, and the line
`</table>`; these entries are the `N` pairs of the request line in the order sent; every line
has at most 46 characters and fits, with its NUL, the 200 bytes of `line`; and for the
filename `testform.htm` these writes stand between the begin and the end of the page. -/
theorem c21_testform_table (hd : Htdocs) (s0 : State) (rs : List Recv) (hsh : s0.Shaped)
    (h100 : (serve_get_request hd s0 rs).doexit = 100) :
    queryShow (serve_get_request hd s0 rs).st
      = [ConnOp.write (bytes "Number of elements: "
            ++ fmtDec (serve_get_request hd s0 rs).st.cntElements ++ bytes "\n"),
         ConnOp.write (bytes "<table>\n")]
        ++ (entries (serve_get_request hd s0 rs).st).map (fun e =>
            ConnOp.write (bytes "<tr><td>" ++ e.1 ++ bytes " <td>" ++ e.2 ++ bytes "\n"))
        ++ [ConnOp.write (bytes "</table>\n")] ∧
    (entries (serve_get_request hd s0 rs).st).length
      = (serve_get_request hd s0 rs).st.cntElements ∧
    (∃ (f : List Nat) (ps : List (List Nat × List Nat)),
      ((serve_get_request hd s0 rs).calls.map Prod.fst).filter (Printable ·)
        = requestLine f ps ∧
      entries (serve_get_request hd s0 rs).st = ps.map fun p => (p.1, plusToSpace p.2)) ∧
    (∀ d : List Nat, ConnOp.write d ∈ queryShow (serve_get_request hd s0 rs).st →
      d.length ≤ 46 ∧ (d ++ [0]).length ≤ 200) ∧
    (cstr (serve_get_request hd s0 rs).st.filename = bytes "testform.htm" →
      (serve_get_request hd s0 rs).conn
        = [ConnOp.write (bytes "HTTP/1.0 200 OK\r\n"),
           ConnOp.write (bytes "Server: edyht - based on lwIP\r\n"),
           ConnOp.write (bytes "Content-type: " ++ bytes "text/html" ++ bytes "\r\n\r\n"),
           ConnOp.write hd.htdocs_testform_begin_htm]
          ++ queryShow (serve_get_request hd s0 rs).st
          ++ [ConnOp.write hd.htdocs_testform_end_htm, ConnOp.close]) := by
  obtain ⟨f, ps, -, g2, g3, g4, g5⟩ := serve_completed hd s0 rs h100
  obtain ⟨-, a2, a3⟩ := g5 s0 hsh (by rw [serve_traced hd s0 rs])
  have sh := serve_shaped hd s0 rs hsh
  have hle : (serve_get_request hd s0 rs).st.cntElements
      ≤ (serve_get_request hd s0 rs).st.queryList.length := by
    rw [sh.2.1, a2]; exact g2
  have hq := queryShow_eq _ hle
  refine ⟨hq, by rw [a3, List.length_map, a2], ⟨f, ps, g4, a3⟩, ?_, ?_⟩
  · intro d hd1
    rw [hq] at hd1
    have hes : ∀ e ∈ entries (serve_get_request hd s0 rs).st,
        e.1.length ≤ 16 ∧ e.2.length ≤ 16 := by
      intro e he
      rw [a3] at he
      obtain ⟨p, hp, rfl⟩ := List.mem_map.1 he
      exact ⟨(g3 p hp).1.1, by rw [length_plusToSpace]; exact (g3 p hp).2.1⟩
    have := queryTable_lines _ _ (by rw [a2]; exact g2) hes d hd1
    rw [List.length_append, List.length_singleton]
    omega
  · intro hf
    rw [final_conn hd _ (serve_final hd s0 rs), h100, if_neg (by decide), if_neg (by decide),
      if_pos rfl, webpageProcess_testform hd _ hf]
    simp

/-- C21, on `GET /testform.htm?a=1&b=x+y ` received by zeroed storage. -/
theorem c21_testform_table_witness :
    State.zero.Shaped ∧
    (serve_get_request Htdocs.sample State.zero
      [Recv.data ⟨bytes "GET /testform.htm?a=1&b=x+y ", []⟩]).doexit = 100 ∧
    queryShow (serve_get_request Htdocs.sample State.zero
      [Recv.data ⟨bytes "GET /testform.htm?a=1&b=x+y ", []⟩]).st
      = [ConnOp.write (bytes "Number of elements: 2\n"), ConnOp.write (bytes "<table>\n"),
         ConnOp.write (bytes "<tr><td>a <td>1\n"), ConnOp.write (bytes "<tr><td>b <td>x y\n"),
         ConnOp.write (bytes "</table>\n")] ∧
    (serve_get_request Htdocs.sample State.zero
      [Recv.data ⟨bytes "GET /testform.htm?a=1&b=x+y ", []⟩]).conn
      = [ConnOp.write (bytes "HTTP/1.0 200 OK\r\n"),
         ConnOp.write (bytes "Server: edyht - based on lwIP\r\n"),
         ConnOp.write (bytes "Content-type: " ++ bytes "text/html" ++ bytes "\r\n\r\n"),
         ConnOp.write Htdocs.sample.htdocs_testform_begin_htm]
        ++ queryShow (serve_get_request Htdocs.sample State.zero
            [Recv.data ⟨bytes "GET /testform.htm?a=1&b=x+y ", []⟩]).st
        ++ [ConnOp.write Htdocs.sample.htdocs_testform_end_htm, ConnOp.close] :=
  ⟨by decide, by decide, by decide,
    (c21_testform_table Htdocs.sample State.zero
      [Recv.data ⟨bytes "GET /testform.htm?a=1&b=x+y ", []⟩] (by decide) (by decide)).2.2.2.2
      (by decide)⟩

/-- C22: a call of `charProcess` that returns a negative code leaves `urlState`, `cntChar`,
`cntElements`, `filename` and `queryList` as they were and stores nothing, so the next call
behaves as if the failed one had not been made, and the bytes that follow are parsed as
without it; in `serve_get_request` a call that returned a negative code is the last one, with
`doexit = 4` and the variables as before that call. -/
theorem c22_errors_atomic (s : State) (c : Nat) (h : (charProcess s c).ret < 0) :
    (charProcess s c).st = s ∧
    (charProcess s c).wr = none ∧
    (∀ c2 : Nat, charProcess (charProcess s c).st c2 = charProcess s c2) ∧
    (∀ more : List Nat, charProcessAll s (c :: more)
      = ((charProcessAll s more).1, (charProcess s c).ret :: (charProcessAll s more).2)) ∧
    ∀ (hd : Htdocs) (s0 : State) (rs : List Recv) (pre post : List (Nat × Int))
      (x : Nat × Int),
      (serve_get_request hd s0 rs).calls = pre ++ x :: post → x.2 < 0 →
      post = [] ∧ (serve_get_request hd s0 rs).doexit = 4 ∧
        (serve_get_request hd s0 rs).st
          = (charProcessAll (charProcessInit s0) (pre.map Prod.fst)).1 := by
  have hk := error_keeps s c h
  have h1 : (charProcess s c).st = s := by rw [hk]
  have h2 : (charProcess s c).wr = none := by rw [hk]
  refine ⟨h1, h2, fun c2 => by rw [h1], fun more => ?_,
    fun hd s0 rs pre post x hc hx => serve_error_last hd s0 rs pre post x hc hx⟩
  simp only [charProcessAll, h1]

/-- C22, on `<` after `GET /a`: the call returns `CHARPROC_ERR_WRONGCHAR`, and `b` and the
space fed after it complete the request with the filename `ab`; the connection loop stops at
the `<`. -/
theorem c22_errors_atomic_witness :
    (charProcess (charProcessAll (charProcessInit State.zero) (bytes "GET /a")).1
      '<'.toNat).ret = CHARPROC_ERR_WRONGCHAR ∧
    charProcessAll (charProcessAll (charProcessInit State.zero) (bytes "GET /a")).1
        ('<'.toNat :: bytes "b ")
      = ((charProcessAll (charProcessAll (charProcessInit State.zero) (bytes "GET /a")).1
            (bytes "b ")).1,
          (charProcess (charProcessAll (charProcessInit State.zero) (bytes "GET /a")).1
            '<'.toNat).ret
          :: (charProcessAll (charProcessAll (charProcessInit State.zero) (bytes "GET /a")).1
            (bytes "b ")).2) ∧
    (charProcessAll (charProcessInit State.zero) (bytes "GET /a<b ")).2
      = List.replicate 6 CHARPROC_OK
        ++ [CHARPROC_ERR_WRONGCHAR, CHARPROC_OK, CHARPROC_FINISHED] ∧
    cstr (charProcessAll (charProcessInit State.zero) (bytes "GET /a<b ")).1.filename
      = bytes "ab" ∧
    (serve_get_request Htdocs.sample State.zero
      [Recv.data ⟨bytes "GET /a<b ", []⟩]).calls.length = 7 :=
  ⟨by decide,
    (c22_errors_atomic (charProcessAll (charProcessInit State.zero) (bytes "GET /a")).1
      '<'.toNat (by decide)).2.2.2.1 (bytes "b "),
    by decide, by decide, by decide⟩

end Edyht
